import Mathlib

/-!
# tiny-x86: a shallow embedding of the emulator core and its instruction cache

The C sources `cache.h`, `cache.c`, `tiny_x86.h` and `tiny_x86.c` are embedded
as pure Lean functions.  Machine integers are bounded naturals (`Fin`) whose
arithmetic is written out with an explicit reduction modulo `2 ^ w`, the way C
evaluates in `int` and truncates on the store.  C arrays are total functions
from indices; the code only addresses indices inside the declared bounds
(`index & 31`, `offset & 7`, an 8-bit stack pointer).
-/

namespace TinyX86

/-! ## Machine integers -/

/-- The C type `uint8_t`. -/
abbrev U8 := Fin 256

/-- The C type `uint32_t`. -/
abbrev U32 := Fin 4294967296

/-- Conversion of a non-negative `int` value to `uint8_t`. -/
def toU8 (n : Nat) : U8 := ⟨n % 256, Nat.mod_lt n (by decide)⟩

/-- Conversion of a possibly negative `int` value to `uint8_t`. -/
def intToU8 (z : Int) : U8 :=
  ⟨(z % 256).toNat, by
    have h1 := Int.emod_lt_of_pos z (show (0 : Int) < 256 by decide)
    have h2 := Int.emod_nonneg z (show (256 : Int) ≠ 0 by decide)
    omega⟩

/-- The post-increment `x++` of a `uint32_t` counter. -/
def incU32 (x : U32) : U32 := ⟨(x.val + 1) % 4294967296, Nat.mod_lt _ (by decide)⟩

/-- The cast `(int8_t)value` of a byte. -/
def sext8 (v : U8) : Int := if v.val < 128 then (v.val : Int) else (v.val : Int) - 256

/-- Conversion of an `int` bit pattern below `2 ^ 16` to `int16_t`. -/
def sext16 (n : Nat) : Int :=
  if n % 65536 < 32768 then ((n % 65536 : Nat) : Int) else ((n % 65536 : Nat) : Int) - 65536

/-- The operator `~` on the 32-bit pattern of a small non-negative `int`. -/
def bnot32 (n : Nat) : Nat := 4294967295 - n

/-! ## cache.h -/

def CACHE_SIZE : Nat := 256
def CACHE_LINE_SIZE : Nat := 8
def NUM_CACHE_LINES : Nat := CACHE_SIZE / CACHE_LINE_SIZE
def CACHE_TAG_BITS : Nat := 8

/-- The struct `CacheLine`; `data` has `CACHE_LINE_SIZE` entries. -/
structure CacheLine where
  valid : Bool
  tag : U8
  data : Nat → U8

/-- The struct `InstructionCache`; `lines` has `NUM_CACHE_LINES` entries. -/
structure InstructionCache where
  lines : Nat → CacheLine
  hits : U32
  misses : U32

/-! ## cache.c -/

def get_cache_index (address : Nat) : Nat :=
  (address / CACHE_LINE_SIZE) &&& (NUM_CACHE_LINES - 1)

def get_cache_tag (address : Nat) : U8 :=
  toU8 (address >>> CACHE_TAG_BITS)

def get_cache_offset (address : Nat) : Nat :=
  address &&& (CACHE_LINE_SIZE - 1)

/-- The function `init_cache`: `memset` of the whole cache to zero. -/
def init_cache : InstructionCache :=
  { lines := fun _ => { valid := false, tag := 0, data := fun _ => 0 },
    hits := 0,
    misses := 0 }

/-- The function `fill_cache_line`: the `memcpy` copies `CACHE_LINE_SIZE` bytes
starting at `memory[base_addr]`. -/
def fill_cache_line (cache : InstructionCache) (memory : Nat → U8) (address : Nat) :
    InstructionCache :=
  let index := get_cache_index address
  let tag := get_cache_tag address
  let base_addr := (address / CACHE_LINE_SIZE) * CACHE_LINE_SIZE
  let line := cache.lines index
  let line : CacheLine :=
    { valid := true,
      tag := tag,
      data := fun j => if j < CACHE_LINE_SIZE then memory (base_addr + j) else line.data j }
  { cache with lines := fun i => if i = index then line else cache.lines i }

/-- The function `cache_fetch_byte`, returning the byte and the updated cache.
The parameter `address` is a `uint16_t`. -/
def cache_fetch_byte (cache : InstructionCache) (memory : Nat → U8) (address : Nat) :
    U8 × InstructionCache :=
  let index := get_cache_index address
  let tag := get_cache_tag address
  let offset := get_cache_offset address
  let line := cache.lines index
  if !line.valid || line.tag ≠ tag then
    let cache := { cache with misses := incU32 cache.misses }
    let cache := fill_cache_line cache memory address
    ((cache.lines index).data offset, cache)
  else
    let cache := { cache with hits := incU32 cache.hits }
    ((cache.lines index).data offset, cache)

/-! ## tiny_x86.h -/

def MEMORY_SIZE : Nat := 256
def FLAG_CARRY : Nat := 0x01
def FLAG_ZERO : Nat := 0x40
def FLAG_SIGN : Nat := 0x80

/-- The struct `CPU`.  The eight named bytes are listed in their declaration
order, which is also their order inside the union with `regs[8]`. -/
structure CPU where
  al : U8
  ah : U8
  bl : U8
  bh : U8
  cl : U8
  ch : U8
  dl : U8
  dh : U8
  memory : Nat → U8
  ip : U8
  sp : U8
  flags : U8
  icache : InstructionCache

/-- A non-null `uint8_t *` into the register block of a `CPU`: the named byte
it points at. -/
inductive Reg8 where
  | al | ah | bl | bh | cl | ch | dl | dh
  deriving DecidableEq, Repr

/-- Reading through a register pointer, `*p`. -/
def CPU.read (cpu : CPU) : Reg8 → U8
  | .al => cpu.al
  | .ah => cpu.ah
  | .bl => cpu.bl
  | .bh => cpu.bh
  | .cl => cpu.cl
  | .ch => cpu.ch
  | .dl => cpu.dl
  | .dh => cpu.dh

/-- Writing through a register pointer, `*p = v`. -/
def CPU.write (cpu : CPU) (p : Reg8) (v : U8) : CPU :=
  match p with
  | .al => { cpu with al := v }
  | .ah => { cpu with ah := v }
  | .bl => { cpu with bl := v }
  | .bh => { cpu with bh := v }
  | .cl => { cpu with cl := v }
  | .ch => { cpu with ch := v }
  | .dl => { cpu with dl := v }
  | .dh => { cpu with dh := v }

/-- The union member `regs[8]` overlays the named bytes in declaration order. -/
def regsSlot (i : Nat) : Option Reg8 :=
  match i with
  | 0 => some .al
  | 1 => some .ah
  | 2 => some .bl
  | 3 => some .bh
  | 4 => some .cl
  | 5 => some .ch
  | 6 => some .dl
  | 7 => some .dh
  | _ => none

/-- The assignment `cpu->memory[a] = v`. -/
def CPU.store (cpu : CPU) (a : U8) (v : U8) : CPU :=
  { cpu with memory := fun i => if i = a.val then v else cpu.memory i }

/-! ## tiny_x86.c -/

/-- The function `init_cpu`: zero everything, then set the stack pointer. -/
def init_cpu : CPU :=
  { al := 0, ah := 0, bl := 0, bh := 0, cl := 0, ch := 0, dl := 0, dh := 0,
    memory := fun _ => 0,
    ip := 0,
    sp := toU8 (MEMORY_SIZE - 1),
    flags := 0,
    icache := init_cache }

/-- The function `update_flags`. -/
def update_flags (cpu : CPU) (result : U8) : CPU :=
  let cpu : CPU :=
    if result.val = 0 then
      { cpu with flags := toU8 (cpu.flags.val ||| FLAG_ZERO) }
    else
      { cpu with flags := toU8 (cpu.flags.val &&& bnot32 FLAG_ZERO) }
  if result.val &&& 0x80 ≠ 0 then
    { cpu with flags := toU8 (cpu.flags.val ||| FLAG_SIGN) }
  else
    { cpu with flags := toU8 (cpu.flags.val &&& bnot32 FLAG_SIGN) }

/-- The function `get_register`; `none` is the `NULL` of the default branch. -/
def get_register (reg_code : U8) : Option Reg8 :=
  match reg_code.val &&& 0x07 with
  | 0 => some .al
  | 1 => some .cl
  | 2 => some .dl
  | 3 => some .bl
  | 4 => some .ah
  | 5 => some .ch
  | 6 => some .dh
  | 7 => some .bh
  | _ => none

/-- The function `fetch_byte`: read at `ip` through the cache, then `ip++`. -/
def fetch_byte (cpu : CPU) : U8 × CPU :=
  let r := cache_fetch_byte cpu.icache cpu.memory cpu.ip.val
  (r.1, { cpu with icache := r.2, ip := toU8 (cpu.ip.val + 1) })

/-- How a call of `execute` ends. -/
inductive Outcome where
  /-- The call returns to the run loop with this state. -/
  | next (cpu : CPU)
  /-- The call ends the process with `exit(code)` in this state. -/
  | exit (code : Nat) (cpu : CPU)
  /-- The call runs into behaviour on which the process does not go on (a null
  dereference, a division by zero). -/
  | undefined

/-- The field `(modrm >> 3) & 0x07`. -/
def modrm_reg (modrm : U8) : U8 := toU8 ((modrm.val >>> 3) &&& 0x07)

/-- The field `modrm & 0x07`. -/
def modrm_rm (modrm : U8) : U8 := toU8 (modrm.val &&& 0x07)

/-- The pre-decrement `--cpu->sp`. -/
def CPU.decSp (cpu : CPU) : CPU := { cpu with sp := intToU8 ((cpu.sp.val : Int) - 1) }

/-- The post-increment `cpu->sp++`. -/
def CPU.incSp (cpu : CPU) : CPU := { cpu with sp := toU8 (cpu.sp.val + 1) }

/-- The statement `cpu->memory[--cpu->sp] = v`. -/
def CPU.push (cpu : CPU) (v : U8) : CPU :=
  let cpu := cpu.decSp
  cpu.store cpu.sp v

/-- The condition `cpu->flags & mask` of an `if`. -/
def CPU.flagSet (cpu : CPU) (mask : Nat) : Bool := cpu.flags.val &&& mask != 0

/-- The statement `cpu->ip += offset` for a signed `offset`. -/
def CPU.jump (cpu : CPU) (offset : Int) : CPU :=
  { cpu with ip := intToU8 ((cpu.ip.val : Int) + offset) }

/-- The count that a shift of a promoted `int` by the `uint8_t` count `shift`
takes: the 32-bit shift of the build uses the low five bits of the count, so
counts below 32 shift by themselves and a count of 32 shifts by 0. -/
def intShiftCount (shift : U8) : Nat := shift.val % 32

/-- The function `execute` (the logging calls have no effect on the state).
Every `case` of the `switch` is one arm of the `match`, in source order.
In `*dest >>= shift` and `*dest <<= shift` both operands are promoted to `int`
and the 32-bit shift takes the count `intShiftCount shift`; the result is the
shifted `int` truncated to 8 bits on the store, and the call returns for every
count.  In DIV the remainder divides by `*src` as re-read after AL was
written. -/
def execute (cpu : CPU) : Outcome :=
  let f := fetch_byte cpu
  let opcode := f.1
  let cpu := f.2
  match opcode.val with
  | 0xB0 | 0xB1 | 0xB2 | 0xB3 | 0xB4 | 0xB5 | 0xB6 | 0xB7 => -- MOV r8, imm8
    match get_register (intToU8 ((opcode.val : Int) - 0xB0)) with
    | some dest =>
      let f := fetch_byte cpu
      let value := f.1
      let cpu := f.2
      .next (cpu.write dest value)
    | none => .undefined
  | 0x88 => -- MOV r/m8, r8
    let f := fetch_byte cpu
    let modrm := f.1
    let cpu := f.2
    match get_register (modrm_rm modrm), get_register (modrm_reg modrm) with
    | some dest, some src => .next (cpu.write dest (cpu.read src))
    | _, _ => .undefined
  | 0x00 => -- ADD r/m8, r8
    let f := fetch_byte cpu
    let modrm := f.1
    let cpu := f.2
    match get_register (modrm_rm modrm), get_register (modrm_reg modrm) with
    | some dest, some src =>
      let value := toU8 ((cpu.read dest).val + (cpu.read src).val)
      let cpu := update_flags cpu value
      .next (cpu.write dest value)
    | _, _ => .undefined
  | 0x2C => -- SUB AL, imm8
    let f := fetch_byte cpu
    let value := f.1
    let cpu := f.2
    let cpu := { cpu with al := intToU8 ((cpu.al.val : Int) - (value.val : Int)) }
    .next (update_flags cpu cpu.al)
  | 0x28 => -- SUB r/m8, r8
    let f := fetch_byte cpu
    let modrm := f.1
    let cpu := f.2
    match get_register (modrm_rm modrm), get_register (modrm_reg modrm) with
    | some dest, some src =>
      let value := intToU8 (((cpu.read dest).val : Int) - ((cpu.read src).val : Int))
      let cpu := update_flags cpu value
      .next (cpu.write dest value)
    | _, _ => .undefined
  | 0xFE => -- INC/DEC r/m8
    let f := fetch_byte cpu
    let modrm := f.1
    let cpu := f.2
    match get_register (modrm_rm modrm) with
    | some dest =>
      let cpu :=
        if (modrm.val >>> 3) &&& 0x07 = 0 then
          cpu.write dest (toU8 ((cpu.read dest).val + 1))
        else
          cpu.write dest (intToU8 (((cpu.read dest).val : Int) - 1))
      .next (update_flags cpu (cpu.read dest))
    | none => .undefined
  | 0xF6 => -- MUL/DIV/NOT r/m8
    let f := fetch_byte cpu
    let modrm := f.1
    let cpu := f.2
    match get_register (modrm_rm modrm) with
    | some src =>
      match (modrm.val >>> 3) &&& 0x07 with
      | 4 => -- MUL
        let value := toU8 (cpu.al.val * (cpu.read src).val)
        let cpu := { cpu with al := toU8 (value.val &&& 0xFF) }
        let cpu := { cpu with ah := toU8 (value.val >>> 8) }
        .next cpu
      | 6 => -- DIV
        if (cpu.read src).val = 0 then
          .exit 1 cpu
        else
          let value := toU8 (((cpu.ah.val <<< 8) ||| cpu.al.val) / (cpu.read src).val)
          let cpu := { cpu with al := value }
          if (cpu.read src).val = 0 then
            .undefined
          else
            .next { cpu with
              ah := toU8 (((cpu.ah.val <<< 8) ||| cpu.al.val) % (cpu.read src).val) }
      | 2 => -- NOT
        .next (cpu.write src (toU8 (bnot32 (cpu.read src).val)))
      | _ => .next cpu
    | none => .undefined
  | 0x20 => -- AND r/m8, r8
    let f := fetch_byte cpu
    let modrm := f.1
    let cpu := f.2
    match get_register (modrm_rm modrm), get_register (modrm_reg modrm) with
    | some dest, some src =>
      let value := toU8 ((cpu.read dest).val &&& (cpu.read src).val)
      let cpu := update_flags cpu value
      .next (cpu.write dest value)
    | _, _ => .undefined
  | 0x08 => -- OR r/m8, r8
    let f := fetch_byte cpu
    let modrm := f.1
    let cpu := f.2
    match get_register (modrm_rm modrm), get_register (modrm_reg modrm) with
    | some dest, some src =>
      let value := toU8 ((cpu.read dest).val ||| (cpu.read src).val)
      let cpu := update_flags cpu value
      .next (cpu.write dest value)
    | _, _ => .undefined
  | 0xD0 | 0xD2 => -- SHR/SHL r/m8, 1 and SHR/SHL r/m8, CL
    let f := fetch_byte cpu
    let modrm := f.1
    let cpu := f.2
    match get_register (modrm_rm modrm) with
    | some dest =>
      let shift : U8 := if opcode.val = 0xD0 then 1 else cpu.cl
      if (modrm.val >>> 3) &&& 0x07 = 5 then -- SHR
        let cpu := cpu.write dest (toU8 ((cpu.read dest).val >>> intShiftCount shift))
        .next (update_flags cpu (cpu.read dest))
      else if (modrm.val >>> 3) &&& 0x07 = 4 then -- SHL
        let cpu := cpu.write dest (toU8 ((cpu.read dest).val <<< intShiftCount shift))
        .next (update_flags cpu (cpu.read dest))
      else
        .next (update_flags cpu (cpu.read dest))
    | none => .undefined
  | 0xEB => -- JMP rel8
    let f := fetch_byte cpu
    let value := f.1
    let cpu := f.2
    .next (cpu.jump (sext8 value))
  | 0x38 => -- CMP r/m8, r8
    let f := fetch_byte cpu
    let modrm := f.1
    let cpu := f.2
    match get_register (modrm_rm modrm), get_register (modrm_reg modrm) with
    | some dest, some src =>
      let value := intToU8 (((cpu.read dest).val : Int) - ((cpu.read src).val : Int))
      .next (update_flags cpu value)
    | _, _ => .undefined
  | 0x74 => -- JE rel8
    let f := fetch_byte cpu
    let value := f.1
    let cpu := f.2
    if cpu.flagSet FLAG_ZERO then .next (cpu.jump (sext8 value)) else .next cpu
  | 0x75 => -- JNE rel8
    let f := fetch_byte cpu
    let value := f.1
    let cpu := f.2
    if !(cpu.flagSet FLAG_ZERO) then .next (cpu.jump (sext8 value)) else .next cpu
  | 0x7F => -- JG rel8
    let f := fetch_byte cpu
    let value := f.1
    let cpu := f.2
    if !(cpu.flagSet FLAG_ZERO) && !(cpu.flagSet FLAG_SIGN) then
      .next (cpu.jump (sext8 value))
    else .next cpu
  | 0x7E => -- JLE rel8
    let f := fetch_byte cpu
    let offset := sext8 f.1
    let cpu := f.2
    let take_jump := cpu.flagSet FLAG_ZERO || cpu.flagSet FLAG_SIGN
    if take_jump then .next (cpu.jump offset) else .next cpu
  | 0xE8 => -- CALL rel16
    let f := fetch_byte cpu
    let lo := f.1
    let cpu := f.2
    let f := fetch_byte cpu
    let hi := f.1
    let cpu := f.2
    let offset := sext16 (lo.val ||| (hi.val <<< 8))
    let return_addr := cpu.ip
    let cpu := cpu.push return_addr
    .next (cpu.jump offset)
  | 0xC3 => -- RET
    let return_addr := cpu.memory cpu.sp.val
    let cpu := cpu.incSp
    .next { cpu with ip := return_addr }
  | 0x52 => -- PUSH DX
    let cpu := cpu.push cpu.dh
    let cpu := cpu.push cpu.dl
    .next cpu
  | 0x50 => -- PUSH AX
    let cpu := cpu.push cpu.ah
    let cpu := cpu.push cpu.al
    .next cpu
  | 0x58 => -- POP AX
    let cpu := { cpu with al := cpu.memory cpu.sp.val }
    let cpu := cpu.incSp
    let cpu := { cpu with ah := cpu.memory cpu.sp.val }
    let cpu := cpu.incSp
    .next cpu
  | 0x5A => -- POP DX
    let cpu := { cpu with dl := cpu.memory cpu.sp.val }
    let cpu := cpu.incSp
    let cpu := { cpu with dh := cpu.memory cpu.sp.val }
    let cpu := cpu.incSp
    .next cpu
  | 0x3C => -- CMP AL, imm8
    let f := fetch_byte cpu
    let value := f.1
    let cpu := f.2
    let result := intToU8 ((cpu.al.val : Int) - (value.val : Int))
    .next (update_flags cpu result)
  | 0xF4 => -- HLT
    .exit 0 cpu
  | _ => .exit 1 cpu

/-! ## Vocabulary of the statements: runs of fetches and of steps -/

/-- Successive `cache_fetch_byte` calls at the addresses of a list, all against
the same memory: the bytes returned, in order, and the final cache. -/
def fetchSeq (memory : Nat → U8) : InstructionCache → List Nat → List U8 × InstructionCache
  | cache, [] => ([], cache)
  | cache, a :: rest =>
    let r := cache_fetch_byte cache memory a
    let t := fetchSeq memory r.2 rest
    (r.1 :: t.1, t.2)

/-- The number of distinct 8-byte lines (distinct values of `address / 8`)
touched by a sequence of addresses. -/
def distinctLines (addrs : List Nat) : Nat :=
  ((addrs.map (fun a => a / 8)).dedup).length

/-- The line of `a` hits: it is valid and carries the tag of `a`. -/
def lineHits (cache : InstructionCache) (a : Nat) : Prop :=
  (cache.lines (get_cache_index a)).valid = true ∧
    (cache.lines (get_cache_index a)).tag = get_cache_tag a

/-- Every valid line of the cache holds the memory block it stands for. -/
def linesMirror (memory : Nat → U8) (cache : InstructionCache) : Prop :=
  ∀ i, i < 32 → (cache.lines i).valid = true →
    ∀ j, j < 8 → (cache.lines i).data j = memory (8 * i + j)

/-- Runs `n` consecutive `execute` steps that each fetch a MOV r8, imm8 opcode
(0xB0..0xB7) and return; `none` when one of them fetches another opcode or
does not return. -/
def movSteps : Nat → CPU → Option CPU
  | 0, cpu => some cpu
  | n + 1, cpu =>
    if 0xB0 ≤ (fetch_byte cpu).1.val ∧ (fetch_byte cpu).1.val ≤ 0xB7 then
      match execute cpu with
      | .next cpu' => movSteps n cpu'
      | _ => none
    else none

/-- The register encoding in the words of the specification (section 3):
0:AL, 1:CL, 2:DL, 3:BL, 4:AH, 5:CH, 6:DH, 7:BH; `none` beyond 7. -/
def specEncoding (i : Nat) : Option Reg8 :=
  match i with
  | 0 => some .al
  | 1 => some .cl
  | 2 => some .dl
  | 3 => some .bl
  | 4 => some .ah
  | 5 => some .ch
  | 6 => some .dh
  | 7 => some .bh
  | _ => none

/-- Reading `cpu->regs[i]`: the byte of the union at offset `i`; `none` when
`i` is outside the array. -/
def CPU.regsRead (cpu : CPU) (i : Nat) : Option U8 := (regsSlot i).map cpu.read

/-- Writing `cpu->regs[i] = v`; `none` when `i` is outside the array. -/
def CPU.regsWrite (cpu : CPU) (i : Nat) (v : U8) : Option CPU :=
  (regsSlot i).map (fun p => cpu.write p v)

/-- The first bytes of the opcode table of the specification (section 4.5). -/
def opcodeTable : List Nat :=
  [0xB0, 0xB1, 0xB2, 0xB3, 0xB4, 0xB5, 0xB6, 0xB7, 0x88, 0x00, 0x28, 0x2C, 0xFE, 0xF6,
   0x20, 0x08, 0xD0, 0xD2, 0xEB, 0x74, 0x75, 0x7F, 0x7E, 0x38, 0x3C, 0xE8, 0xC3,
   0x50, 0x52, 0x58, 0x5A, 0xF4]

/-- The next step fetches DIV r/m8 (0xF6 with reg field 6) on a register that
holds zero. -/
def divByZero (s : CPU) : Prop :=
  (fetch_byte s).1.val = 0xF6 ∧
  ((fetch_byte (fetch_byte s).2).1.val >>> 3) &&& 7 = 6 ∧
  ∃ src, get_register (toU8 ((fetch_byte (fetch_byte s).2).1.val &&& 7)) = some src ∧
    (s.read src).val = 0

/-- The state an outcome carries (after a return or at an exit) satisfies `P`. -/
def Outcome.carries (P : CPU → Prop) : Outcome → Prop
  | .next c => P c
  | .exit _ c => P c
  | .undefined => True

/-- Runs `n` consecutive `execute` steps that all return (the body of
`run_cpu`, `n` times); `none` when one of them does not return. -/
def runSteps : Nat → CPU → Option CPU
  | 0, cpu => some cpu
  | n + 1, cpu =>
    match execute cpu with
    | .next cpu' => runSteps n cpu'
    | _ => none

/-- The state after `init_cpu` and a loader that leaves `memory` in memory. -/
def bootState (memory : Nat → U8) : CPU := { init_cpu with memory := memory }

/-- What a step leaves of the cache and of the flags: the cache is the one
left by the first one, two or three fetches of the step, and every flag bit
other than ZF (bit 6) and SF (bit 7) is as before. -/
def stepFrame (s c : CPU) : Prop :=
  (c.icache = (fetch_byte s).2.icache ∨
    c.icache = (fetch_byte (fetch_byte s).2).2.icache ∨
    c.icache = (fetch_byte (fetch_byte (fetch_byte s).2).2).2.icache) ∧
  ∀ i, i ≠ 6 → i ≠ 7 → c.flags.val.testBit i = s.flags.val.testBit i

/-! ## Concrete states used by the witnesses and counterexamples -/

/-- Memory holding a program image at offset 0 and zero elsewhere. -/
def loadImage (prog : List U8) : Nat → U8 := fun i => prog.getD i 0

/-- A cold state with AL = 5, BL = 3 and the program `00 D8 F4` (ADD AL, BL; HLT). -/
def addDemo : CPU :=
  { init_cpu with al := 5, bl := 3, memory := loadImage [0x00, 0xD8, 0xF4] }

/-- The cold cache with the `hits` counter at its largest value, `2 ^ 32 - 1`. -/
def saturatedCache : InstructionCache := { init_cache with hits := 4294967295 }

/-- The state of scenario 6 (`B0 12 B4 34 50 B0 00 B4 00 58 F4`) when PUSH AX
is about to be fetched: AL = 0x12, AH = 0x34, IP = 4, cold cache. -/
def stackDemo : CPU :=
  { init_cpu with
    al := 0x12, ah := 0x34, ip := 4,
    memory := loadImage [0xB0, 0x12, 0xB4, 0x34, 0x50, 0xB0, 0x00, 0xB4, 0x00, 0x58, 0xF4] }

/-- A cold state at IP = 0 with the program `EB FE` (JMP to itself). -/
def jmpDemo : CPU := { init_cpu with memory := loadImage [0xEB, 0xFE] }

/-- The state of scenario 8 (`B0 05 3C 05 74 02 B0 01 B0 02 F4`) when CMP AL, 5
is about to be fetched: AL = 5, IP = 2, cold cache. -/
def cmpDemo : CPU :=
  { init_cpu with
    al := 5, ip := 2,
    memory := loadImage [0xB0, 0x05, 0x3C, 0x05, 0x74, 0x02, 0xB0, 0x01, 0xB0, 0x02, 0xF4] }

/-- The state of scenario 8 when JE +2 is about to be fetched after the
comparison came out equal: AL = 5, ZF set, IP = 4, cold cache. -/
def jeDemo : CPU := { cmpDemo with ip := 4, flags := 0x40 }

/-- A cold state with the given AL in front of the program `2C v F4`
(SUB AL, v; HLT). -/
def subDemo (al v : U8) : CPU := { init_cpu with al := al, memory := loadImage [0x2C, v, 0xF4] }

/-- The state `cmpDemo` with SUB AL, 5 (`2C 05`) in place of CMP AL, 5. -/
def subTwin : CPU :=
  { cmpDemo with
    memory := loadImage [0xB0, 0x05, 0x2C, 0x05, 0x74, 0x02, 0xB0, 0x01, 0xB0, 0x02, 0xF4] }

/-- A cold state with AL = 0x10, BL = 0x10 and the program `F6 E3 F4`
(MUL BL; HLT), whose product 0x0100 does not fit in a byte. -/
def mulDemo : CPU :=
  { init_cpu with al := 0x10, bl := 0x10, memory := loadImage [0xF6, 0xE3, 0xF4] }

/-- A cold state with AH = 1, AL = 0x2C, BL = 7 and the program `F6 F3 F4`
(DIV BL; HLT): AX = 300. -/
def divDemo : CPU :=
  { init_cpu with ah := 1, al := 0x2C, bl := 7, memory := loadImage [0xF6, 0xF3, 0xF4] }

/-- A cold state at IP = 0 with the program `E8 02 00 F4 00 C3`: CALL +2 to the
RET at address 5, returning to the HLT at address 3. -/
def callDemo : CPU := { init_cpu with memory := loadImage [0xE8, 0x02, 0x00, 0xF4, 0x00, 0xC3] }

/-- A cold state with AL = 1, CL = 32 and the program `D2 E0 F4`
(SHL AL, CL; HLT): a shift by the full width of `int`. -/
def shiftDemo : CPU :=
  { init_cpu with al := 1, cl := 32, memory := loadImage [0xD2, 0xE0, 0xF4] }

/-- A cold state with the given AL and the program `FE m F4` (INC/DEC by the
ModR/M byte `m`; HLT). -/
def incDemo (al m : U8) : CPU := { init_cpu with al := al, memory := loadImage [0xFE, m, 0xF4] }

/-- A cold state with AL = 0x42 and the program `B7 FF 88 C3 F4`
(MOV BH, 0xFF; MOV BL, AL; HLT). -/
def movDemo : CPU :=
  { init_cpu with al := 0x42, memory := loadImage [0xB7, 0xFF, 0x88, 0xC3, 0xF4] }

/-- The state `movDemo` when MOV BL, AL is about to be fetched. -/
def movRegDemo : CPU := { movDemo with ip := 2, bh := 0xFF }

/-- A cold state with AL = 0x80, CL = 0xFF and the program `D2 E8 F4`
(SHR AL, CL; HLT): a shift by 255. -/
def shrDemo : CPU :=
  { init_cpu with al := 0x80, cl := 0xFF, memory := loadImage [0xD2, 0xE8, 0xF4] }

/-- A cold state at IP = 0 in front of the given program. -/
def bootDemo (prog : List U8) : CPU := { init_cpu with memory := loadImage prog }

/-- A cold state with AH = 1, AL = 2 and the program `F6 F0 F4` (DIV AL; HLT):
the divisor is AL itself, AX = 258. -/
def divAlDemo : CPU :=
  { init_cpu with ah := 1, al := 2, memory := loadImage [0xF6, 0xF0, 0xF4] }

/-- A cold state with SP = 2, AL = 0xAA, AH = 0xBB and the program `50 11 F4`
(PUSH AX; ...): the push overwrites the bytes at addresses 1 and 0, inside the
block that the fetch of the PUSH has just cached. -/
def pushOverCode : CPU :=
  { init_cpu with al := 0xAA, ah := 0xBB, sp := 2, memory := loadImage [0x50, 0x11, 0xF4] }

/-! ## Frame lemmas for the helpers -/

@[simp] theorem read_write_same (cpu : CPU) (p : Reg8) (v : U8) : (cpu.write p v).read p = v := by
  cases p <;> rfl

theorem read_write_other (cpu : CPU) (p q : Reg8) (v : U8) (h : q ≠ p) :
    (cpu.write p v).read q = cpu.read q := by
  cases p <;> cases q <;> first | rfl | exact absurd rfl h

@[simp] theorem write_sp (cpu : CPU) (p : Reg8) (v : U8) : (cpu.write p v).sp = cpu.sp := by
  cases p <;> rfl

@[simp] theorem write_ip (cpu : CPU) (p : Reg8) (v : U8) : (cpu.write p v).ip = cpu.ip := by
  cases p <;> rfl

@[simp] theorem write_flags (cpu : CPU) (p : Reg8) (v : U8) :
    (cpu.write p v).flags = cpu.flags := by
  cases p <;> rfl

@[simp] theorem write_memory (cpu : CPU) (p : Reg8) (v : U8) :
    (cpu.write p v).memory = cpu.memory := by
  cases p <;> rfl

@[simp] theorem write_icache (cpu : CPU) (p : Reg8) (v : U8) :
    (cpu.write p v).icache = cpu.icache := by
  cases p <;> rfl

@[simp] theorem fetch_byte_read (cpu : CPU) (p : Reg8) :
    (fetch_byte cpu).2.read p = cpu.read p := by
  cases p <;> rfl

@[simp] theorem fetch_byte_sp (cpu : CPU) : (fetch_byte cpu).2.sp = cpu.sp := rfl

@[simp] theorem fetch_byte_flags (cpu : CPU) : (fetch_byte cpu).2.flags = cpu.flags := rfl

@[simp] theorem fetch_byte_memory (cpu : CPU) : (fetch_byte cpu).2.memory = cpu.memory := rfl

@[simp] theorem fetch_byte_ip (cpu : CPU) : (fetch_byte cpu).2.ip = toU8 (cpu.ip.val + 1) := rfl

/-- The flags byte that `update_flags` leaves, as a function of the old one. -/
theorem update_flags_eq (cpu : CPU) (b : U8) :
    update_flags cpu b = { cpu with flags := (update_flags cpu b).flags } := by
  unfold update_flags
  split_ifs <;> rfl

@[simp] theorem update_flags_read (cpu : CPU) (b : U8) (p : Reg8) :
    (update_flags cpu b).read p = cpu.read p := by
  rw [update_flags_eq]; cases p <;> rfl

@[simp] theorem update_flags_sp (cpu : CPU) (b : U8) : (update_flags cpu b).sp = cpu.sp := by
  rw [update_flags_eq]

@[simp] theorem update_flags_ip (cpu : CPU) (b : U8) : (update_flags cpu b).ip = cpu.ip := by
  rw [update_flags_eq]

@[simp] theorem update_flags_memory (cpu : CPU) (b : U8) :
    (update_flags cpu b).memory = cpu.memory := by
  rw [update_flags_eq]

@[simp] theorem update_flags_icache (cpu : CPU) (b : U8) :
    (update_flags cpu b).icache = cpu.icache := by
  rw [update_flags_eq]

set_option maxRecDepth 100000 in
theorem get_register_total : ∀ c : U8, (get_register c).isSome = true := by decide

theorem get_register_some (c : U8) : ∃ p, get_register c = some p :=
  Option.isSome_iff_exists.mp (get_register_total c)

set_option maxRecDepth 100000 in
theorem sign_bit_iff : ∀ b : U8, (b.val &&& 0x80 ≠ 0 ↔ 0x80 ≤ b.val) := by decide

theorem testBit_u8_high (x : U8) (i : Nat) (hi : 8 ≤ i) : x.val.testBit i = false := by
  apply Nat.testBit_lt_two_pow
  calc x.val < 256 := x.isLt
    _ = 2 ^ 8 := by norm_num
    _ ≤ 2 ^ i := Nat.pow_le_pow_right (by decide) hi

set_option maxRecDepth 100000 in
theorem flag_mask_bits : ∀ f : U8,
    ((toU8 (f.val ||| 0x40)).val &&& 0x40 ≠ 0) ∧
    ((toU8 (f.val &&& bnot32 0x40)).val &&& 0x40 = 0) ∧
    ((toU8 (f.val ||| 0x80)).val &&& 0x80 ≠ 0) ∧
    ((toU8 (f.val &&& bnot32 0x80)).val &&& 0x80 = 0) ∧
    ((toU8 (f.val ||| 0x80)).val &&& 0x40 = f.val &&& 0x40) ∧
    ((toU8 (f.val &&& bnot32 0x80)).val &&& 0x40 = f.val &&& 0x40) ∧
    (∀ i : Fin 8, i.val ≠ 6 → (toU8 (f.val ||| 0x40)).val.testBit i.val = f.val.testBit i.val) ∧
    (∀ i : Fin 8, i.val ≠ 6 →
      (toU8 (f.val &&& bnot32 0x40)).val.testBit i.val = f.val.testBit i.val) ∧
    (∀ i : Fin 8, i.val ≠ 7 → (toU8 (f.val ||| 0x80)).val.testBit i.val = f.val.testBit i.val) ∧
    (∀ i : Fin 8, i.val ≠ 7 →
      (toU8 (f.val &&& bnot32 0x80)).val.testBit i.val = f.val.testBit i.val) := by
  decide

theorem update_flags_flags (cpu : CPU) (b : U8) :
    (update_flags cpu b).flags =
      if b.val &&& 0x80 ≠ 0 then
        toU8 ((if b.val = 0 then toU8 (cpu.flags.val ||| 0x40)
          else toU8 (cpu.flags.val &&& bnot32 0x40)).val ||| 0x80)
      else
        toU8 ((if b.val = 0 then toU8 (cpu.flags.val ||| 0x40)
          else toU8 (cpu.flags.val &&& bnot32 0x40)).val &&& bnot32 0x80) := by
  unfold update_flags
  split_ifs <;> rfl

/-- The bits `update_flags` leaves in the flags byte. -/
theorem update_flags_bits (cpu : CPU) (b : U8) :
    ((update_flags cpu b).flags.val &&& FLAG_ZERO ≠ 0 ↔ b.val = 0) ∧
    ((update_flags cpu b).flags.val &&& FLAG_SIGN ≠ 0 ↔ 0x80 ≤ b.val) ∧
    (∀ i : Nat, i ≠ 6 → i ≠ 7 →
      (update_flags cpu b).flags.val.testBit i = cpu.flags.val.testBit i) := by
  have hs := sign_bit_iff b
  have bit : ∀ (x y : U8), (∀ i : Fin 8, i.val ≠ 6 → i.val ≠ 7 →
      x.val.testBit i.val = y.val.testBit i.val) →
      ∀ i : Nat, i ≠ 6 → i ≠ 7 → x.val.testBit i = y.val.testBit i := by
    intro x y h i h6 h7
    by_cases hi : i < 8
    · exact h ⟨i, hi⟩ h6 h7
    · rw [testBit_u8_high x i (by omega), testBit_u8_high y i (by omega)]
  obtain ⟨z1, z0, -, -, -, -, bz1, bz0, -, -⟩ := flag_mask_bits cpu.flags
  obtain ⟨-, -, s1a, s0a, k1a, k0a, -, -, bs1a, bs0a⟩ :=
    flag_mask_bits (toU8 (cpu.flags.val ||| 0x40))
  obtain ⟨-, -, s1b, s0b, k1b, k0b, -, -, bs1b, bs0b⟩ :=
    flag_mask_bits (toU8 (cpu.flags.val &&& bnot32 0x40))
  rw [update_flags_flags]
  simp only [FLAG_ZERO, FLAG_SIGN]
  by_cases hz : b.val = 0 <;> by_cases hsg : b.val &&& 0x80 ≠ 0
  · rw [if_pos hsg, if_pos hz]
    refine ⟨?_, ⟨fun _ => hs.mp hsg, fun _ => s1a⟩, bit _ _ fun i h6 h7 => ?_⟩
    · rw [k1a]; exact ⟨fun _ => hz, fun _ => z1⟩
    · rw [bs1a i h7, bz1 i h6]
  · rw [if_neg hsg, if_pos hz]
    refine ⟨?_, ⟨fun h => absurd s0a h, fun h => absurd (hs.mpr h) hsg⟩,
      bit _ _ fun i h6 h7 => ?_⟩
    · rw [k0a]; exact ⟨fun _ => hz, fun _ => z1⟩
    · rw [bs0a i h7, bz1 i h6]
  · rw [if_pos hsg, if_neg hz]
    refine ⟨?_, ⟨fun _ => hs.mp hsg, fun _ => s1b⟩, bit _ _ fun i h6 h7 => ?_⟩
    · rw [k1b]; exact ⟨fun h => absurd z0 h, fun h => absurd h hz⟩
    · rw [bs1b i h7, bz0 i h6]
  · rw [if_neg hsg, if_neg hz]
    refine ⟨?_, ⟨fun h => absurd s0b h, fun h => absurd (hs.mpr h) hsg⟩,
      bit _ _ fun i h6 h7 => ?_⟩
    · rw [k0b]; exact ⟨fun h => absurd z0 h, fun h => absurd h hz⟩
    · rw [bs0b i h7, bz0 i h6]

/-- C2: for every flags byte (the `flags` field of any CPU state) and every
result byte `b`, `update_flags` leaves a flags byte whose bit 0x40 (ZF) is set
iff `b = 0`, whose bit 0x80 (SF) is set iff `b ≥ 0x80`, and whose every other
bit equals the corresponding bit of the old flags byte. -/
theorem update_flags_spec (cpu : CPU) (b : U8) :
    ((update_flags cpu b).flags.val &&& FLAG_ZERO ≠ 0 ↔ b.val = 0) ∧
    ((update_flags cpu b).flags.val &&& FLAG_SIGN ≠ 0 ↔ 0x80 ≤ b.val) ∧
    (∀ i : Nat, i ≠ 6 → i ≠ 7 →
      (update_flags cpu b).flags.val.testBit i = cpu.flags.val.testBit i) :=
  update_flags_bits cpu b

/-! ## Dispatch of `execute` on the fetched opcode -/

theorem execute_add (s : CPU) (h : (fetch_byte s).1.val = 0x00) :
    execute s =
      match get_register (modrm_rm (fetch_byte (fetch_byte s).2).1),
        get_register (modrm_reg (fetch_byte (fetch_byte s).2).1) with
      | some dest, some src =>
        .next ((update_flags (fetch_byte (fetch_byte s).2).2
            (toU8 (((fetch_byte (fetch_byte s).2).2.read dest).val +
              ((fetch_byte (fetch_byte s).2).2.read src).val))).write dest
          (toU8 (((fetch_byte (fetch_byte s).2).2.read dest).val +
              ((fetch_byte (fetch_byte s).2).2.read src).val)))
      | _, _ => .undefined := by
  unfold execute
  simp only [h]

theorem execute_sub (s : CPU) (h : (fetch_byte s).1.val = 0x28) :
    execute s =
      match get_register (modrm_rm (fetch_byte (fetch_byte s).2).1),
        get_register (modrm_reg (fetch_byte (fetch_byte s).2).1) with
      | some dest, some src =>
        .next ((update_flags (fetch_byte (fetch_byte s).2).2
            (intToU8 ((((fetch_byte (fetch_byte s).2).2.read dest).val : Int) -
              (((fetch_byte (fetch_byte s).2).2.read src).val : Int)))).write dest
          (intToU8 ((((fetch_byte (fetch_byte s).2).2.read dest).val : Int) -
              (((fetch_byte (fetch_byte s).2).2.read src).val : Int))))
      | _, _ => .undefined := by
  unfold execute
  simp only [h]

theorem execute_and (s : CPU) (h : (fetch_byte s).1.val = 0x20) :
    execute s =
      match get_register (modrm_rm (fetch_byte (fetch_byte s).2).1),
        get_register (modrm_reg (fetch_byte (fetch_byte s).2).1) with
      | some dest, some src =>
        .next ((update_flags (fetch_byte (fetch_byte s).2).2
            (toU8 (((fetch_byte (fetch_byte s).2).2.read dest).val &&&
              ((fetch_byte (fetch_byte s).2).2.read src).val))).write dest
          (toU8 (((fetch_byte (fetch_byte s).2).2.read dest).val &&&
              ((fetch_byte (fetch_byte s).2).2.read src).val)))
      | _, _ => .undefined := by
  unfold execute
  simp only [h]

theorem execute_or (s : CPU) (h : (fetch_byte s).1.val = 0x08) :
    execute s =
      match get_register (modrm_rm (fetch_byte (fetch_byte s).2).1),
        get_register (modrm_reg (fetch_byte (fetch_byte s).2).1) with
      | some dest, some src =>
        .next ((update_flags (fetch_byte (fetch_byte s).2).2
            (toU8 (((fetch_byte (fetch_byte s).2).2.read dest).val |||
              ((fetch_byte (fetch_byte s).2).2.read src).val))).write dest
          (toU8 (((fetch_byte (fetch_byte s).2).2.read dest).val |||
              ((fetch_byte (fetch_byte s).2).2.read src).val)))
      | _, _ => .undefined := by
  unfold execute
  simp only [h]

theorem flagSet_iff (cpu : CPU) (mask : Nat) :
    cpu.flagSet mask = true ↔ cpu.flags.val &&& mask ≠ 0 := by
  simp [CPU.flagSet]

theorem ip_after_two_fetches (s : CPU) :
    (fetch_byte (fetch_byte s).2).2.ip.val = (s.ip.val + 2) % 256 := by
  simp only [fetch_byte_ip, toU8]
  omega

/-- What the write-back `update_flags(cpu, value); *dest = value;` leaves. -/
theorem alu_writeback (cpu : CPU) (dest : Reg8) (value : U8) :
    ((update_flags cpu value).write dest value).read dest = value ∧
    (((update_flags cpu value).write dest value).flagSet FLAG_ZERO = true ↔ value.val = 0) ∧
    (((update_flags cpu value).write dest value).flagSet FLAG_SIGN = true ↔ 0x80 ≤ value.val) ∧
    ((update_flags cpu value).write dest value).ip = cpu.ip ∧
    (∀ q, q ≠ dest → ((update_flags cpu value).write dest value).read q = cpu.read q) ∧
    ((update_flags cpu value).write dest value).sp = cpu.sp ∧
    ((update_flags cpu value).write dest value).memory = cpu.memory := by
  obtain ⟨hz, hs, -⟩ := update_flags_bits cpu value
  refine ⟨by simp, ?_, ?_, by simp, ?_, by simp, by simp⟩
  · rw [flagSet_iff, write_flags]; exact hz
  · rw [flagSet_iff, write_flags]; exact hs
  · intro q hq
    rw [read_write_other _ _ _ _ hq, update_flags_read]

set_option maxRecDepth 100000 in
theorem modrm_mod_ignored : ∀ m : U8,
    get_register (toU8 (m.val &&& 7)) = get_register (toU8 ((m.val % 64) &&& 7)) ∧
    get_register (toU8 ((m.val >>> 3) &&& 7)) =
      get_register (toU8 (((m.val % 64) >>> 3) &&& 7)) := by
  decide

/-- The frame shared by the two-operand instructions that write back: given the
value written, everything C1 says except the arithmetic. -/
theorem alu_frame (s : CPU) (dest : Reg8) (value : U8) :
    (((update_flags (fetch_byte (fetch_byte s).2).2 value).write dest value).flagSet FLAG_ZERO
        = true ↔
      (((update_flags (fetch_byte (fetch_byte s).2).2 value).write dest value).read dest).val
        = 0) ∧
    (((update_flags (fetch_byte (fetch_byte s).2).2 value).write dest value).flagSet FLAG_SIGN
        = true ↔
      0x80 ≤
        (((update_flags (fetch_byte (fetch_byte s).2).2 value).write dest value).read dest).val) ∧
    ((update_flags (fetch_byte (fetch_byte s).2).2 value).write dest value).ip.val
      = (s.ip.val + 2) % 256 ∧
    (∀ q, q ≠ dest →
      ((update_flags (fetch_byte (fetch_byte s).2).2 value).write dest value).read q
        = s.read q) ∧
    ((update_flags (fetch_byte (fetch_byte s).2).2 value).write dest value).sp = s.sp ∧
    ((update_flags (fetch_byte (fetch_byte s).2).2 value).write dest value).memory
      = s.memory := by
  obtain ⟨w1, w2, w3, w4, w5, w6, w7⟩ := alu_writeback (fetch_byte (fetch_byte s).2).2 dest value
  refine ⟨?_, ?_, ?_, ?_, ?_, ?_⟩
  · rw [w1]; exact w2
  · rw [w1]; exact w3
  · rw [w4]; exact ip_after_two_fetches s
  · intro q hq
    rw [w5 q hq, fetch_byte_read, fetch_byte_read]
  · rw [w6, fetch_byte_sp, fetch_byte_sp]
  · rw [w7, fetch_byte_memory, fetch_byte_memory]

/-- C1: for each of the opcodes 0x00 (ADD), 0x28 (SUB), 0x20 (AND), 0x08 (OR),
every CPU state that fetches that opcode and every ModR/M byte `m` fetched
after it: one `execute` step returns a state in which the register selected by
`m & 7` holds `op(d, s) mod 256` (`d`, `s` the prior values of the registers
selected by `m & 7` and `(m >> 3) & 7`; the selection only depends on the low
six bits of `m`), ZF is set iff that result is 0, SF iff it is at least 0x80,
IP has advanced by 2 modulo 256, and every other register, SP and memory are
unchanged. -/
theorem alu_rm8_r8_step (s : CPU) (m : U8)
    (hop : (fetch_byte s).1.val = 0x00 ∨ (fetch_byte s).1.val = 0x28 ∨
      (fetch_byte s).1.val = 0x20 ∨ (fetch_byte s).1.val = 0x08)
    (hm : (fetch_byte (fetch_byte s).2).1 = m) :
    ∃ dest src s',
      get_register (toU8 (m.val &&& 7)) = some dest ∧
      get_register (toU8 ((m.val >>> 3) &&& 7)) = some src ∧
      get_register (toU8 ((m.val % 64) &&& 7)) = some dest ∧
      get_register (toU8 (((m.val % 64) >>> 3) &&& 7)) = some src ∧
      execute s = .next s' ∧
      ((fetch_byte s).1.val = 0x00 →
        (s'.read dest).val = ((s.read dest).val + (s.read src).val) % 256) ∧
      ((fetch_byte s).1.val = 0x28 →
        ((s'.read dest).val : Int) = (((s.read dest).val : Int) - ((s.read src).val : Int)) % 256) ∧
      ((fetch_byte s).1.val = 0x20 →
        (s'.read dest).val = ((s.read dest).val &&& (s.read src).val) % 256) ∧
      ((fetch_byte s).1.val = 0x08 →
        (s'.read dest).val = ((s.read dest).val ||| (s.read src).val) % 256) ∧
      (s'.flagSet FLAG_ZERO = true ↔ (s'.read dest).val = 0) ∧
      (s'.flagSet FLAG_SIGN = true ↔ 0x80 ≤ (s'.read dest).val) ∧
      s'.ip.val = (s.ip.val + 2) % 256 ∧
      (∀ q, q ≠ dest → s'.read q = s.read q) ∧
      s'.sp = s.sp ∧
      s'.memory = s.memory := by
  obtain ⟨dest, hd⟩ := get_register_some (toU8 (m.val &&& 7))
  obtain ⟨src, hs⟩ := get_register_some (toU8 ((m.val >>> 3) &&& 7))
  have hd64 := (modrm_mod_ignored m).1
  have hs64 := (modrm_mod_ignored m).2
  rw [hd] at hd64
  rw [hs] at hs64
  have hd' : get_register (modrm_rm m) = some dest := hd
  have hs' : get_register (modrm_reg m) = some src := hs
  rcases hop with h | h | h | h
  · refine ⟨dest, src, _, hd, hs, hd64.symm, hs64.symm, ?_, ?_, ?_, ?_, ?_,
      alu_frame s dest (toU8 ((s.read dest).val + (s.read src).val))⟩
    · rw [execute_add s h, hm, hd', hs']
      simp only [fetch_byte_read]
    · intro _; rw [read_write_same]; rfl
    · intro h'; omega
    · intro h'; omega
    · intro h'; omega
  · refine ⟨dest, src, _, hd, hs, hd64.symm, hs64.symm, ?_, ?_, ?_, ?_, ?_,
      alu_frame s dest (intToU8 (((s.read dest).val : Int) - ((s.read src).val : Int)))⟩
    · rw [execute_sub s h, hm, hd', hs']
      simp only [fetch_byte_read]
    · intro h'; omega
    · intro _; rw [read_write_same]
      have h1 := Int.emod_nonneg (((s.read dest).val : Int) - ((s.read src).val : Int))
        (show (256 : Int) ≠ 0 by decide)
      simp only [intToU8]
      omega
    · intro h'; omega
    · intro h'; omega
  · refine ⟨dest, src, _, hd, hs, hd64.symm, hs64.symm, ?_, ?_, ?_, ?_, ?_,
      alu_frame s dest (toU8 ((s.read dest).val &&& (s.read src).val))⟩
    · rw [execute_and s h, hm, hd', hs']
      simp only [fetch_byte_read]
    · intro h'; omega
    · intro h'; omega
    · intro _; rw [read_write_same]; rfl
    · intro h'; omega
  · refine ⟨dest, src, _, hd, hs, hd64.symm, hs64.symm, ?_, ?_, ?_, ?_, ?_,
      alu_frame s dest (toU8 ((s.read dest).val ||| (s.read src).val))⟩
    · rw [execute_or s h, hm, hd', hs']
      simp only [fetch_byte_read]
    · intro h'; omega
    · intro h'; omega
    · intro h'; omega
    · intro _; rw [read_write_same]; rfl

/-- The witness of C1: the ADD of scenario 2 of the specification.  With AL = 5 and BL = 3
the bytes `00 D8` (ADD AL, BL) leave AL = 8, BL = 3, ZF and SF clear, IP = 2. -/
theorem alu_rm8_r8_step_witness :
    ((fetch_byte addDemo).1.val = 0x00 ∧ (fetch_byte (fetch_byte addDemo).2).1 = 0xD8) ∧
    ∃ s', execute addDemo = .next s' ∧ s'.al.val = 8 ∧ s'.bl.val = 3 ∧
      s'.flagSet FLAG_ZERO = false ∧ s'.flagSet FLAG_SIGN = false ∧ s'.ip.val = 2 := by
  refine ⟨⟨by decide, by decide⟩, ?_⟩
  obtain ⟨dest, src, s', hd, hs, -, -, hex, hadd, -, -, -, hz, hsf, hip, hfr, -, -⟩ :=
    alu_rm8_r8_step addDemo 0xD8 (Or.inl (by decide)) (by decide)
  have hd' : dest = Reg8.al := (Option.some.inj hd).symm
  have hs' : src = Reg8.bl := (Option.some.inj hs).symm
  subst hd' hs'
  have h8 : (s'.read Reg8.al).val = 8 := hadd (by decide)
  refine ⟨s', hex, h8, ?_, ?_, ?_, hip⟩
  · have := hfr Reg8.bl (by decide)
    exact congrArg Fin.val this
  · cases hf : s'.flagSet FLAG_ZERO
    · rfl
    · have := hz.mp hf; omega
  · cases hf : s'.flagSet FLAG_SIGN
    · rfl
    · have := hsf.mp hf; omega

/-! ## The instruction cache -/

set_option maxRecDepth 100000 in
theorem cache_address_split : ∀ a : Fin 256,
    get_cache_index a.val = a.val / 8 ∧ get_cache_offset a.val = a.val % 8 ∧
    get_cache_tag a.val = 0 := by
  decide

theorem cache_index_eq (a : Nat) (h : a < 256) : get_cache_index a = a / 8 :=
  (cache_address_split ⟨a, h⟩).1

theorem cache_offset_eq (a : Nat) (h : a < 256) : get_cache_offset a = a % 8 :=
  (cache_address_split ⟨a, h⟩).2.1

theorem cache_tag_eq (a : Nat) (h : a < 256) : get_cache_tag a = 0 :=
  (cache_address_split ⟨a, h⟩).2.2

theorem cache_fetch_hit (cache : InstructionCache) (memory : Nat → U8) (a : Nat)
    (h : lineHits cache a) :
    cache_fetch_byte cache memory a =
      ((cache.lines (get_cache_index a)).data (get_cache_offset a),
        { cache with hits := incU32 cache.hits }) := by
  unfold cache_fetch_byte
  simp [h.1, h.2]

theorem cache_fetch_miss (cache : InstructionCache) (memory : Nat → U8) (a : Nat)
    (h : ¬ lineHits cache a) :
    cache_fetch_byte cache memory a =
      (((fill_cache_line { cache with misses := incU32 cache.misses } memory a).lines
          (get_cache_index a)).data (get_cache_offset a),
        fill_cache_line { cache with misses := incU32 cache.misses } memory a) := by
  unfold cache_fetch_byte lineHits at *
  have : (!(cache.lines (get_cache_index a)).valid ||
      decide ((cache.lines (get_cache_index a)).tag ≠ get_cache_tag a)) = true := by
    cases hv : (cache.lines (get_cache_index a)).valid
    · simp
    · simp only [hv, true_and] at h
      simp [h]
  simp only [this, if_true]

theorem fill_lines (cache : InstructionCache) (memory : Nat → U8) (a : Nat) (i : Nat) :
    (fill_cache_line cache memory a).lines i =
      if i = get_cache_index a then
        { valid := true, tag := get_cache_tag a,
          data := fun j => if j < CACHE_LINE_SIZE then memory (a / CACHE_LINE_SIZE * CACHE_LINE_SIZE + j)
            else (cache.lines (get_cache_index a)).data j }
      else cache.lines i := rfl

theorem fill_hits (cache : InstructionCache) (memory : Nat → U8) (a : Nat) :
    (fill_cache_line cache memory a).hits = cache.hits := rfl

theorem fill_misses (cache : InstructionCache) (memory : Nat → U8) (a : Nat) :
    (fill_cache_line cache memory a).misses = cache.misses := rfl

/-- After any fetch at `a` the line of `a` hits. -/
theorem lineHits_after_fetch (cache : InstructionCache) (memory : Nat → U8) (a : Nat) :
    lineHits (cache_fetch_byte cache memory a).2 a := by
  by_cases h : lineHits cache a
  · rw [cache_fetch_hit cache memory a h]; exact h
  · rw [cache_fetch_miss cache memory a h]
    simp [lineHits, fill_lines]

theorem fetchSeq_append (memory : Nat → U8) (cache : InstructionCache) (xs ys : List Nat) :
    fetchSeq memory cache (xs ++ ys) =
      ((fetchSeq memory cache xs).1 ++ (fetchSeq memory (fetchSeq memory cache xs).2 ys).1,
        (fetchSeq memory (fetchSeq memory cache xs).2 ys).2) := by
  induction xs generalizing cache with
  | nil => rfl
  | cons a rest ih =>
    show fetchSeq memory cache (a :: (rest ++ ys)) = _
    simp only [fetchSeq, ih, List.cons_append]

theorem linesMirror_init (memory : Nat → U8) : linesMirror memory init_cache := by
  intro i _ hv
  simp [init_cache] at hv

/-- One fetch below 256 from a mirroring cache returns the memory byte and
leaves a mirroring cache. -/
theorem fetch_step_mirror (memory : Nat → U8) (cache : InstructionCache) (a : Nat)
    (ha : a < 256) (inv : linesMirror memory cache) :
    (cache_fetch_byte cache memory a).1 = memory a ∧
      linesMirror memory (cache_fetch_byte cache memory a).2 := by
  have hidx := cache_index_eq a ha
  have hoff := cache_offset_eq a ha
  have hsplit : 8 * (a / 8) + a % 8 = a := by omega
  by_cases h : lineHits cache a
  · rw [cache_fetch_hit cache memory a h]
    refine ⟨?_, inv⟩
    have := inv (a / 8) (by omega) (by rw [← hidx]; exact h.1) (a % 8) (by omega)
    simp only [hidx, hoff, this, hsplit]
  · rw [cache_fetch_miss cache memory a h]
    constructor
    · simp only [fill_lines, if_true, hoff, CACHE_LINE_SIZE]
      rw [if_pos (by omega)]
      congr 1
      omega
    · intro i hi hv j hj
      rw [fill_lines] at hv ⊢
      by_cases hia : i = get_cache_index a
      · simp only [hia, if_true, CACHE_LINE_SIZE]
        rw [if_pos hj, hidx]
        congr 1
        omega
      · simp only [hia, if_false] at hv ⊢
        exact inv i hi hv j hj

theorem fetchSeq_mirror (memory : Nat → U8) (addrs : List Nat) :
    ∀ cache, linesMirror memory cache → (∀ a ∈ addrs, a < 256) →
      (fetchSeq memory cache addrs).1 = addrs.map memory ∧
        linesMirror memory (fetchSeq memory cache addrs).2 := by
  induction addrs with
  | nil => intro cache inv _; exact ⟨rfl, inv⟩
  | cons a rest ih =>
    intro cache inv hlt
    obtain ⟨h1, h2⟩ := fetch_step_mirror memory cache a (hlt a (List.mem_cons_self a rest)) inv
    obtain ⟨h3, h4⟩ := ih _ h2 (fun x hx => hlt x (List.mem_cons_of_mem a hx))
    exact ⟨by simp only [fetchSeq, List.map_cons, h1, h3], h4⟩

/-- C3: for every memory `M` that does not change and every finite sequence of
addresses in [0, 256) fetched with `cache_fetch_byte` starting from
`init_cache`, every fetch at an address `a` returns `M[a]`; and after each
fetch (after the first `n` fetches, for every `n`) every valid line `i` holds
exactly the bytes `M[8i .. 8i+7]`. -/
theorem fetch_returns_memory (M : Nat → U8) (addrs : List Nat)
    (h : ∀ a ∈ addrs, a < 256) :
    (fetchSeq M init_cache addrs).1 = addrs.map M ∧
    ∀ n i, i < 32 → ((fetchSeq M init_cache (addrs.take n)).2.lines i).valid = true →
      ∀ j, j < 8 → ((fetchSeq M init_cache (addrs.take n)).2.lines i).data j = M (8 * i + j) := by
  refine ⟨(fetchSeq_mirror M addrs init_cache (linesMirror_init M) h).1, ?_⟩
  intro n
  exact (fetchSeq_mirror M (addrs.take n) init_cache (linesMirror_init M)
    (fun a ha => h a (List.mem_of_mem_take ha))).2

/-- The witness of C3: the addresses 0, 1, 2, 9, 0 fetched from a cold cache
in front of the image `B0 42 F4` return the bytes of that image. -/
theorem fetch_returns_memory_witness :
    (∀ a ∈ [0, 1, 2, 9, 0], a < 256) ∧
    (fetchSeq (loadImage [0xB0, 0x42, 0xF4]) init_cache [0, 1, 2, 9, 0]).1
      = [0xB0, 0x42, 0xF4, 0, 0xB0] :=
  ⟨by decide,
    (fetch_returns_memory (loadImage [0xB0, 0x42, 0xF4]) [0, 1, 2, 9, 0] (by decide)).1.trans
      rfl⟩

/-- The counters after a run from the cold cache, with the lines touched: the
valid lines are the touched ones, every tag is 0, `misses` counts the touched
lines and `hits` counts the other fetches modulo `2 ^ 32`. -/
theorem fetchSeq_counters (memory : Nat → U8) (addrs : List Nat)
    (h : ∀ a ∈ addrs, a < 256) :
    (∀ i, ((fetchSeq memory init_cache addrs).2.lines i).valid = true ↔
      i ∈ (addrs.map (fun a => a / 8)).toFinset) ∧
    (∀ i, ((fetchSeq memory init_cache addrs).2.lines i).tag = 0) ∧
    (fetchSeq memory init_cache addrs).2.misses.val
      = (addrs.map (fun a => a / 8)).toFinset.card ∧
    (fetchSeq memory init_cache addrs).2.hits.val
      = (addrs.length - (addrs.map (fun a => a / 8)).toFinset.card) % 4294967296 := by
  induction addrs using List.reverseRecOn with
  | nil =>
    refine ⟨fun i => ?_, fun i => rfl, rfl, rfl⟩
    simp [fetchSeq, init_cache]
  | append_singleton rest a ih =>
    have hrest : ∀ x ∈ rest, x < 256 := fun x hx => h x (List.mem_append_left _ hx)
    have ha : a < 256 := h a (List.mem_append_right _ (List.mem_singleton_self a))
    obtain ⟨hv, ht, hm, hh⟩ := ih hrest
    have hidx := cache_index_eq a ha
    have htag := cache_tag_eq a ha
    have hsub : (rest.map (fun a => a / 8)).toFinset ⊆ Finset.range 32 := by
      intro x hx
      simp only [List.mem_toFinset, List.mem_map] at hx
      obtain ⟨y, hy, rfl⟩ := hx
      have := hrest y hy
      simp only [Finset.mem_range]
      omega
    have hcard32 := Finset.card_le_card hsub
    rw [Finset.card_range] at hcard32
    have hcardlen : (rest.map (fun a => a / 8)).toFinset.card ≤ rest.length := by
      have := List.toFinset_card_le (rest.map (fun a => a / 8))
      simpa using this
    have hfin : ((rest ++ [a]).map (fun a => a / 8)).toFinset
        = insert (a / 8) (rest.map (fun a => a / 8)).toFinset := by
      ext x
      simp only [List.map_append, List.map_cons, List.map_nil, List.toFinset_append,
        List.toFinset_cons, List.toFinset_nil, Finset.mem_union, Finset.mem_insert,
        Finset.mem_singleton, Finset.not_mem_empty, or_false]
      tauto
    rw [fetchSeq_append, hfin]
    simp only [fetchSeq, List.length_append, List.length_singleton]
    by_cases hit : lineHits (fetchSeq memory init_cache rest).2 a
    · have hmem : a / 8 ∈ (rest.map (fun a => a / 8)).toFinset := by
        rw [← hv, ← hidx]; exact hit.1
      rw [cache_fetch_hit _ memory a hit, Finset.insert_eq_of_mem hmem]
      refine ⟨hv, ht, hm, ?_⟩
      simp only [incU32, hh]
      omega
    · have hmem : a / 8 ∉ (rest.map (fun a => a / 8)).toFinset := by
        intro hc
        apply hit
        refine ⟨?_, ?_⟩
        · rw [hidx]; exact (hv _).mpr hc
        · rw [ht, htag]
      rw [cache_fetch_miss _ memory a hit, Finset.card_insert_of_not_mem hmem]
      refine ⟨fun i => ?_, fun i => ?_, ?_, ?_⟩
      · rw [fill_lines, hidx]
        by_cases hi : i = a / 8
        · simp [hi]
        · simp only [hi, if_false, Finset.mem_insert, false_or]
          exact hv i
      · rw [fill_lines]
        by_cases hi : i = get_cache_index a
        · simp only [hi, if_true, htag]
        · simp only [hi, if_false]
          exact ht i
      · rw [fill_misses]
        simp only [incU32, hm]
        omega
      · rw [fill_hits]
        simp only [hh]
        omega

theorem distinctLines_eq_card (addrs : List Nat) :
    distinctLines addrs = (addrs.map (fun a => a / 8)).toFinset.card := by
  unfold distinctLines
  rw [List.card_toFinset]

/-- C4, amended: for every memory and every finite sequence of `n`
`cache_fetch_byte` calls at addresses in [0, 256) starting from `init_cache`,
with `k` the number of distinct 8-byte lines touched, the final counters
satisfy `misses = k` and `hits = (n - k) mod 2 ^ 32` (the counters are
`uint32_t`), hence `hits = n - k` whenever `n - k < 2 ^ 32`. -/
theorem cache_counters (M : Nat → U8) (addrs : List Nat) (h : ∀ a ∈ addrs, a < 256) :
    (fetchSeq M init_cache addrs).2.misses.val = distinctLines addrs ∧
    (fetchSeq M init_cache addrs).2.hits.val
      = (addrs.length - distinctLines addrs) % 4294967296 ∧
    (addrs.length - distinctLines addrs < 4294967296 →
      (fetchSeq M init_cache addrs).2.hits.val = addrs.length - distinctLines addrs) := by
  obtain ⟨-, -, hm, hh⟩ := fetchSeq_counters M addrs h
  rw [distinctLines_eq_card]
  exact ⟨hm, hh, fun hlt => by rw [hh, Nat.mod_eq_of_lt hlt]⟩

/-- The witness of C4 as amended: five fetches at 0, 1, 2, 9, 0 touch two lines,
so they count two misses and three hits. -/
theorem cache_counters_witness :
    (∀ a ∈ [0, 1, 2, 9, 0], a < 256) ∧
    (fetchSeq (loadImage [0xB0, 0x42, 0xF4]) init_cache [0, 1, 2, 9, 0]).2.misses.val = 2 ∧
    (fetchSeq (loadImage [0xB0, 0x42, 0xF4]) init_cache [0, 1, 2, 9, 0]).2.hits.val = 3 :=
  ⟨by decide,
    (cache_counters (loadImage [0xB0, 0x42, 0xF4]) [0, 1, 2, 9, 0] (by decide)).1.trans
      (by decide),
    ((cache_counters (loadImage [0xB0, 0x42, 0xF4]) [0, 1, 2, 9, 0] (by decide)).2.2
      (by decide)).trans (by decide)⟩

/-- The counterexample to C4 as stated: `2 ^ 32 + 1` fetches at address 0 from
the cold cache touch one line, so `n - k = 2 ^ 32`, but the 32-bit counter
`hits` has wrapped around to 0. -/
theorem cache_counters_overflow :
    (∀ a ∈ List.replicate 4294967297 0, a < 256) ∧
    distinctLines (List.replicate 4294967297 0) = 1 ∧
    (fetchSeq (fun _ => 0) init_cache (List.replicate 4294967297 0)).2.hits.val = 0 ∧
    (fetchSeq (fun _ => 0) init_cache (List.replicate 4294967297 0)).2.hits.val ≠
      (List.replicate 4294967297 0).length - distinctLines (List.replicate 4294967297 0) := by
  have hlt : ∀ a ∈ List.replicate 4294967297 0, a < 256 := by
    intro a ha
    rw [List.eq_of_mem_replicate ha]
    decide
  have hk : distinctLines (List.replicate 4294967297 0) = 1 := by
    rw [distinctLines_eq_card, List.map_replicate,
      List.toFinset_replicate_of_ne_zero (by decide)]
    rfl
  obtain ⟨-, -, -, hh⟩ := fetchSeq_counters (fun _ => 0) (List.replicate 4294967297 0) hlt
  rw [← distinctLines_eq_card, hk, List.length_replicate] at hh
  have h0 : (fetchSeq (fun _ => 0) init_cache (List.replicate 4294967297 0)).2.hits.val = 0 := by
    rw [hh]
  refine ⟨hlt, hk, h0, ?_⟩
  rw [h0, hk, List.length_replicate]
  decide

/-- C5, amended: for every cache state, every memory and every address `a` in
[0, 256), two successive `cache_fetch_byte` calls at `a` against the same
memory return the same byte, and the second call increments `hits` by exactly
1 modulo `2 ^ 32` (the counter is a `uint32_t`; by exactly 1 unless it stood at
`2 ^ 32 - 1`) and leaves `misses` unchanged. -/
theorem fetch_twice_hit (c : InstructionCache) (M : Nat → U8) (a : Nat) (_ha : a < 256) :
    (cache_fetch_byte (cache_fetch_byte c M a).2 M a).1 = (cache_fetch_byte c M a).1 ∧
    (cache_fetch_byte (cache_fetch_byte c M a).2 M a).2.hits.val
      = ((cache_fetch_byte c M a).2.hits.val + 1) % 4294967296 ∧
    ((cache_fetch_byte c M a).2.hits.val < 4294967295 →
      (cache_fetch_byte (cache_fetch_byte c M a).2 M a).2.hits.val
        = (cache_fetch_byte c M a).2.hits.val + 1) ∧
    (cache_fetch_byte (cache_fetch_byte c M a).2 M a).2.misses
      = (cache_fetch_byte c M a).2.misses := by
  have hit2 := lineHits_after_fetch c M a
  rw [cache_fetch_hit _ M a hit2]
  refine ⟨?_, rfl, fun hlt => ?_, rfl⟩
  · by_cases h : lineHits c a
    · rw [cache_fetch_hit c M a h]
    · rw [cache_fetch_miss c M a h]
  · show ((cache_fetch_byte c M a).2.hits.val + 1) % 4294967296 = _
    omega

/-- The witness of C5 as amended: two fetches at address 1 from the cold cache
in front of the image `B0 42 F4` both return 0x42; the second is a hit. -/
theorem fetch_twice_hit_witness :
    (1 < 256) ∧
    (cache_fetch_byte (cache_fetch_byte init_cache (loadImage [0xB0, 0x42, 0xF4]) 1).2
      (loadImage [0xB0, 0x42, 0xF4]) 1).1 = 0x42 ∧
    (cache_fetch_byte (cache_fetch_byte init_cache (loadImage [0xB0, 0x42, 0xF4]) 1).2
      (loadImage [0xB0, 0x42, 0xF4]) 1).2.hits.val = 1 :=
  ⟨by decide,
    (fetch_twice_hit init_cache (loadImage [0xB0, 0x42, 0xF4]) 1 (by decide)).1.trans
      (by decide),
    ((fetch_twice_hit init_cache (loadImage [0xB0, 0x42, 0xF4]) 1 (by decide)).2.2.1
      (by decide)).trans (by decide)⟩

/-- The counterexample to C5 as stated: from a cache whose `hits` counter
stands at `2 ^ 32 - 1` and whose line 0 is invalid, the first fetch at address
0 is a miss and leaves `hits` alone, and the second, a hit, wraps `hits` around
to 0 instead of raising it by 1. -/
theorem fetch_twice_hit_wraps :
    (cache_fetch_byte saturatedCache (fun _ => 0) 0).2.hits.val = 4294967295 ∧
    (cache_fetch_byte (cache_fetch_byte saturatedCache (fun _ => 0) 0).2
      (fun _ => 0) 0).2.hits.val = 0 ∧
    (cache_fetch_byte (cache_fetch_byte saturatedCache (fun _ => 0) 0).2
      (fun _ => 0) 0).2.hits.val ≠
      (cache_fetch_byte saturatedCache (fun _ => 0) 0).2.hits.val + 1 := by
  decide

/-! ## The stack -/

theorem execute_movimm (s : CPU)
    (h : 0xB0 ≤ (fetch_byte s).1.val ∧ (fetch_byte s).1.val ≤ 0xB7) :
    execute s =
      match get_register (intToU8 (((fetch_byte s).1.val : Int) - 0xB0)) with
      | some dest =>
        .next ((fetch_byte (fetch_byte s).2).2.write dest (fetch_byte (fetch_byte s).2).1)
      | none => .undefined := by
  obtain ⟨h1, h2⟩ := h
  have h3 : (fetch_byte s).1.val = 0xB0 ∨ (fetch_byte s).1.val = 0xB1 ∨
      (fetch_byte s).1.val = 0xB2 ∨ (fetch_byte s).1.val = 0xB3 ∨
      (fetch_byte s).1.val = 0xB4 ∨ (fetch_byte s).1.val = 0xB5 ∨
      (fetch_byte s).1.val = 0xB6 ∨ (fetch_byte s).1.val = 0xB7 := by omega
  unfold execute
  rcases h3 with h | h | h | h | h | h | h | h <;> simp only [h]

theorem execute_push_ax (s : CPU) (h : (fetch_byte s).1.val = 0x50) :
    execute s = .next (((fetch_byte s).2.push (fetch_byte s).2.ah).push
      ((fetch_byte s).2.push (fetch_byte s).2.ah).al) := by
  unfold execute
  simp only [h]

theorem execute_push_dx (s : CPU) (h : (fetch_byte s).1.val = 0x52) :
    execute s = .next (((fetch_byte s).2.push (fetch_byte s).2.dh).push
      ((fetch_byte s).2.push (fetch_byte s).2.dh).dl) := by
  unfold execute
  simp only [h]

theorem execute_pop_ax (s : CPU) (h : (fetch_byte s).1.val = 0x58) :
    execute s = .next
      (CPU.incSp { CPU.incSp { (fetch_byte s).2 with
            al := (fetch_byte s).2.memory (fetch_byte s).2.sp.val } with
          ah := (CPU.incSp { (fetch_byte s).2 with
            al := (fetch_byte s).2.memory (fetch_byte s).2.sp.val }).memory
              (CPU.incSp { (fetch_byte s).2 with
                al := (fetch_byte s).2.memory (fetch_byte s).2.sp.val }).sp.val }) := by
  unfold execute
  simp only [h]

theorem execute_pop_dx (s : CPU) (h : (fetch_byte s).1.val = 0x5A) :
    execute s = .next
      (CPU.incSp { CPU.incSp { (fetch_byte s).2 with
            dl := (fetch_byte s).2.memory (fetch_byte s).2.sp.val } with
          dh := (CPU.incSp { (fetch_byte s).2 with
            dl := (fetch_byte s).2.memory (fetch_byte s).2.sp.val }).memory
              (CPU.incSp { (fetch_byte s).2 with
                dl := (fetch_byte s).2.memory (fetch_byte s).2.sp.val }).sp.val }) := by
  unfold execute
  simp only [h]

@[simp] theorem toU8_val (n : Nat) : (toU8 n).val = n % 256 := rfl

@[simp] theorem intToU8_val (z : Int) : (intToU8 z).val = (z % 256).toNat := rfl

/-- A MOV r8, imm8 step returns and leaves SP and memory alone. -/
theorem mov_imm_returns (s : CPU)
    (h : 0xB0 ≤ (fetch_byte s).1.val ∧ (fetch_byte s).1.val ≤ 0xB7) :
    ∃ s', execute s = .next s' ∧ s'.sp = s.sp ∧ s'.memory = s.memory := by
  obtain ⟨dest, hd⟩ := get_register_some (intToU8 (((fetch_byte s).1.val : Int) - 0xB0))
  refine ⟨(fetch_byte (fetch_byte s).2).2.write dest (fetch_byte (fetch_byte s).2).1,
    ?_, ?_, ?_⟩
  · rw [execute_movimm s h, hd]
  · simp
  · simp

theorem movSteps_frame (n : Nat) : ∀ s s', movSteps n s = some s' →
    s'.sp = s.sp ∧ s'.memory = s.memory := by
  induction n with
  | zero =>
    intro s s' h
    simp only [movSteps, Option.some.injEq] at h
    subst h
    exact ⟨rfl, rfl⟩
  | succ n ih =>
    intro s s' h
    unfold movSteps at h
    by_cases hop : 0xB0 ≤ (fetch_byte s).1.val ∧ (fetch_byte s).1.val ≤ 0xB7
    · obtain ⟨t, ht, hsp, hmem⟩ := mov_imm_returns s hop
      rw [if_pos hop, ht] at h
      obtain ⟨h1, h2⟩ := ih t s' h
      exact ⟨h1.trans hsp, h2.trans hmem⟩
    · rw [if_neg hop] at h
      exact absurd h (by simp)

theorem push_sp (cpu : CPU) (v : U8) : (cpu.push v).sp = intToU8 ((cpu.sp.val : Int) - 1) := rfl

theorem push_memory (cpu : CPU) (v : U8) (i : Nat) :
    (cpu.push v).memory i = if i = (intToU8 ((cpu.sp.val : Int) - 1)).val then v
      else cpu.memory i := rfl

/-- The bytes a double push leaves on the stack and where the stack pointer
ends, and what a double pop then reads back. -/
theorem push2_pop2 (c : CPU) (hi lo : U8) :
    ((c.push hi).push lo).memory ((c.push hi).push lo).sp.val = lo ∧
    ((c.push hi).push lo).memory (toU8 (((c.push hi).push lo).sp.val + 1)).val = hi ∧
    toU8 ((toU8 (((c.push hi).push lo).sp.val + 1)).val + 1) = c.sp := by
  have hlt := c.sp.isLt
  refine ⟨?_, ?_, ?_⟩
  · rw [push_memory, push_sp, push_sp]
    simp
  · rw [push_memory, push_memory, push_sp, push_sp]
    simp only [intToU8_val, toU8_val]
    rw [if_neg (by omega), if_pos (by omega)]
  · apply Fin.ext
    rw [push_sp, push_sp]
    simp only [intToU8_val, toU8_val]
    omega

/-- C6: for every CPU state (any SP, wrapping modulo 256 included) whose next
`execute` step fetches PUSH AX (0x50): that step returns, and if `n` steps that
each fetch a MOV r8, imm8 opcode follow (for any `n`) and then a step fetches
POP AX (0x58), that step returns with AL and AH equal to their values at the
PUSH and SP equal to its value before the PUSH.  The same holds for PUSH DX
(0x52) and POP DX (0x5A) with DL and DH.  (The last part says that a step that
fetches a MOV r8, imm8 opcode always returns, so such runs exist.) -/
theorem push_pop_roundtrip (s0 : CPU) (n : Nat) :
    ((fetch_byte s0).1.val = 0x50 →
      ∃ s1, execute s0 = .next s1 ∧
        ∀ s2, movSteps n s1 = some s2 → (fetch_byte s2).1.val = 0x58 →
          ∃ s3, execute s2 = .next s3 ∧ s3.al = s0.al ∧ s3.ah = s0.ah ∧ s3.sp = s0.sp) ∧
    ((fetch_byte s0).1.val = 0x52 →
      ∃ s1, execute s0 = .next s1 ∧
        ∀ s2, movSteps n s1 = some s2 → (fetch_byte s2).1.val = 0x5A →
          ∃ s3, execute s2 = .next s3 ∧ s3.dl = s0.dl ∧ s3.dh = s0.dh ∧ s3.sp = s0.sp) ∧
    (∀ s k, 0xB0 ≤ (fetch_byte s).1.val ∧ (fetch_byte s).1.val ≤ 0xB7 →
      ∃ s', execute s = .next s' ∧ movSteps (k + 1) s = movSteps k s') := by
  refine ⟨fun h => ⟨_, execute_push_ax s0 h, fun s2 hmov hpop => ?_⟩,
    fun h => ⟨_, execute_push_dx s0 h, fun s2 hmov hpop => ?_⟩, fun s k hop => ?_⟩
  · obtain ⟨hsp, hmem⟩ := movSteps_frame n _ s2 hmov
    obtain ⟨p1, p2, p3⟩ := push2_pop2 (fetch_byte s0).2 (fetch_byte s0).2.ah
      ((fetch_byte s0).2.push (fetch_byte s0).2.ah).al
    refine ⟨_, execute_pop_ax s2 hpop, ?_, ?_, ?_⟩
    · show (fetch_byte s2).2.memory (fetch_byte s2).2.sp.val = s0.al
      rw [fetch_byte_memory, fetch_byte_sp, hsp, hmem, p1]
      rfl
    · show (fetch_byte s2).2.memory (toU8 ((fetch_byte s2).2.sp.val + 1)).val = s0.ah
      rw [fetch_byte_memory, fetch_byte_sp, hsp, hmem, p2]
      rfl
    · show toU8 ((toU8 ((fetch_byte s2).2.sp.val + 1)).val + 1) = s0.sp
      rw [fetch_byte_sp, hsp, p3]
      rfl
  · obtain ⟨hsp, hmem⟩ := movSteps_frame n _ s2 hmov
    obtain ⟨p1, p2, p3⟩ := push2_pop2 (fetch_byte s0).2 (fetch_byte s0).2.dh
      ((fetch_byte s0).2.push (fetch_byte s0).2.dh).dl
    refine ⟨_, execute_pop_dx s2 hpop, ?_, ?_, ?_⟩
    · show (fetch_byte s2).2.memory (fetch_byte s2).2.sp.val = s0.dl
      rw [fetch_byte_memory, fetch_byte_sp, hsp, hmem, p1]
      rfl
    · show (fetch_byte s2).2.memory (toU8 ((fetch_byte s2).2.sp.val + 1)).val = s0.dh
      rw [fetch_byte_memory, fetch_byte_sp, hsp, hmem, p2]
      rfl
    · show toU8 ((toU8 ((fetch_byte s2).2.sp.val + 1)).val + 1) = s0.sp
      rw [fetch_byte_sp, hsp, p3]
      rfl
  · obtain ⟨s', hs', -, -⟩ := mov_imm_returns s hop
    refine ⟨s', hs', ?_⟩
    show (if 0xB0 ≤ (fetch_byte s).1.val ∧ (fetch_byte s).1.val ≤ 0xB7 then
      (match execute s with
        | .next cpu' => movSteps k cpu'
        | _ => none) else none) = _
    rw [if_pos hop, hs']

/-- The witness of C6: scenario 6 of the specification.  From AL = 0x12,
AH = 0x34 and SP = 255, PUSH AX, then MOV AL, 0 and MOV AH, 0, then POP AX
end with AL = 0x12, AH = 0x34 and SP = 255. -/
theorem push_pop_roundtrip_witness :
    (fetch_byte stackDemo).1.val = 0x50 ∧
    ∃ s1 s2 s3, execute stackDemo = .next s1 ∧ movSteps 2 s1 = some s2 ∧
      s2.al.val = 0 ∧ s2.ah.val = 0 ∧ (fetch_byte s2).1.val = 0x58 ∧
      execute s2 = .next s3 ∧ s3.al.val = 0x12 ∧ s3.ah.val = 0x34 ∧ s3.sp.val = 255 := by
  refine ⟨by decide, ?_⟩
  obtain ⟨s1, h1, hrest⟩ := (push_pop_roundtrip stackDemo 2).1 (by decide)
  obtain rfl : s1 = _ := Outcome.next.inj (h1.symm.trans (execute_push_ax stackDemo (by decide)))
  obtain ⟨s2, h2, hal, hah, hop⟩ : ∃ s2, movSteps 2
      (((fetch_byte stackDemo).2.push (fetch_byte stackDemo).2.ah).push
        ((fetch_byte stackDemo).2.push (fetch_byte stackDemo).2.ah).al) = some s2 ∧
      s2.al.val = 0 ∧ s2.ah.val = 0 ∧ (fetch_byte s2).1.val = 0x58 :=
    ⟨_, rfl, by decide, by decide, by decide⟩
  obtain ⟨s3, h3, e1, e2, e3⟩ := hrest s2 h2 hop
  exact ⟨_, s2, s3, h1, h2, hal, hah, hop, h3, by rw [e1]; rfl, by rw [e2]; rfl,
    by rw [e3]; rfl⟩

/-! ## Jumps -/

theorem execute_jmp (s : CPU) (h : (fetch_byte s).1.val = 0xEB) :
    execute s = .next ((fetch_byte (fetch_byte s).2).2.jump
      (sext8 (fetch_byte (fetch_byte s).2).1)) := by
  unfold execute
  simp only [h]

theorem execute_je (s : CPU) (h : (fetch_byte s).1.val = 0x74) :
    execute s =
      if (fetch_byte (fetch_byte s).2).2.flagSet FLAG_ZERO then
        .next ((fetch_byte (fetch_byte s).2).2.jump (sext8 (fetch_byte (fetch_byte s).2).1))
      else .next (fetch_byte (fetch_byte s).2).2 := by
  unfold execute
  simp only [h]

theorem execute_jne (s : CPU) (h : (fetch_byte s).1.val = 0x75) :
    execute s =
      if !((fetch_byte (fetch_byte s).2).2.flagSet FLAG_ZERO) then
        .next ((fetch_byte (fetch_byte s).2).2.jump (sext8 (fetch_byte (fetch_byte s).2).1))
      else .next (fetch_byte (fetch_byte s).2).2 := by
  unfold execute
  simp only [h]

theorem execute_jg (s : CPU) (h : (fetch_byte s).1.val = 0x7F) :
    execute s =
      if !((fetch_byte (fetch_byte s).2).2.flagSet FLAG_ZERO) &&
          !((fetch_byte (fetch_byte s).2).2.flagSet FLAG_SIGN) then
        .next ((fetch_byte (fetch_byte s).2).2.jump (sext8 (fetch_byte (fetch_byte s).2).1))
      else .next (fetch_byte (fetch_byte s).2).2 := by
  unfold execute
  simp only [h]

theorem execute_jle (s : CPU) (h : (fetch_byte s).1.val = 0x7E) :
    execute s =
      if ((fetch_byte (fetch_byte s).2).2.flagSet FLAG_ZERO ||
          (fetch_byte (fetch_byte s).2).2.flagSet FLAG_SIGN) then
        .next ((fetch_byte (fetch_byte s).2).2.jump (sext8 (fetch_byte (fetch_byte s).2).1))
      else .next (fetch_byte (fetch_byte s).2).2 := by
  unfold execute
  simp only [h]

@[simp] theorem fetch_byte_flagSet (cpu : CPU) (mask : Nat) :
    (fetch_byte cpu).2.flagSet mask = cpu.flagSet mask := rfl

@[simp] theorem jump_read (cpu : CPU) (k : Int) (p : Reg8) : (cpu.jump k).read p = cpu.read p := by
  cases p <;> rfl

@[simp] theorem jump_flags (cpu : CPU) (k : Int) : (cpu.jump k).flags = cpu.flags := rfl

@[simp] theorem jump_sp (cpu : CPU) (k : Int) : (cpu.jump k).sp = cpu.sp := rfl

@[simp] theorem jump_memory (cpu : CPU) (k : Int) : (cpu.jump k).memory = cpu.memory := rfl

theorem jump_ip (cpu : CPU) (k : Int) :
    ((cpu.jump k).ip.val : Int) = ((cpu.ip.val : Int) + k) % 256 := by
  have h := Int.emod_nonneg ((cpu.ip.val : Int) + k) (show (256 : Int) ≠ 0 by decide)
  simp only [CPU.jump, intToU8_val]
  omega

/-- Two fetches and then the displacement: where a taken jump lands, and what
two fetches with or without a jump leave alone. -/
theorem jump_after_two_fetches (s : CPU) (k : Int) :
    ((((fetch_byte (fetch_byte s).2).2.jump k).ip.val : Int)
      = ((s.ip.val : Int) + 2 + k) % 256) ∧
    (∀ p, ((fetch_byte (fetch_byte s).2).2.jump k).read p = s.read p) ∧
    ((fetch_byte (fetch_byte s).2).2.jump k).flags = s.flags ∧
    ((fetch_byte (fetch_byte s).2).2.jump k).sp = s.sp ∧
    ((fetch_byte (fetch_byte s).2).2.jump k).memory = s.memory := by
  refine ⟨?_, fun p => by simp, by simp, by simp, by simp⟩
  rw [jump_ip, ip_after_two_fetches]
  omega

theorem two_fetches_frame (s : CPU) :
    (fetch_byte (fetch_byte s).2).2.ip.val = (s.ip.val + 2) % 256 ∧
    (∀ p, (fetch_byte (fetch_byte s).2).2.read p = s.read p) ∧
    (fetch_byte (fetch_byte s).2).2.flags = s.flags ∧
    (fetch_byte (fetch_byte s).2).2.sp = s.sp ∧
    (fetch_byte (fetch_byte s).2).2.memory = s.memory :=
  ⟨ip_after_two_fetches s, fun p => by simp, by simp, by simp, by simp⟩

/-- C7: for every CPU state whose next `execute` step fetches the opcode 0xEB
at address `p = IP` and then the byte `d`, the step returns with
`IP = (p + 2 + sext8(d)) mod 256` and with every register, the flags, SP and
every memory byte unchanged; in particular with `p = 0` and `d = 0xFE` it ends
with `IP = 0`. -/
theorem jmp_rel8_step (s : CPU) (d : U8)
    (hop : (fetch_byte s).1.val = 0xEB) (hd : (fetch_byte (fetch_byte s).2).1 = d) :
    ∃ s', execute s = .next s' ∧
      (s'.ip.val : Int) = ((s.ip.val : Int) + 2 + sext8 d) % 256 ∧
      (∀ p, s'.read p = s.read p) ∧
      s'.flags = s.flags ∧
      s'.sp = s.sp ∧
      s'.memory = s.memory ∧
      (s.ip.val = 0 → d.val = 0xFE → s'.ip.val = 0) := by
  obtain ⟨j1, j2, j3, j4, j5⟩ := jump_after_two_fetches s (sext8 d)
  refine ⟨_, by rw [execute_jmp s hop, hd], j1, j2, j3, j4, j5, fun hp hfe => ?_⟩
  rw [hp] at j1
  have : sext8 d = -2 := by
    unfold sext8
    rw [if_neg (by omega), hfe]
    rfl
  rw [this] at j1
  have j1' : ((((fetch_byte (fetch_byte s).2).2.jump (sext8 d)).ip.val : Nat) : Int) = 0 := by
    rw [this, j1]; rfl
  exact_mod_cast j1'

/-- The witness of C7: the program `EB FE` at IP = 0 jumps back to IP = 0. -/
theorem jmp_rel8_step_witness :
    ((fetch_byte jmpDemo).1.val = 0xEB ∧ (fetch_byte (fetch_byte jmpDemo).2).1 = 0xFE) ∧
    ∃ s', execute jmpDemo = .next s' ∧ s'.ip.val = 0 := by
  obtain ⟨s', h1, -, -, -, -, -, h0⟩ := jmp_rel8_step jmpDemo 0xFE (by decide) (by decide)
  exact ⟨⟨by decide, by decide⟩, s', h1, h0 (by decide) (by decide)⟩

/-- What a conditional jump leaves, given whether its condition holds. -/
theorem jcc_result (s : CPU) (d : U8) (c : Bool) :
    ∃ s', (if c = true then
          Outcome.next ((fetch_byte (fetch_byte s).2).2.jump (sext8 d))
        else Outcome.next (fetch_byte (fetch_byte s).2).2) = .next s' ∧
      ((s'.ip.val : Int) = if c = true then ((s.ip.val : Int) + 2 + sext8 d) % 256
        else ((s.ip.val : Int) + 2) % 256) ∧
      (∀ p, s'.read p = s.read p) ∧ s'.flags = s.flags ∧ s'.sp = s.sp ∧
      s'.memory = s.memory := by
  cases c
  · obtain ⟨f1, f2, f3, f4, f5⟩ := two_fetches_frame s
    refine ⟨_, rfl, ?_, f2, f3, f4, f5⟩
    simp only [Bool.false_eq_true, if_false]
    omega
  · obtain ⟨j1, j2, j3, j4, j5⟩ := jump_after_two_fetches s (sext8 d)
    exact ⟨_, rfl, by simpa using j1, j2, j3, j4, j5⟩

/-- C8: for every CPU state whose next `execute` step fetches a conditional
jump at address `p = IP` and then the displacement byte `d`: JE (0x74) is taken
iff ZF = 1, JNE (0x75) iff ZF = 0, JG (0x7F) iff ZF = 0 and SF = 0, JLE (0x7E)
iff ZF = 1 or SF = 1; the step returns with `IP = (p + 2 + sext8(d)) mod 256`
when taken and `IP = (p + 2) mod 256` otherwise, and with flags, registers, SP
and memory unchanged.  For every flags byte exactly one of the JE/JNE
conditions and exactly one of the JG/JLE conditions holds. -/
theorem jcc_rel8_step (s : CPU) (d : U8) (hd : (fetch_byte (fetch_byte s).2).1 = d) :
    ((fetch_byte s).1.val = 0x74 →
      ∃ s', execute s = .next s' ∧
        ((s'.ip.val : Int) =
          if s.flagSet FLAG_ZERO = true then ((s.ip.val : Int) + 2 + sext8 d) % 256
          else ((s.ip.val : Int) + 2) % 256) ∧
        (∀ p, s'.read p = s.read p) ∧ s'.flags = s.flags ∧ s'.sp = s.sp ∧
        s'.memory = s.memory) ∧
    ((fetch_byte s).1.val = 0x75 →
      ∃ s', execute s = .next s' ∧
        ((s'.ip.val : Int) =
          if s.flagSet FLAG_ZERO = false then ((s.ip.val : Int) + 2 + sext8 d) % 256
          else ((s.ip.val : Int) + 2) % 256) ∧
        (∀ p, s'.read p = s.read p) ∧ s'.flags = s.flags ∧ s'.sp = s.sp ∧
        s'.memory = s.memory) ∧
    ((fetch_byte s).1.val = 0x7F →
      ∃ s', execute s = .next s' ∧
        ((s'.ip.val : Int) =
          if s.flagSet FLAG_ZERO = false ∧ s.flagSet FLAG_SIGN = false then
            ((s.ip.val : Int) + 2 + sext8 d) % 256
          else ((s.ip.val : Int) + 2) % 256) ∧
        (∀ p, s'.read p = s.read p) ∧ s'.flags = s.flags ∧ s'.sp = s.sp ∧
        s'.memory = s.memory) ∧
    ((fetch_byte s).1.val = 0x7E →
      ∃ s', execute s = .next s' ∧
        ((s'.ip.val : Int) =
          if s.flagSet FLAG_ZERO = true ∨ s.flagSet FLAG_SIGN = true then
            ((s.ip.val : Int) + 2 + sext8 d) % 256
          else ((s.ip.val : Int) + 2) % 256) ∧
        (∀ p, s'.read p = s.read p) ∧ s'.flags = s.flags ∧ s'.sp = s.sp ∧
        s'.memory = s.memory) ∧
    (s.flagSet FLAG_ZERO = true ↔ ¬ s.flagSet FLAG_ZERO = false) ∧
    ((s.flagSet FLAG_ZERO = false ∧ s.flagSet FLAG_SIGN = false) ↔
      ¬ (s.flagSet FLAG_ZERO = true ∨ s.flagSet FLAG_SIGN = true)) := by
  refine ⟨fun h => ?_, fun h => ?_, fun h => ?_, fun h => ?_, by simp, by simp⟩
  · obtain ⟨s', h1, h2, h3⟩ := jcc_result s d (s.flagSet FLAG_ZERO)
    refine ⟨s', ?_, h2, h3⟩
    rw [execute_je s h, hd, ← h1]
    simp only [fetch_byte_flagSet]
  · obtain ⟨s', h1, h2, h3⟩ := jcc_result s d (!s.flagSet FLAG_ZERO)
    refine ⟨s', ?_, ?_, h3⟩
    · rw [execute_jne s h, hd, ← h1]
      simp only [fetch_byte_flagSet]
    · rw [h2]
      cases s.flagSet FLAG_ZERO <;> simp
  · obtain ⟨s', h1, h2, h3⟩ := jcc_result s d (!s.flagSet FLAG_ZERO && !s.flagSet FLAG_SIGN)
    refine ⟨s', ?_, ?_, h3⟩
    · rw [execute_jg s h, hd, ← h1]
      simp only [fetch_byte_flagSet]
    · rw [h2]
      cases s.flagSet FLAG_ZERO <;> cases s.flagSet FLAG_SIGN <;> simp
  · obtain ⟨s', h1, h2, h3⟩ := jcc_result s d (s.flagSet FLAG_ZERO || s.flagSet FLAG_SIGN)
    refine ⟨s', ?_, ?_, h3⟩
    · rw [execute_jle s h, hd, ← h1]
      simp only [fetch_byte_flagSet]
    · rw [h2]
      cases s.flagSet FLAG_ZERO <;> cases s.flagSet FLAG_SIGN <;> simp

/-- The witness of C8: in scenario 8 the JE at IP = 4 with displacement 2 is
fetched with ZF set, so it is taken and lands at IP = 8. -/
theorem jcc_rel8_step_witness :
    ((fetch_byte (fetch_byte jeDemo).2).1 = 0x02 ∧ (fetch_byte jeDemo).1.val = 0x74 ∧
      jeDemo.flagSet FLAG_ZERO = true) ∧
    ∃ s', execute jeDemo = .next s' ∧ s'.ip.val = 8 ∧ s'.al.val = 5 := by
  obtain ⟨s', h1, h2, h3, -⟩ := (jcc_rel8_step jeDemo 0x02 (by decide)).1 (by decide)
  refine ⟨⟨by decide, by decide, by decide⟩, s', h1, ?_, ?_⟩
  · have h4 : ((s'.ip.val : Nat) : Int) = 8 := by rw [h2]; decide
    exact_mod_cast h4
  · exact congrArg Fin.val (h3 Reg8.al)

/-! ## Comparison and subtraction -/

theorem execute_cmp (s : CPU) (h : (fetch_byte s).1.val = 0x38) :
    execute s =
      match get_register (modrm_rm (fetch_byte (fetch_byte s).2).1),
        get_register (modrm_reg (fetch_byte (fetch_byte s).2).1) with
      | some dest, some src =>
        .next (update_flags (fetch_byte (fetch_byte s).2).2
          (intToU8 ((((fetch_byte (fetch_byte s).2).2.read dest).val : Int) -
            (((fetch_byte (fetch_byte s).2).2.read src).val : Int))))
      | _, _ => .undefined := by
  unfold execute
  simp only [h]

theorem execute_cmp_al (s : CPU) (h : (fetch_byte s).1.val = 0x3C) :
    execute s = .next (update_flags (fetch_byte (fetch_byte s).2).2
      (intToU8 (((fetch_byte (fetch_byte s).2).2.al.val : Int) -
        ((fetch_byte (fetch_byte s).2).1.val : Int)))) := by
  unfold execute
  simp only [h]

theorem execute_sub_al (s : CPU) (h : (fetch_byte s).1.val = 0x2C) :
    execute s = .next (update_flags
      { (fetch_byte (fetch_byte s).2).2 with
        al := intToU8 (((fetch_byte (fetch_byte s).2).2.al.val : Int) -
          ((fetch_byte (fetch_byte s).2).1.val : Int)) }
      (intToU8 (((fetch_byte (fetch_byte s).2).2.al.val : Int) -
          ((fetch_byte (fetch_byte s).2).1.val : Int)))) := by
  unfold execute
  simp only [h]

/-- The flags `update_flags` leaves depend on the state only through its flags. -/
theorem update_flags_flags_congr (a b : CPU) (r : U8) (h : a.flags = b.flags) :
    (update_flags a r).flags = (update_flags b r).flags := by
  rw [update_flags_flags, update_flags_flags, h]

theorem byte_sub_eq_zero (x y : U8) :
    (intToU8 ((x.val : Int) - (y.val : Int))).val = 0 ↔ x = y := by
  have hx := x.isLt
  have hy := y.isLt
  rw [intToU8_val]
  constructor
  · intro h
    apply Fin.ext
    omega
  · intro h
    rw [h]
    simp

/-- What SUB AL, imm8 leaves, from the state after its two fetches. -/
theorem sub_al_result (s : CPU) (v : U8) :
    ∃ s', Outcome.next (update_flags
        { (fetch_byte (fetch_byte s).2).2 with
          al := intToU8 (((fetch_byte (fetch_byte s).2).2.al.val : Int) - (v.val : Int)) }
        (intToU8 (((fetch_byte (fetch_byte s).2).2.al.val : Int) - (v.val : Int))))
        = .next s' ∧
      s'.al = intToU8 ((s.al.val : Int) - (v.val : Int)) ∧
      s'.flags = (update_flags s (intToU8 ((s.al.val : Int) - (v.val : Int)))).flags ∧
      (∀ p, p ≠ Reg8.al → s'.read p = s.read p) ∧
      s'.sp = s.sp ∧ s'.memory = s.memory ∧ s'.ip.val = (s.ip.val + 2) % 256 := by
  refine ⟨_, rfl, ?_, ?_, ?_, ?_, ?_, ?_⟩
  · rw [update_flags_eq]; rfl
  · exact update_flags_flags_congr _ _ _ rfl
  · intro p hp
    rw [update_flags_read]
    cases p <;> first | rfl | exact absurd rfl hp
  · rw [update_flags_sp]; rfl
  · rw [update_flags_memory]; rfl
  · rw [update_flags_ip]; exact ip_after_two_fetches s

/-- C10: for every CPU state whose next `execute` step fetches SUB AL, imm8
(0x2C) and then the immediate byte `v`, the step returns with
`AL = (AL - v) mod 256`, ZF set iff AL equalled `v` before the step, SF set iff
the new AL is at least 0x80, and all other registers, SP and memory
unchanged. -/
theorem sub_al_imm8_step (s : CPU) (v : U8)
    (hop : (fetch_byte s).1.val = 0x2C) (hv : (fetch_byte (fetch_byte s).2).1 = v) :
    ∃ s', execute s = .next s' ∧
      (s'.al.val : Int) = ((s.al.val : Int) - (v.val : Int)) % 256 ∧
      (s'.flagSet FLAG_ZERO = true ↔ s.al = v) ∧
      (s'.flagSet FLAG_SIGN = true ↔ 0x80 ≤ s'.al.val) ∧
      (∀ p, p ≠ Reg8.al → s'.read p = s.read p) ∧
      s'.sp = s.sp ∧
      s'.memory = s.memory := by
  obtain ⟨s', h1, hal, hfl, hregs, hsp, hmem, -⟩ := sub_al_result s v
  obtain ⟨hz, hs, -⟩ := update_flags_bits s (intToU8 ((s.al.val : Int) - (v.val : Int)))
  refine ⟨s', ?_, ?_, ?_, ?_, hregs, hsp, hmem⟩
  · rw [execute_sub_al s hop, hv]; exact h1
  · rw [hal, intToU8_val]
    have := Int.emod_nonneg ((s.al.val : Int) - (v.val : Int)) (show (256 : Int) ≠ 0 by decide)
    omega
  · rw [flagSet_iff, hfl, hz]
    exact byte_sub_eq_zero s.al v
  · rw [flagSet_iff, hfl, hal]
    exact hs

/-- The witness of C10: the three examples of the claim.  10 - 3 gives 7 with
ZF = 0 and SF = 0; 5 - 5 gives 0 with ZF = 1 and SF = 0; 5 - 6 gives 0xFF with
ZF = 0 and SF = 1. -/
theorem sub_al_imm8_step_witness :
    ((fetch_byte (subDemo 10 3)).1.val = 0x2C ∧
      (fetch_byte (fetch_byte (subDemo 10 3)).2).1 = 3 ∧
      (fetch_byte (subDemo 5 5)).1.val = 0x2C ∧
      (fetch_byte (fetch_byte (subDemo 5 5)).2).1 = 5 ∧
      (fetch_byte (subDemo 5 6)).1.val = 0x2C ∧
      (fetch_byte (fetch_byte (subDemo 5 6)).2).1 = 6) ∧
    (∃ s', execute (subDemo 10 3) = .next s' ∧ s'.al.val = 7 ∧
      s'.flagSet FLAG_ZERO = false ∧ s'.flagSet FLAG_SIGN = false) ∧
    (∃ s', execute (subDemo 5 5) = .next s' ∧ s'.al.val = 0 ∧
      s'.flagSet FLAG_ZERO = true ∧ s'.flagSet FLAG_SIGN = false) ∧
    (∃ s', execute (subDemo 5 6) = .next s' ∧ s'.al.val = 0xFF ∧
      s'.flagSet FLAG_ZERO = false ∧ s'.flagSet FLAG_SIGN = true) := by
  refine ⟨⟨by decide, by decide, by decide, by decide, by decide, by decide⟩, ?_, ?_, ?_⟩
  · obtain ⟨s', h1, hal, hz, hs, -⟩ := sub_al_imm8_step (subDemo 10 3) 3 (by decide) (by decide)
    have h7 : s'.al.val = 7 := by
      have : ((s'.al.val : Nat) : Int) = 7 := by rw [hal]; decide
      exact_mod_cast this
    refine ⟨s', h1, h7, ?_, ?_⟩
    · cases hf : s'.flagSet FLAG_ZERO
      · rfl
      · exact absurd (hz.mp hf) (by decide)
    · cases hf : s'.flagSet FLAG_SIGN
      · rfl
      · have := hs.mp hf; omega
  · obtain ⟨s', h1, hal, hz, hs, -⟩ := sub_al_imm8_step (subDemo 5 5) 5 (by decide) (by decide)
    have h0 : s'.al.val = 0 := by
      have : ((s'.al.val : Nat) : Int) = 0 := by rw [hal]; decide
      exact_mod_cast this
    refine ⟨s', h1, h0, hz.mpr (by decide), ?_⟩
    cases hf : s'.flagSet FLAG_SIGN
    · rfl
    · have := hs.mp hf; omega
  · obtain ⟨s', h1, hal, hz, hs, -⟩ := sub_al_imm8_step (subDemo 5 6) 6 (by decide) (by decide)
    have hff : s'.al.val = 0xFF := by
      have : ((s'.al.val : Nat) : Int) = 0xFF := by rw [hal]; decide
      exact_mod_cast this
    refine ⟨s', h1, hff, ?_, hs.mpr (by omega)⟩
    cases hf : s'.flagSet FLAG_ZERO
    · rfl
    · exact absurd (hz.mp hf) (by decide)

/-- C9: for every CPU state, CMP r/m8, r8 (0x38) and CMP AL, imm8 (0x3C) return
with every register, SP and memory unchanged and with the flags byte that
SUB r/m8, r8 (0x28), respectively SUB AL, imm8 (0x2C), leaves from a state with
the same registers and flags and the same operand byte `b`; after
CMP AL, imm8 ZF is set iff AL = imm8, so a JE (0x74) fetched immediately after
it is taken iff AL = imm8. -/
theorem cmp_matches_sub (s t : CPU) (b : U8)
    (hregs : ∀ p, s.read p = t.read p) (hflags : s.flags = t.flags)
    (hs : (fetch_byte (fetch_byte s).2).1 = b) (ht : (fetch_byte (fetch_byte t).2).1 = b) :
    ((fetch_byte s).1.val = 0x38 → (fetch_byte t).1.val = 0x28 →
      ∃ s' t', execute s = .next s' ∧ execute t = .next t' ∧
        s'.flags = t'.flags ∧
        (∀ p, s'.read p = s.read p) ∧ s'.sp = s.sp ∧ s'.memory = s.memory) ∧
    ((fetch_byte s).1.val = 0x3C → (fetch_byte t).1.val = 0x2C →
      ∃ s' t', execute s = .next s' ∧ execute t = .next t' ∧
        s'.flags = t'.flags ∧
        (∀ p, s'.read p = s.read p) ∧ s'.sp = s.sp ∧ s'.memory = s.memory ∧
        (s'.flagSet FLAG_ZERO = true ↔ s.al = b) ∧
        ∀ d, (fetch_byte s').1.val = 0x74 → (fetch_byte (fetch_byte s').2).1 = d →
          ∃ u, execute s' = .next u ∧
            ((u.ip.val : Int) =
              if s.al = b then ((s'.ip.val : Int) + 2 + sext8 d) % 256
              else ((s'.ip.val : Int) + 2) % 256)) := by
  refine ⟨fun h38 h28 => ?_, fun h3c h2c => ?_⟩
  · obtain ⟨dest, hd⟩ := get_register_some (modrm_rm b)
    obtain ⟨src, hsrc⟩ := get_register_some (modrm_reg b)
    have e1 : execute s = .next (update_flags (fetch_byte (fetch_byte s).2).2
        (intToU8 ((((fetch_byte (fetch_byte s).2).2.read dest).val : Int) -
          (((fetch_byte (fetch_byte s).2).2.read src).val : Int)))) := by
      rw [execute_cmp s h38, hs, hd, hsrc]
    have e2 : execute t = .next ((update_flags (fetch_byte (fetch_byte t).2).2
        (intToU8 ((((fetch_byte (fetch_byte t).2).2.read dest).val : Int) -
          (((fetch_byte (fetch_byte t).2).2.read src).val : Int)))).write dest
        (intToU8 ((((fetch_byte (fetch_byte t).2).2.read dest).val : Int) -
          (((fetch_byte (fetch_byte t).2).2.read src).val : Int)))) := by
      rw [execute_sub t h28, ht, hd, hsrc]
    refine ⟨_, _, e1, e2, ?_, ?_, ?_, ?_⟩
    · rw [write_flags]
      simp only [fetch_byte_read, hregs]
      exact update_flags_flags_congr _ _ _ (by simp [hflags])
    · intro p; simp
    · simp
    · simp
  · obtain ⟨t', h1, -, hfl, -⟩ := sub_al_result t b
    obtain ⟨hz, -, -⟩ := update_flags_bits s (intToU8 ((s.al.val : Int) - (b.val : Int)))
    have hal : s.al = t.al := hregs Reg8.al
    have hsfl : (update_flags (fetch_byte (fetch_byte s).2).2
        (intToU8 (((fetch_byte (fetch_byte s).2).2.al.val : Int) - (b.val : Int)))).flags
        = (update_flags s (intToU8 ((s.al.val : Int) - (b.val : Int)))).flags :=
      update_flags_flags_congr _ _ _ rfl
    have hzf : (update_flags (fetch_byte (fetch_byte s).2).2
        (intToU8 (((fetch_byte (fetch_byte s).2).2.al.val : Int) - (b.val : Int)))).flagSet
          FLAG_ZERO = true ↔ s.al = b := by
      rw [flagSet_iff, hsfl, hz]
      exact byte_sub_eq_zero s.al b
    have e1 : execute s = .next (update_flags (fetch_byte (fetch_byte s).2).2
        (intToU8 (((fetch_byte (fetch_byte s).2).2.al.val : Int) - (b.val : Int)))) := by
      rw [execute_cmp_al s h3c, hs]
    refine ⟨_, t', e1, ?_, ?_, ?_, ?_, ?_, hzf, ?_⟩
    · rw [execute_sub_al t h2c, ht]; exact h1
    · rw [hfl, hsfl, hal]
      exact update_flags_flags_congr _ _ _ hflags
    · intro p; simp
    · simp
    · simp
    · intro d h74 hd
      obtain ⟨u, e1, e2, -⟩ := jcc_result
        (update_flags (fetch_byte (fetch_byte s).2).2
          (intToU8 (((fetch_byte (fetch_byte s).2).2.al.val : Int) - (b.val : Int)))) d
        ((update_flags (fetch_byte (fetch_byte s).2).2
          (intToU8 (((fetch_byte (fetch_byte s).2).2.al.val : Int) - (b.val : Int)))).flagSet
            FLAG_ZERO)
      refine ⟨u, ?_, ?_⟩
      · rw [execute_je _ h74, hd, ← e1]
        simp only [fetch_byte_flagSet]
      · rw [e2]
        by_cases hab : s.al = b
        · rw [if_pos (hzf.mpr hab), if_pos hab]
        · rw [if_neg (fun h => hab (hzf.mp h)), if_neg hab]

/-- The witness of C9: scenario 8 of the specification.  With AL = 5,
CMP AL, 5 leaves AL and sets ZF, as SUB AL, 5 does from the same registers and
flags, and the JE +2 that follows at IP = 4 is taken and lands at IP = 8. -/
theorem cmp_matches_sub_witness :
    ((∀ p, cmpDemo.read p = subTwin.read p) ∧ cmpDemo.flags = subTwin.flags ∧
      (fetch_byte (fetch_byte cmpDemo).2).1 = 5 ∧ (fetch_byte (fetch_byte subTwin).2).1 = 5 ∧
      (fetch_byte cmpDemo).1.val = 0x3C ∧ (fetch_byte subTwin).1.val = 0x2C) ∧
    ∃ s' t' u, execute cmpDemo = .next s' ∧ execute subTwin = .next t' ∧
      s'.flags = t'.flags ∧ s'.al.val = 5 ∧ s'.flagSet FLAG_ZERO = true ∧
      execute s' = .next u ∧ u.ip.val = 8 := by
  have hr : ∀ p, cmpDemo.read p = subTwin.read p := fun p => by cases p <;> rfl
  refine ⟨⟨hr, rfl, by decide, by decide, by decide, by decide⟩, ?_⟩
  obtain ⟨s', t', h1, h2, h3, h4, -, -, h5, h6⟩ :=
    (cmp_matches_sub cmpDemo subTwin 5 hr rfl (by decide) (by decide)).2 (by decide) (by decide)
  obtain rfl : s' = _ := Outcome.next.inj (h1.symm.trans (execute_cmp_al cmpDemo (by decide)))
  obtain ⟨u, h7, h8⟩ := h6 2 (by decide) (by decide)
  refine ⟨_, t', u, h1, h2, h3, congrArg Fin.val (h4 Reg8.al), h5.mpr (by decide), h7, ?_⟩
  have h9 : ((u.ip.val : Nat) : Int) = 8 := by rw [h8]; decide
  exact_mod_cast h9

/-! ## Multiplication and division -/

theorem execute_mul (s : CPU) (src : Reg8) (h : (fetch_byte s).1.val = 0xF6)
    (hreg : ((fetch_byte (fetch_byte s).2).1.val >>> 3) &&& 0x07 = 4)
    (hsrc : get_register (modrm_rm (fetch_byte (fetch_byte s).2).1) = some src) :
    execute s = .next
      { (fetch_byte (fetch_byte s).2).2 with
        al := toU8 ((toU8 ((fetch_byte (fetch_byte s).2).2.al.val *
          ((fetch_byte (fetch_byte s).2).2.read src).val)).val &&& 0xFF),
        ah := toU8 ((toU8 ((fetch_byte (fetch_byte s).2).2.al.val *
          ((fetch_byte (fetch_byte s).2).2.read src).val)).val >>> 8) } := by
  unfold execute
  simp only [h, hsrc, hreg]

theorem execute_div (s : CPU) (src : Reg8) (h : (fetch_byte s).1.val = 0xF6)
    (hreg : ((fetch_byte (fetch_byte s).2).1.val >>> 3) &&& 0x07 = 6)
    (hsrc : get_register (modrm_rm (fetch_byte (fetch_byte s).2).1) = some src) :
    execute s =
      if ((fetch_byte (fetch_byte s).2).2.read src).val = 0 then
        .exit 1 (fetch_byte (fetch_byte s).2).2
      else if (CPU.read { (fetch_byte (fetch_byte s).2).2 with
          al := toU8 ((((fetch_byte (fetch_byte s).2).2.ah.val <<< 8) |||
            (fetch_byte (fetch_byte s).2).2.al.val) /
              ((fetch_byte (fetch_byte s).2).2.read src).val) } src).val = 0 then
        .undefined
      else
        .next { (fetch_byte (fetch_byte s).2).2 with
          al := toU8 ((((fetch_byte (fetch_byte s).2).2.ah.val <<< 8) |||
            (fetch_byte (fetch_byte s).2).2.al.val) /
              ((fetch_byte (fetch_byte s).2).2.read src).val),
          ah := toU8 ((((fetch_byte (fetch_byte s).2).2.ah.val <<< 8) |||
            (toU8 ((((fetch_byte (fetch_byte s).2).2.ah.val <<< 8) |||
              (fetch_byte (fetch_byte s).2).2.al.val) /
                ((fetch_byte (fetch_byte s).2).2.read src).val)).val) %
            (CPU.read { (fetch_byte (fetch_byte s).2).2 with
              al := toU8 ((((fetch_byte (fetch_byte s).2).2.ah.val <<< 8) |||
                (fetch_byte (fetch_byte s).2).2.al.val) /
                  ((fetch_byte (fetch_byte s).2).2.read src).val) } src).val) } := by
  unfold execute
  simp only [h, hsrc, hreg]

theorem shl8_or (a b : Nat) (hb : b < 256) : (a <<< 8) ||| b = a * 256 + b := by
  have h := Nat.mul_add_lt_is_or (show b < 2 ^ 8 from hb) a
  rw [Nat.shiftLeft_eq, Nat.mul_comm a (2 ^ 8), ← h]

/-- Dividing `h * 256 + l` by a non-zero byte `l` never leaves a quotient whose
low byte is 0. -/
theorem div_self_low_byte_ne_zero (h l : Nat) (hl : 0 < l) (hl' : l < 256) :
    ((h * 256 + l) / l) % 256 ≠ 0 := by
  intro hq
  have e1 := Nat.div_add_mod (h * 256 + l) l
  have hr := Nat.mod_lt (h * 256 + l) hl
  have e2 := Nat.div_add_mod ((h * 256 + l) / l) 256
  rw [hq, Nat.add_zero] at e2
  rw [← e2, ← Nat.mul_assoc, Nat.mul_comm l 256, Nat.mul_assoc] at e1
  omega

/-- What MUL r/m8 leaves: the product is truncated to a byte before it is
split, so AL gets its low byte and AH gets 0; the flags are not written. -/
theorem mul_step (s : CPU) (m : U8) (src : Reg8)
    (hop : (fetch_byte s).1.val = 0xF6) (hm : (fetch_byte (fetch_byte s).2).1 = m)
    (hreg : (m.val >>> 3) &&& 7 = 4) (hsrc : get_register (toU8 (m.val &&& 7)) = some src) :
    ∃ s', execute s = .next s' ∧
      s'.al.val = (s.al.val * (s.read src).val) % 256 ∧
      s'.ah.val = 0 ∧
      s'.flags = s.flags := by
  subst hm
  refine ⟨_, execute_mul s src hop hreg hsrc, ?_, ?_, rfl⟩
  · show ((((s.al.val * ((fetch_byte (fetch_byte s).2).2.read src).val) % 256) &&& 0xFF) % 256
      : Nat) = _
    rw [fetch_byte_read, fetch_byte_read]
    have h := Nat.and_pow_two_sub_one_eq_mod ((s.al.val * (s.read src).val) % 256) 8
    have h2 : (2 : Nat) ^ 8 - 1 = 0xFF := by norm_num
    rw [h2] at h
    rw [h]
    omega
  · show ((((s.al.val * ((fetch_byte (fetch_byte s).2).2.read src).val) % 256) >>> 8) % 256
      : Nat) = 0
    rw [Nat.shiftRight_eq_div_pow]
    have : (s.al.val * ((fetch_byte (fetch_byte s).2).2.read src).val) % 256 / 2 ^ 8 = 0 := by
      apply Nat.div_eq_of_lt
      have := Nat.mod_lt (s.al.val * ((fetch_byte (fetch_byte s).2).2.read src).val)
        (show 0 < 256 by decide)
      omega
    rw [this]

/-- C11, the defect: with AL = 0x10 and BL = 0x10, MUL BL (`F6 E3`) must leave
AX = 0x0100, but the step leaves AL = 0 and AH = 0: the product is held in a
byte, so its high byte is lost before `value >> 8` is taken. -/
theorem mul_drops_high_byte :
    (fetch_byte mulDemo).1.val = 0xF6 ∧
    (fetch_byte (fetch_byte mulDemo).2).1 = 0xE3 ∧
    ((0xE3 : U8).val >>> 3) &&& 7 = 4 ∧
    get_register (toU8 ((0xE3 : U8).val &&& 7)) = some Reg8.bl ∧
    mulDemo.al.val * (mulDemo.read Reg8.bl).val = 0x0100 ∧
    ∃ s', execute mulDemo = .next s' ∧ s'.al.val = 0 ∧ s'.ah.val = 0 ∧
      s'.ah.val * 256 + s'.al.val ≠ mulDemo.al.val * (mulDemo.read Reg8.bl).val := by
  refine ⟨by decide, by decide, by decide, by decide, by decide, ?_⟩
  obtain ⟨s', h1, h2, h3, -⟩ := mul_step mulDemo 0xE3 Reg8.bl (by decide) (by decide)
    (by decide) (by decide)
  have h4 : s'.al.val = 0 := by rw [h2]; decide
  refine ⟨s', h1, h4, h3, ?_⟩
  rw [h3, h4]
  decide

/-- What DIV r/m8 leaves when the selected register is not zero. -/
theorem div_step (s : CPU) (m : U8) (src : Reg8)
    (hop : (fetch_byte s).1.val = 0xF6) (hm : (fetch_byte (fetch_byte s).2).1 = m)
    (hreg : (m.val >>> 3) &&& 7 = 6) (hsrc : get_register (toU8 (m.val &&& 7)) = some src)
    (hnz : (s.read src).val ≠ 0) :
    ∃ s', execute s = .next s' ∧
      s'.al.val = ((s.ah.val * 256 + s.al.val) / (s.read src).val) % 256 ∧
      (CPU.read { s with al := s'.al } src).val ≠ 0 ∧
      s'.ah.val = ((s.ah.val * 256 + s'.al.val) %
        (CPU.read { s with al := s'.al } src).val) % 256 ∧
      (src ≠ Reg8.al → CPU.read { s with al := s'.al } src = s.read src) ∧
      s'.flags = s.flags := by
  subst hm
  have hrd : ((fetch_byte (fetch_byte s).2).2.read src).val = (s.read src).val := by
    rw [fetch_byte_read, fetch_byte_read]
  have hq : (((fetch_byte (fetch_byte s).2).2.ah.val <<< 8) |||
      (fetch_byte (fetch_byte s).2).2.al.val) = s.ah.val * 256 + s.al.val :=
    shl8_or s.ah.val s.al.val s.al.isLt
  have hre : ∀ v : U8, CPU.read { (fetch_byte (fetch_byte s).2).2 with al := v } src
      = CPU.read { s with al := v } src := fun v => by cases src <;> rfl
  have hother : ∀ v : U8, src ≠ Reg8.al → CPU.read { s with al := v } src = s.read src :=
    fun v hne => by cases src <;> first | rfl | exact absurd rfl hne
  have hnz2 : (CPU.read { s with
      al := toU8 ((s.ah.val * 256 + s.al.val) / (s.read src).val) } src).val ≠ 0 := by
    by_cases hal : src = Reg8.al
    · subst hal
      show ((s.ah.val * 256 + s.al.val) / s.al.val) % 256 ≠ 0
      exact div_self_low_byte_ne_zero s.ah.val s.al.val (Nat.pos_of_ne_zero hnz) s.al.isLt
    · rw [hother _ hal]; exact hnz
  have hex := execute_div s src hop hreg hsrc
  rw [hrd, hq, if_neg hnz, hre, if_neg hnz2] at hex
  refine ⟨_, hex, rfl, hnz2, ?_, hother _, rfl⟩
  show ((s.ah.val <<< 8 ||| (toU8 ((s.ah.val * 256 + s.al.val) / (s.read src).val)).val) %
    (CPU.read { s with al := toU8 ((s.ah.val * 256 + s.al.val) / (s.read src).val) } src).val)
      % 256 = _
  rw [shl8_or _ _ (toU8 ((s.ah.val * 256 + s.al.val) / (s.read src).val)).isLt]

/-- C12: for every CPU state whose next `execute` step fetches DIV r/m8 (0xF6
with ModR/M reg field 6) on a register with non-zero value `s`, with `h = AH`
and `l = AL` before the step: the step returns, the new AL is
`((h*256 + l) div s) mod 256` and the new AH is `((h*256 + new AL) mod s') mod
256`, where `s'` is the value of the selected register read after AL was
overwritten (non-zero, and equal to `s` unless the selected register is AL);
the flags byte is unchanged. -/
theorem div_rm8_step (s : CPU) (m : U8) (src : Reg8)
    (hop : (fetch_byte s).1.val = 0xF6) (hm : (fetch_byte (fetch_byte s).2).1 = m)
    (hreg : (m.val >>> 3) &&& 7 = 6) (hsrc : get_register (toU8 (m.val &&& 7)) = some src)
    (hnz : (s.read src).val ≠ 0) :
    ∃ s', execute s = .next s' ∧
      s'.al.val = ((s.ah.val * 256 + s.al.val) / (s.read src).val) % 256 ∧
      (CPU.read { s with al := s'.al } src).val ≠ 0 ∧
      s'.ah.val = ((s.ah.val * 256 + s'.al.val) %
        (CPU.read { s with al := s'.al } src).val) % 256 ∧
      (src ≠ Reg8.al → CPU.read { s with al := s'.al } src = s.read src) ∧
      s'.flags = s.flags :=
  div_step s m src hop hm hreg hsrc hnz

/-- The witness of C12: with AX = 300 and BL = 7, DIV BL (`F6 F3`) leaves
AL = 42 and AH = (256 + 42) mod 7 = 4, not the remainder 300 mod 7 = 6. -/
theorem div_rm8_step_witness :
    ((fetch_byte divDemo).1.val = 0xF6 ∧ (fetch_byte (fetch_byte divDemo).2).1 = 0xF3 ∧
      ((0xF3 : U8).val >>> 3) &&& 7 = 6 ∧
      get_register (toU8 ((0xF3 : U8).val &&& 7)) = some Reg8.bl ∧
      (divDemo.read Reg8.bl).val ≠ 0) ∧
    ∃ s', execute divDemo = .next s' ∧ s'.al.val = 42 ∧ s'.ah.val = 4 ∧
      (divDemo.ah.val * 256 + divDemo.al.val) % 7 = 6 := by
  refine ⟨⟨by decide, by decide, by decide, by decide, by decide⟩, ?_⟩
  obtain ⟨s', h1, h2, -, h3, h4, -⟩ := div_rm8_step divDemo 0xF3 Reg8.bl (by decide) (by decide)
    (by decide) (by decide) (by decide)
  have hal : s'.al.val = 42 := by rw [h2]; decide
  refine ⟨s', h1, hal, ?_, by decide⟩
  rw [h3, h4 (by decide), hal]
  decide

/-! ## CALL and RET -/

theorem execute_call (s : CPU) (h : (fetch_byte s).1.val = 0xE8) :
    execute s = .next
      (((fetch_byte (fetch_byte (fetch_byte s).2).2).2.push
          (fetch_byte (fetch_byte (fetch_byte s).2).2).2.ip).jump
        (sext16 ((fetch_byte (fetch_byte s).2).1.val |||
          ((fetch_byte (fetch_byte (fetch_byte s).2).2).1.val <<< 8)))) := by
  unfold execute
  simp only [h]

theorem execute_ret (s : CPU) (h : (fetch_byte s).1.val = 0xC3) :
    execute s = .next
      { CPU.incSp (fetch_byte s).2 with
        ip := (fetch_byte s).2.memory (fetch_byte s).2.sp.val } := by
  unfold execute
  simp only [h]

theorem ip_after_three_fetches (s : CPU) :
    (fetch_byte (fetch_byte (fetch_byte s).2).2).2.ip.val = (s.ip.val + 3) % 256 := by
  simp only [fetch_byte_ip, toU8_val]
  omega

/-- What CALL rel16 leaves, and what a RET fetched next then does. -/
theorem call_step (s : CPU) (lo hi : U8)
    (hop : (fetch_byte s).1.val = 0xE8) (hlo : (fetch_byte (fetch_byte s).2).1 = lo)
    (hhi : (fetch_byte (fetch_byte (fetch_byte s).2).2).1 = hi) :
    ∃ s', execute s = .next s' ∧
      (s'.sp.val : Int) = ((s.sp.val : Int) - 1) % 256 ∧
      (s'.memory s'.sp.val).val = (s.ip.val + 3) % 256 ∧
      (∀ a, a ≠ s'.sp.val → s'.memory a = s.memory a) ∧
      (s'.ip.val : Int) = ((s.ip.val : Int) + 3 + sext16 (hi.val * 256 + lo.val)) % 256 ∧
      ((fetch_byte s').1.val = 0xC3 →
        ∃ u, execute s' = .next u ∧ u.ip.val = (s.ip.val + 3) % 256 ∧ u.sp = s.sp) := by
  subst hlo hhi
  have hip := ip_after_three_fetches s
  have hor := shl8_or (fetch_byte (fetch_byte (fetch_byte s).2).2).1.val
    (fetch_byte (fetch_byte s).2).1.val (fetch_byte (fetch_byte s).2).1.isLt
  rw [Nat.lor_comm] at hor
  have hsp : ((((fetch_byte (fetch_byte (fetch_byte s).2).2).2.push
      (fetch_byte (fetch_byte (fetch_byte s).2).2).2.ip).jump
        (sext16 ((fetch_byte (fetch_byte s).2).1.val |||
          ((fetch_byte (fetch_byte (fetch_byte s).2).2).1.val <<< 8)))).sp)
      = intToU8 ((s.sp.val : Int) - 1) := rfl
  have hmem : ∀ a, ((((fetch_byte (fetch_byte (fetch_byte s).2).2).2.push
      (fetch_byte (fetch_byte (fetch_byte s).2).2).2.ip).jump
        (sext16 ((fetch_byte (fetch_byte s).2).1.val |||
          ((fetch_byte (fetch_byte (fetch_byte s).2).2).1.val <<< 8)))).memory a)
      = if a = (intToU8 ((s.sp.val : Int) - 1)).val then
          (fetch_byte (fetch_byte (fetch_byte s).2).2).2.ip
        else s.memory a := fun a => rfl
  have hlt := s.sp.isLt
  refine ⟨_, execute_call s hop, ?_, ?_, ?_, ?_, ?_⟩
  · rw [hsp, intToU8_val]
    have := Int.emod_nonneg ((s.sp.val : Int) - 1) (show (256 : Int) ≠ 0 by decide)
    omega
  · rw [hmem, hsp, if_pos rfl, hip]
  · intro a ha
    rw [hsp] at ha
    rw [hmem, if_neg ha]
  · rw [jump_ip, hor]
    have h3 : (((fetch_byte (fetch_byte (fetch_byte s).2).2).2.push
        (fetch_byte (fetch_byte (fetch_byte s).2).2).2.ip).ip.val : Int)
        = ((s.ip.val + 3) % 256 : Nat) := by
      rw [← hip]; rfl
    rw [h3]
    omega
  · intro hret
    refine ⟨_, execute_ret _ hret, ?_, ?_⟩
    · show ((fetch_byte _).2.memory (fetch_byte _).2.sp.val).val = _
      simp only [fetch_byte_memory, fetch_byte_sp]
      rw [hmem, hsp, if_pos rfl, hip]
    · show toU8 ((fetch_byte _).2.sp.val + 1) = s.sp
      rw [fetch_byte_sp, hsp]
      apply Fin.ext
      simp only [toU8_val, intToU8_val]
      omega

/-- C13: for every CPU state whose next `execute` step fetches CALL (0xE8) at
address `p = IP` and then the displacement bytes `lo`, `hi`, with `SP = q`: the
step returns with `SP = (q - 1) mod 256`, `memory[(q - 1) mod 256] = (p + 3)
mod 256`, no other memory byte changed, and
`IP = (p + 3 + sext16(hi*256 + lo)) mod 256`; and if the next step fetches RET
(0xC3), it returns with `IP = (p + 3) mod 256` and `SP = q`. -/
theorem call_ret_step (s : CPU) (lo hi : U8)
    (hop : (fetch_byte s).1.val = 0xE8) (hlo : (fetch_byte (fetch_byte s).2).1 = lo)
    (hhi : (fetch_byte (fetch_byte (fetch_byte s).2).2).1 = hi) :
    ∃ s', execute s = .next s' ∧
      (s'.sp.val : Int) = ((s.sp.val : Int) - 1) % 256 ∧
      (s'.memory s'.sp.val).val = (s.ip.val + 3) % 256 ∧
      (∀ a, a ≠ s'.sp.val → s'.memory a = s.memory a) ∧
      (s'.ip.val : Int) = ((s.ip.val : Int) + 3 + sext16 (hi.val * 256 + lo.val)) % 256 ∧
      ((fetch_byte s').1.val = 0xC3 →
        ∃ u, execute s' = .next u ∧ u.ip.val = (s.ip.val + 3) % 256 ∧ u.sp = s.sp) :=
  call_step s lo hi hop hlo hhi

/-- The witness of C13: from IP = 0 and SP = 255, `E8 02 00` pushes the return
address 3 at 254 and jumps to 5; the RET there returns to 3 with SP = 255. -/
theorem call_ret_step_witness :
    ((fetch_byte callDemo).1.val = 0xE8 ∧ (fetch_byte (fetch_byte callDemo).2).1 = 0x02 ∧
      (fetch_byte (fetch_byte (fetch_byte callDemo).2).2).1 = 0x00) ∧
    ∃ s' u, execute callDemo = .next s' ∧ s'.sp.val = 254 ∧ (s'.memory 254).val = 3 ∧
      s'.ip.val = 5 ∧ (fetch_byte s').1.val = 0xC3 ∧
      execute s' = .next u ∧ u.ip.val = 3 ∧ u.sp.val = 255 := by
  refine ⟨⟨by decide, by decide, by decide⟩, ?_⟩
  obtain ⟨s', h1, -, -, -, -, h6⟩ := call_ret_step callDemo 0x02 0x00 (by decide) (by decide)
    (by decide)
  obtain rfl : s' = _ := Outcome.next.inj (h1.symm.trans (execute_call callDemo (by decide)))
  obtain ⟨u, h7, h8, h9⟩ := h6 (by decide)
  exact ⟨_, u, h1, by decide, by decide, by decide, by decide, h7, h8, by rw [h9]; rfl⟩

/-! ## PUSH -/

/-- What two pushes in a row leave: the first byte at `SP - 1`, the second at
`SP - 2`, every other memory byte and everything but SP alone. -/
theorem push2_frame (c : CPU) (hi lo : U8) :
    ((c.push hi).push lo).sp.val = (c.sp.val + 254) % 256 ∧
    ((c.push hi).push lo).memory ((c.sp.val + 255) % 256) = hi ∧
    ((c.push hi).push lo).memory ((c.sp.val + 254) % 256) = lo ∧
    (∀ a, a ≠ (c.sp.val + 255) % 256 → a ≠ (c.sp.val + 254) % 256 →
      ((c.push hi).push lo).memory a = c.memory a) ∧
    (∀ p, ((c.push hi).push lo).read p = c.read p) ∧
    ((c.push hi).push lo).flags = c.flags := by
  have hlt := c.sp.isLt
  have a1 : (intToU8 ((c.sp.val : Int) - 1)).val = (c.sp.val + 255) % 256 := by
    rw [intToU8_val]; omega
  have a2 : (intToU8 (((intToU8 ((c.sp.val : Int) - 1)).val : Int) - 1)).val
      = (c.sp.val + 254) % 256 := by
    rw [intToU8_val, a1]; omega
  have hm : ∀ a, ((c.push hi).push lo).memory a =
      if a = (c.sp.val + 254) % 256 then lo
      else if a = (c.sp.val + 255) % 256 then hi else c.memory a := by
    intro a
    rw [push_memory, push_memory, push_sp, a2, a1]
  refine ⟨?_, ?_, ?_, ?_, fun p => by cases p <;> rfl, rfl⟩
  · rw [push_sp, push_sp, a2]
  · rw [hm, if_neg (by omega), if_pos rfl]
  · rw [hm, if_pos rfl]
  · intro a h1 h2
    rw [hm, if_neg h2, if_neg h1]

/-- C15: for every CPU state with `SP = q` whose next `execute` step fetches
PUSH AX (0x50), the step returns with `SP = (q - 2) mod 256`,
`memory[(q - 1) mod 256] = AH` and `memory[(q - 2) mod 256] = AL` (the low byte
at the lower address), and every other memory byte, every register and the
flags unchanged; PUSH DX (0x52) does the same with DH and DL.  From the initial
`SP = 255` the bytes land at 254 and 253.  (`(q + 255) mod 256` is `(q - 1) mod
256` and `(q + 254) mod 256` is `(q - 2) mod 256`.) -/
theorem push_step (s : CPU) :
    ((fetch_byte s).1.val = 0x50 →
      ∃ s', execute s = .next s' ∧
        s'.sp.val = (s.sp.val + 254) % 256 ∧
        s'.memory ((s.sp.val + 255) % 256) = s.ah ∧
        s'.memory ((s.sp.val + 254) % 256) = s.al ∧
        (∀ a, a ≠ (s.sp.val + 255) % 256 → a ≠ (s.sp.val + 254) % 256 →
          s'.memory a = s.memory a) ∧
        (∀ p, s'.read p = s.read p) ∧ s'.flags = s.flags ∧
        (s.sp = init_cpu.sp → s'.memory 254 = s.ah ∧ s'.memory 253 = s.al)) ∧
    ((fetch_byte s).1.val = 0x52 →
      ∃ s', execute s = .next s' ∧
        s'.sp.val = (s.sp.val + 254) % 256 ∧
        s'.memory ((s.sp.val + 255) % 256) = s.dh ∧
        s'.memory ((s.sp.val + 254) % 256) = s.dl ∧
        (∀ a, a ≠ (s.sp.val + 255) % 256 → a ≠ (s.sp.val + 254) % 256 →
          s'.memory a = s.memory a) ∧
        (∀ p, s'.read p = s.read p) ∧ s'.flags = s.flags ∧
        (s.sp = init_cpu.sp → s'.memory 254 = s.dh ∧ s'.memory 253 = s.dl)) ∧
    init_cpu.sp.val = 255 := by
  refine ⟨fun h => ?_, fun h => ?_, rfl⟩
  · obtain ⟨p1, p2, p3, p4, p5, p6⟩ := push2_frame (fetch_byte s).2 (fetch_byte s).2.ah
      ((fetch_byte s).2.push (fetch_byte s).2.ah).al
    refine ⟨_, execute_push_ax s h, p1, p2, p3, p4, fun p => ?_, p6, fun hsp => ?_⟩
    · rw [p5, fetch_byte_read]
    · have h255 : (fetch_byte s).2.sp.val = 255 := by rw [fetch_byte_sp, hsp]; rfl
      rw [h255] at p2 p3
      exact ⟨p2, p3⟩
  · obtain ⟨p1, p2, p3, p4, p5, p6⟩ := push2_frame (fetch_byte s).2 (fetch_byte s).2.dh
      ((fetch_byte s).2.push (fetch_byte s).2.dh).dl
    refine ⟨_, execute_push_dx s h, p1, p2, p3, p4, fun p => ?_, p6, fun hsp => ?_⟩
    · rw [p5, fetch_byte_read]
    · have h255 : (fetch_byte s).2.sp.val = 255 := by rw [fetch_byte_sp, hsp]; rfl
      rw [h255] at p2 p3
      exact ⟨p2, p3⟩

/-- The witness of C15: in scenario 6, PUSH AX from SP = 255 with AL = 0x12 and
AH = 0x34 leaves SP = 253, 0x34 at 254 and 0x12 at 253. -/
theorem push_step_witness :
    ((fetch_byte stackDemo).1.val = 0x50 ∧ stackDemo.sp = init_cpu.sp) ∧
    ∃ s', execute stackDemo = .next s' ∧ s'.sp.val = 253 ∧
      (s'.memory 254).val = 0x34 ∧ (s'.memory 253).val = 0x12 := by
  refine ⟨⟨by decide, rfl⟩, ?_⟩
  obtain ⟨s', h1, h2, -, -, -, -, -, h8⟩ := (push_step stackDemo).1 (by decide)
  obtain ⟨h9, h10⟩ := h8 rfl
  exact ⟨s', h1, h2, by rw [h9]; rfl, by rw [h10]; rfl⟩

/-! ## Register selection and the register bank -/

set_option maxRecDepth 100000 in
theorem get_register_table : ∀ c : U8,
    get_register c = specEncoding (c.val % 8) ∧
    get_register c = get_register (toU8 (c.val % 8)) ∧
    get_register c ≠ none := by
  decide

/-- C16: for every 8-bit `reg_code` `c`, `get_register` returns a non-null
register, namely the one that `c mod 8` names under the encoding 0:AL, 1:CL,
2:DL, 3:BL, 4:AH, 5:CH, 6:DH, 7:BH; the high 5 bits of `c` do not affect the
result (two codes with the same low 3 bits select the same register) and the
default (NULL) branch is unreachable. -/
theorem get_register_spec (c : U8) :
    (∃ p, get_register c = some p ∧ specEncoding (c.val % 8) = some p) ∧
    (∀ c' : U8, c'.val % 8 = c.val % 8 → get_register c' = get_register c) ∧
    get_register c ≠ none := by
  obtain ⟨h1, -, h3⟩ := get_register_table c
  obtain ⟨p, hp⟩ := get_register_some c
  refine ⟨⟨p, hp, by rw [← h1, hp]⟩, fun c' hc => ?_, h3⟩
  rw [(get_register_table c').1, h1, hc]

/-- The slots of `regs[8]` over the named registers, and what `get_register`
selects for the same index. -/
theorem regs_layout :
    (List.range 8).map regsSlot
      = [some Reg8.al, some Reg8.ah, some Reg8.bl, some Reg8.bh,
         some Reg8.cl, some Reg8.ch, some Reg8.dl, some Reg8.dh] ∧
    (List.range 8).map (fun i => get_register (toU8 i))
      = [some Reg8.al, some Reg8.cl, some Reg8.dl, some Reg8.bl,
         some Reg8.ah, some Reg8.ch, some Reg8.dh, some Reg8.bh] := by
  decide

/-- C17, amended: for every index `i` in 0..7, entry `regs[i]` of the CPU's
register bank is the same storage as the `i`-th named register in declaration
order (0:AL, 1:AH, 2:BL, 3:BH, 4:CL, 5:CH, 6:DL, 7:DH): reading `regs[i]`
returns its value and writing `regs[i]` changes exactly that named register.
It is the register `get_register(i)` selects exactly for `i = 0` and `i = 5`. -/
theorem regs_alias (cpu : CPU) (i : Nat) (v : U8) (hi : i < 8) :
    ∃ p c', regsSlot i = some p ∧
      cpu.regsRead i = some (cpu.read p) ∧
      cpu.regsWrite i v = some c' ∧
      c'.read p = v ∧
      (∀ q, q ≠ p → c'.read q = cpu.read q) ∧
      (c'.regsRead i = some v) ∧
      ((List.range 8).map regsSlot
        = [some Reg8.al, some Reg8.ah, some Reg8.bl, some Reg8.bh,
           some Reg8.cl, some Reg8.ch, some Reg8.dl, some Reg8.dh]) ∧
      (get_register (toU8 i) = some p ↔ i = 0 ∨ i = 5) := by
  have hslot : ∃ p, regsSlot i = some p ∧ (get_register (toU8 i) = some p ↔ i = 0 ∨ i = 5) := by
    interval_cases i <;> exact ⟨_, rfl, by decide⟩
  obtain ⟨p, hp, hg⟩ := hslot
  refine ⟨p, cpu.write p v, hp, ?_, ?_, read_write_same cpu p v,
    fun q hq => read_write_other cpu p q v hq, ?_, regs_layout.1, hg⟩
  · simp only [CPU.regsRead, hp, Option.map_some']
  · simp only [CPU.regsWrite, hp, Option.map_some']
  · simp only [CPU.regsRead, hp, Option.map_some', read_write_same]

/-- The witness of C17 as amended: on the initial state, writing 7 to `regs[4]`
sets CL (and nothing else), while `get_register(4)` selects AH. -/
theorem regs_alias_witness :
    (4 < 8) ∧
    ∃ c', init_cpu.regsWrite 4 7 = some c' ∧ c'.cl.val = 7 ∧ c'.ah.val = 0 ∧
      get_register (toU8 4) = some Reg8.ah := by
  obtain ⟨p, c', h1, -, h3, h4, h5, -, -, -⟩ := regs_alias init_cpu 4 7 (by decide)
  obtain rfl : p = Reg8.cl := (Option.some.inj h1).symm
  refine ⟨by decide, c', h3, congrArg Fin.val h4, ?_, by decide⟩
  exact congrArg Fin.val (h5 Reg8.ah (by decide))

/-- The counterexample to C17 as stated, at `i = 1`: encoding 1 names CL and
`get_register(1)` selects CL, but writing 7 to `regs[1]` changes AH and leaves
CL alone, and after CL is set to 9 reading `regs[1]` still returns AH = 0. -/
theorem regs_index_is_not_encoding :
    specEncoding 1 = some Reg8.cl ∧
    get_register (toU8 1) = some Reg8.cl ∧
    (∃ c', init_cpu.regsWrite 1 7 = some c' ∧ (c'.read Reg8.cl).val = 0 ∧
      (c'.read Reg8.ah).val = 7) ∧
    ((init_cpu.write Reg8.cl 9).regsRead 1 = some 0) ∧
    ((init_cpu.write Reg8.cl 9).read Reg8.cl).val = 9 := by
  refine ⟨rfl, by decide, ⟨_, rfl, by decide, by decide⟩, by decide, by decide⟩

/-! ## Shifts -/

theorem execute_shift (s : CPU) (dest : Reg8)
    (h : (fetch_byte s).1.val = 0xD0 ∨ (fetch_byte s).1.val = 0xD2)
    (hdest : get_register (modrm_rm (fetch_byte (fetch_byte s).2).1) = some dest) :
    execute s =
      if ((fetch_byte (fetch_byte s).2).1.val >>> 3) &&& 0x07 = 5 then
        .next (update_flags
          ((fetch_byte (fetch_byte s).2).2.write dest
            (toU8 (((fetch_byte (fetch_byte s).2).2.read dest).val >>>
              intShiftCount (if (fetch_byte s).1.val = 0xD0 then (1 : U8)
                else (fetch_byte (fetch_byte s).2).2.cl))))
          (((fetch_byte (fetch_byte s).2).2.write dest
            (toU8 (((fetch_byte (fetch_byte s).2).2.read dest).val >>>
              intShiftCount (if (fetch_byte s).1.val = 0xD0 then (1 : U8)
                else (fetch_byte (fetch_byte s).2).2.cl)))).read dest))
      else if ((fetch_byte (fetch_byte s).2).1.val >>> 3) &&& 0x07 = 4 then
        .next (update_flags
          ((fetch_byte (fetch_byte s).2).2.write dest
            (toU8 (((fetch_byte (fetch_byte s).2).2.read dest).val <<<
              intShiftCount (if (fetch_byte s).1.val = 0xD0 then (1 : U8)
                else (fetch_byte (fetch_byte s).2).2.cl))))
          (((fetch_byte (fetch_byte s).2).2.write dest
            (toU8 (((fetch_byte (fetch_byte s).2).2.read dest).val <<<
              intShiftCount (if (fetch_byte s).1.val = 0xD0 then (1 : U8)
                else (fetch_byte (fetch_byte s).2).2.cl)))).read dest))
      else
        .next (update_flags (fetch_byte (fetch_byte s).2).2
          ((fetch_byte (fetch_byte s).2).2.read dest)) := by
  unfold execute
  rcases h with h | h <;> simp only [h, hdest]

/-- What `*dest = v; update_flags(cpu, *dest);` leaves after the two fetches. -/
theorem write_then_flags (s : CPU) (dest : Reg8) (v : U8) :
    ((update_flags ((fetch_byte (fetch_byte s).2).2.write dest v)
        (((fetch_byte (fetch_byte s).2).2.write dest v).read dest)).read dest = v) ∧
    ((update_flags ((fetch_byte (fetch_byte s).2).2.write dest v)
        (((fetch_byte (fetch_byte s).2).2.write dest v).read dest)).flagSet FLAG_ZERO = true
      ↔ v.val = 0) ∧
    ((update_flags ((fetch_byte (fetch_byte s).2).2.write dest v)
        (((fetch_byte (fetch_byte s).2).2.write dest v).read dest)).flagSet FLAG_SIGN = true
      ↔ 0x80 ≤ v.val) ∧
    (∀ q, q ≠ dest → (update_flags ((fetch_byte (fetch_byte s).2).2.write dest v)
        (((fetch_byte (fetch_byte s).2).2.write dest v).read dest)).read q = s.read q) ∧
    (update_flags ((fetch_byte (fetch_byte s).2).2.write dest v)
        (((fetch_byte (fetch_byte s).2).2.write dest v).read dest)).sp = s.sp ∧
    (update_flags ((fetch_byte (fetch_byte s).2).2.write dest v)
        (((fetch_byte (fetch_byte s).2).2.write dest v).read dest)).memory = s.memory ∧
    (update_flags ((fetch_byte (fetch_byte s).2).2.write dest v)
        (((fetch_byte (fetch_byte s).2).2.write dest v).read dest)).ip.val
      = (s.ip.val + 2) % 256 := by
  rw [read_write_same]
  obtain ⟨hz, hs, -⟩ := update_flags_bits ((fetch_byte (fetch_byte s).2).2.write dest v) v
  refine ⟨by simp, ?_, ?_, fun q hq => ?_, by simp, by simp, ?_⟩
  · rw [flagSet_iff]; exact hz
  · rw [flagSet_iff]; exact hs
  · rw [update_flags_read, read_write_other _ _ _ _ hq, fetch_byte_read, fetch_byte_read]
  · rw [update_flags_ip, write_ip]; exact ip_after_two_fetches s

theorem shl_large (d n : Nat) (hn : 8 ≤ n) : (d * 2 ^ n) % 256 = 0 := by
  obtain ⟨k, rfl⟩ := Nat.exists_eq_add_of_le hn
  rw [Nat.pow_add, ← Nat.mul_assoc, Nat.mul_comm d, Nat.mul_assoc]
  exact Nat.mul_mod_right 256 _

theorem shr_large (d n : Nat) (hd : d < 256) (hn : 8 ≤ n) : d / 2 ^ n = 0 := by
  apply Nat.div_eq_of_lt
  calc d < 2 ^ 8 := hd
    _ ≤ 2 ^ n := Nat.pow_le_pow_right (by decide) hn

/-- SHL/SHR step, for every count: with `count = 1` for opcode 0xD0 and
`count = CL` for opcode 0xD2, reg field 4 (SHL) sets the register selected by
`m & 7` to `(dest * 2^(count mod 32)) mod 256` and reg field 5 (SHR) sets it to
`dest div 2^(count mod 32)`, then ZF and SF are set from the new value.  For a
count below 32 these are `(dest * 2^count) mod 256` and `dest div 2^count`: a
count of 0 leaves the register unchanged and a count of 8 to 31 yields 0 with
ZF set. -/
theorem shift_step (s : CPU) (m : U8) (dest : Reg8) (count : Nat)
    (hop : ((fetch_byte s).1.val = 0xD0 ∧ count = 1) ∨
      ((fetch_byte s).1.val = 0xD2 ∧ count = s.cl.val))
    (hm : (fetch_byte (fetch_byte s).2).1 = m)
    (hdest : get_register (toU8 (m.val &&& 7)) = some dest) :
    ((m.val >>> 3) &&& 7 = 4 →
      ∃ s', execute s = .next s' ∧
        (s'.read dest).val = ((s.read dest).val * 2 ^ (count % 32)) % 256 ∧
        (s'.flagSet FLAG_ZERO = true ↔ (s'.read dest).val = 0) ∧
        (s'.flagSet FLAG_SIGN = true ↔ 0x80 ≤ (s'.read dest).val) ∧
        (count < 32 → (s'.read dest).val = ((s.read dest).val * 2 ^ count) % 256) ∧
        (count % 32 = 0 → s'.read dest = s.read dest) ∧
        (8 ≤ count % 32 → (s'.read dest).val = 0 ∧ s'.flagSet FLAG_ZERO = true)) ∧
    ((m.val >>> 3) &&& 7 = 5 →
      ∃ s', execute s = .next s' ∧
        (s'.read dest).val = (s.read dest).val / 2 ^ (count % 32) ∧
        (s'.flagSet FLAG_ZERO = true ↔ (s'.read dest).val = 0) ∧
        (s'.flagSet FLAG_SIGN = true ↔ 0x80 ≤ (s'.read dest).val) ∧
        (count < 32 → (s'.read dest).val = (s.read dest).val / 2 ^ count) ∧
        (count % 32 = 0 → s'.read dest = s.read dest) ∧
        (8 ≤ count % 32 → (s'.read dest).val = 0 ∧ s'.flagSet FLAG_ZERO = true)) := by
  subst hm
  have hop' : (fetch_byte s).1.val = 0xD0 ∨ (fetch_byte s).1.val = 0xD2 :=
    hop.elim (fun h => Or.inl h.1) (fun h => Or.inr h.1)
  have hcnt : intShiftCount (if (fetch_byte s).1.val = 0xD0 then (1 : U8)
      else (fetch_byte (fetch_byte s).2).2.cl) = count % 32 := by
    unfold intShiftCount
    rcases hop with ⟨h, hc⟩ | ⟨h, hc⟩
    · rw [if_pos h, hc]; rfl
    · rw [if_neg (by omega), hc]; rfl
  have hex := execute_shift s dest hop' hdest
  rw [hcnt, fetch_byte_read, fetch_byte_read] at hex
  have hlt := (s.read dest).isLt
  constructor
  · intro h4
    rw [if_neg (by omega), if_pos h4] at hex
    obtain ⟨w1, w2, w3, -⟩ :=
      write_then_flags s dest (toU8 ((s.read dest).val <<< (count % 32)))
    have hv : (toU8 ((s.read dest).val <<< (count % 32))).val
        = ((s.read dest).val * 2 ^ (count % 32)) % 256 := by
      rw [toU8_val, Nat.shiftLeft_eq]
    refine ⟨_, hex, by rw [w1, hv], by rw [w1]; exact w2, by rw [w1]; exact w3, ?_, ?_, ?_⟩
    · intro hc
      rw [w1, hv, Nat.mod_eq_of_lt hc]
    · intro h0
      rw [w1]
      apply Fin.ext
      rw [hv, h0]
      omega
    · intro h8
      have hz : (toU8 ((s.read dest).val <<< (count % 32))).val = 0 := by
        rw [hv]; exact shl_large _ _ h8
      exact ⟨by rw [w1, hz], w2.mpr hz⟩
  · intro h5
    rw [if_pos h5] at hex
    obtain ⟨w1, w2, w3, -⟩ :=
      write_then_flags s dest (toU8 ((s.read dest).val >>> (count % 32)))
    have hle : (s.read dest).val / 2 ^ (count % 32) ≤ (s.read dest).val := Nat.div_le_self _ _
    have hv : (toU8 ((s.read dest).val >>> (count % 32))).val
        = (s.read dest).val / 2 ^ (count % 32) := by
      rw [toU8_val, Nat.shiftRight_eq_div_pow]
      exact Nat.mod_eq_of_lt (Nat.lt_of_le_of_lt hle hlt)
    refine ⟨_, hex, by rw [w1, hv], by rw [w1]; exact w2, by rw [w1]; exact w3, ?_, ?_, ?_⟩
    · intro hc
      rw [w1, hv, Nat.mod_eq_of_lt hc]
    · intro h0
      rw [w1]
      apply Fin.ext
      rw [hv, h0]
      simp
    · intro h8
      have hz : (toU8 ((s.read dest).val >>> (count % 32))).val = 0 := by
        rw [hv]; exact shr_large _ _ hlt h8
      exact ⟨by rw [w1, hz], w2.mpr hz⟩

/-- C18, a defect of the code: the claim gives SHL the result
`(dest * 2^count) mod 256` for every count, which for AL = 1 and CL = 32 is
`(1 * 2^32) mod 256 = 0` with ZF set.  At that input (`D2 E0`, reg field 4,
register AL) the step returns with AL still 1 and ZF clear: the shift of the
promoted `int` takes the count 32 as 0. -/
theorem shl_by_int_width_keeps_register :
    (fetch_byte shiftDemo).1.val = 0xD2 ∧
    (fetch_byte (fetch_byte shiftDemo).2).1 = 0xE0 ∧
    ((0xE0 : U8).val >>> 3) &&& 7 = 4 ∧
    get_register (toU8 ((0xE0 : U8).val &&& 7)) = some Reg8.al ∧
    (shiftDemo.read Reg8.al).val = 1 ∧
    shiftDemo.cl.val = 32 ∧
    ((shiftDemo.read Reg8.al).val * 2 ^ shiftDemo.cl.val) % 256 = 0 ∧
    (∃ s', execute shiftDemo = .next s' ∧ (s'.read Reg8.al).val = 1 ∧
      s'.flagSet FLAG_ZERO = false) ∧
    ¬ ∃ s', execute shiftDemo = .next s' ∧
      (s'.read Reg8.al).val
        = ((shiftDemo.read Reg8.al).val * 2 ^ shiftDemo.cl.val) % 256 := by
  obtain ⟨s', h1, h2, h3, -, -, h6, -⟩ := (shift_step shiftDemo 0xE0 Reg8.al 32
    (Or.inr ⟨by decide, by decide⟩) (by decide) (by decide)).1 (by decide)
  have hal : (s'.read Reg8.al).val = 1 := by
    rw [h6 (by decide)]; decide
  have hz : s'.flagSet FLAG_ZERO = false := by
    cases hb : s'.flagSet FLAG_ZERO
    · rfl
    · have := h3.mp hb
      omega
  refine ⟨by decide, by decide, by decide, by decide, by decide, by decide, by decide,
    ⟨s', h1, hal, hz⟩, ?_⟩
  rintro ⟨u, hu, hv⟩
  rw [h1] at hu
  cases hu
  rw [hal] at hv
  revert hv
  decide

/-! ## INC, DEC and MOV -/

theorem execute_incdec (s : CPU) (dest : Reg8) (h : (fetch_byte s).1.val = 0xFE)
    (hdest : get_register (modrm_rm (fetch_byte (fetch_byte s).2).1) = some dest) :
    execute s = .next (update_flags
      (if ((fetch_byte (fetch_byte s).2).1.val >>> 3) &&& 0x07 = 0 then
        (fetch_byte (fetch_byte s).2).2.write dest
          (toU8 (((fetch_byte (fetch_byte s).2).2.read dest).val + 1))
      else
        (fetch_byte (fetch_byte s).2).2.write dest
          (intToU8 ((((fetch_byte (fetch_byte s).2).2.read dest).val : Int) - 1)))
      (CPU.read
        (if ((fetch_byte (fetch_byte s).2).1.val >>> 3) &&& 0x07 = 0 then
          (fetch_byte (fetch_byte s).2).2.write dest
            (toU8 (((fetch_byte (fetch_byte s).2).2.read dest).val + 1))
        else
          (fetch_byte (fetch_byte s).2).2.write dest
            (intToU8 ((((fetch_byte (fetch_byte s).2).2.read dest).val : Int) - 1))) dest)) := by
  unfold execute
  simp only [h, hdest]

theorem execute_mov_reg (s : CPU) (dest src : Reg8) (h : (fetch_byte s).1.val = 0x88)
    (hdest : get_register (modrm_rm (fetch_byte (fetch_byte s).2).1) = some dest)
    (hsrc : get_register (modrm_reg (fetch_byte (fetch_byte s).2).1) = some src) :
    execute s = .next ((fetch_byte (fetch_byte s).2).2.write dest
      ((fetch_byte (fetch_byte s).2).2.read src)) := by
  unfold execute
  simp only [h, hdest, hsrc]

/-- What INC/DEC r/m8 leaves. -/
theorem incdec_step (s : CPU) (m : U8) (dest : Reg8)
    (hop : (fetch_byte s).1.val = 0xFE) (hm : (fetch_byte (fetch_byte s).2).1 = m)
    (hdest : get_register (toU8 (m.val &&& 7)) = some dest) :
    ∃ s', execute s = .next s' ∧
      ((m.val >>> 3) &&& 7 = 0 → (s'.read dest).val = ((s.read dest).val + 1) % 256) ∧
      ((m.val >>> 3) &&& 7 ≠ 0 →
        ((s'.read dest).val : Int) = (((s.read dest).val : Int) - 1) % 256) ∧
      (s'.flagSet FLAG_ZERO = true ↔ (s'.read dest).val = 0) ∧
      (s'.flagSet FLAG_SIGN = true ↔ 0x80 ≤ (s'.read dest).val) ∧
      (∀ q, q ≠ dest → s'.read q = s.read q) ∧
      s'.sp = s.sp ∧
      s'.memory = s.memory := by
  subst hm
  have hex := execute_incdec s dest hop hdest
  by_cases h0 : ((fetch_byte (fetch_byte s).2).1.val >>> 3) &&& 7 = 0
  · rw [if_pos h0, fetch_byte_read, fetch_byte_read] at hex
    obtain ⟨w1, w2, w3, w4, w5, w6, -⟩ := write_then_flags s dest (toU8 ((s.read dest).val + 1))
    exact ⟨_, hex, fun _ => by rw [w1]; rfl, fun h => absurd h0 h, by rw [w1]; exact w2,
      by rw [w1]; exact w3, w4, w5, w6⟩
  · rw [if_neg h0, fetch_byte_read, fetch_byte_read] at hex
    obtain ⟨w1, w2, w3, w4, w5, w6, -⟩ := write_then_flags s dest
      (intToU8 (((s.read dest).val : Int) - 1))
    refine ⟨_, hex, fun h => absurd h h0, fun _ => ?_, by rw [w1]; exact w2,
      by rw [w1]; exact w3, w4, w5, w6⟩
    rw [w1, intToU8_val]
    have := Int.emod_nonneg (((s.read dest).val : Int) - 1) (show (256 : Int) ≠ 0 by decide)
    omega

/-- C19: for every CPU state and ModR/M byte `m`, opcode 0xFE with reg field 0
sets the register selected by `m & 7` to `(dest + 1) mod 256` and with reg
field 1 sets it to `(dest - 1) mod 256`, then sets ZF iff the new value is 0
and SF iff it is at least 0x80; other registers, SP and memory are
unchanged. -/
theorem inc_dec_step (s : CPU) (m : U8) (dest : Reg8)
    (hop : (fetch_byte s).1.val = 0xFE) (hm : (fetch_byte (fetch_byte s).2).1 = m)
    (hdest : get_register (toU8 (m.val &&& 7)) = some dest) :
    ∃ s', execute s = .next s' ∧
      ((m.val >>> 3) &&& 7 = 0 → (s'.read dest).val = ((s.read dest).val + 1) % 256) ∧
      ((m.val >>> 3) &&& 7 = 1 →
        ((s'.read dest).val : Int) = (((s.read dest).val : Int) - 1) % 256) ∧
      (s'.flagSet FLAG_ZERO = true ↔ (s'.read dest).val = 0) ∧
      (s'.flagSet FLAG_SIGN = true ↔ 0x80 ≤ (s'.read dest).val) ∧
      (∀ q, q ≠ dest → s'.read q = s.read q) ∧
      s'.sp = s.sp ∧
      s'.memory = s.memory := by
  obtain ⟨s', h1, h2, h3, h4⟩ := incdec_step s m dest hop hm hdest
  exact ⟨s', h1, h2, fun h => h3 (by omega), h4⟩

/-- The witness of C19: the two examples of the claim.  INC AL (`FE C0`) from
0xFF gives 0 with ZF set; DEC AL (`FE C8`) from 0 gives 0xFF with SF set. -/
theorem inc_dec_step_witness :
    ((fetch_byte (incDemo 0xFF 0xC0)).1.val = 0xFE ∧
      (fetch_byte (fetch_byte (incDemo 0xFF 0xC0)).2).1 = 0xC0 ∧
      get_register (toU8 ((0xC0 : U8).val &&& 7)) = some Reg8.al ∧
      (fetch_byte (incDemo 0 0xC8)).1.val = 0xFE ∧
      (fetch_byte (fetch_byte (incDemo 0 0xC8)).2).1 = 0xC8 ∧
      get_register (toU8 ((0xC8 : U8).val &&& 7)) = some Reg8.al) ∧
    (∃ s', execute (incDemo 0xFF 0xC0) = .next s' ∧ s'.al.val = 0 ∧
      s'.flagSet FLAG_ZERO = true) ∧
    (∃ s', execute (incDemo 0 0xC8) = .next s' ∧ s'.al.val = 0xFF ∧
      s'.flagSet FLAG_SIGN = true) := by
  refine ⟨⟨by decide, by decide, by decide, by decide, by decide, by decide⟩, ?_, ?_⟩
  · obtain ⟨s', h1, h2, -, h4, -⟩ := inc_dec_step (incDemo 0xFF 0xC0) 0xC0 Reg8.al
      (by decide) (by decide) (by decide)
    have h0 : (s'.read Reg8.al).val = 0 := (h2 (by decide)).trans (by decide)
    exact ⟨s', h1, h0, h4.mpr h0⟩
  · obtain ⟨s', h1, -, h3, -, h5, -⟩ := inc_dec_step (incDemo 0 0xC8) 0xC8 Reg8.al
      (by decide) (by decide) (by decide)
    have hff : (s'.read Reg8.al).val = 0xFF := by
      have : (((s'.read Reg8.al).val : Nat) : Int) = 0xFF := (h3 (by decide)).trans (by decide)
      exact_mod_cast this
    exact ⟨s', h1, hff, h5.mpr (by omega)⟩

/-- What `*dest = v;` leaves after the two fetches. -/
theorem write_frame (s : CPU) (dest : Reg8) (v : U8) :
    ((fetch_byte (fetch_byte s).2).2.write dest v).read dest = v ∧
    (∀ q, q ≠ dest → ((fetch_byte (fetch_byte s).2).2.write dest v).read q = s.read q) ∧
    ((fetch_byte (fetch_byte s).2).2.write dest v).flags = s.flags ∧
    ((fetch_byte (fetch_byte s).2).2.write dest v).sp = s.sp ∧
    ((fetch_byte (fetch_byte s).2).2.write dest v).memory = s.memory ∧
    ((fetch_byte (fetch_byte s).2).2.write dest v).ip.val = (s.ip.val + 2) % 256 := by
  refine ⟨by simp, fun q hq => ?_, by simp, by simp, by simp, ?_⟩
  · rw [read_write_other _ _ _ _ hq, fetch_byte_read, fetch_byte_read]
  · rw [write_ip]; exact ip_after_two_fetches s

theorem mov_imm_register (i : Nat) (hi : i < 8) :
    get_register (intToU8 (((0xB0 + i : Nat) : Int) - 0xB0)) = specEncoding i := by
  interval_cases i <;> rfl

/-- C20: for every CPU state: opcode `0xB0 + i` (`i` in 0..7) followed by the
byte `v` sets the register with encoding `i` to `v`, and opcode 0x88 followed
by the ModR/M byte `v` sets the register selected by `v & 7` to the value of
the register selected by `(v >> 3) & 7`; in both cases the step returns with
every other register, the flags byte, SP and memory unchanged and IP advanced
by 2 modulo 256. -/
theorem mov_step (s : CPU) (v : U8) (hv : (fetch_byte (fetch_byte s).2).1 = v) :
    (∀ i, i < 8 → (fetch_byte s).1.val = 0xB0 + i →
      ∃ dest s', specEncoding i = some dest ∧ execute s = .next s' ∧
        s'.read dest = v ∧
        (∀ q, q ≠ dest → s'.read q = s.read q) ∧
        s'.flags = s.flags ∧ s'.sp = s.sp ∧ s'.memory = s.memory ∧
        s'.ip.val = (s.ip.val + 2) % 256) ∧
    ((fetch_byte s).1.val = 0x88 →
      ∃ dest src s', get_register (toU8 (v.val &&& 7)) = some dest ∧
        get_register (toU8 ((v.val >>> 3) &&& 7)) = some src ∧
        execute s = .next s' ∧
        s'.read dest = s.read src ∧
        (∀ q, q ≠ dest → s'.read q = s.read q) ∧
        s'.flags = s.flags ∧ s'.sp = s.sp ∧ s'.memory = s.memory ∧
        s'.ip.val = (s.ip.val + 2) % 256) := by
  subst hv
  constructor
  · intro i hi hop
    have hreg := mov_imm_register i hi
    obtain ⟨dest, hd⟩ := get_register_some (intToU8 (((0xB0 + i : Nat) : Int) - 0xB0))
    have hex := execute_movimm s (by omega)
    rw [hop, hd] at hex
    exact ⟨dest, _, by rw [← hreg, hd], hex,
      write_frame s dest (fetch_byte (fetch_byte s).2).1⟩
  · intro hop
    obtain ⟨dest, hd⟩ := get_register_some (toU8 ((fetch_byte (fetch_byte s).2).1.val &&& 7))
    obtain ⟨src, hs⟩ := get_register_some
      (toU8 (((fetch_byte (fetch_byte s).2).1.val >>> 3) &&& 7))
    obtain ⟨w1, w2⟩ := write_frame s dest ((fetch_byte (fetch_byte s).2).2.read src)
    refine ⟨dest, src, _, hd, hs, execute_mov_reg s dest src hop hd hs, ?_, w2⟩
    rw [w1, fetch_byte_read, fetch_byte_read]

/-- The witness of C20: the two MOV tests of the repository.  `B7 FF` sets BH
(encoding 7) to 0xFF, and `88 C3` copies AL = 0x42 into BL. -/
theorem mov_step_witness :
    ((fetch_byte (fetch_byte movDemo).2).1 = 0xFF ∧ (fetch_byte movDemo).1.val = 0xB0 + 7 ∧
      (fetch_byte (fetch_byte movRegDemo).2).1 = 0xC3 ∧ (fetch_byte movRegDemo).1.val = 0x88) ∧
    (∃ s', execute movDemo = .next s' ∧ s'.bh.val = 0xFF ∧ s'.al.val = 0x42 ∧ s'.ip.val = 2) ∧
    (∃ s', execute movRegDemo = .next s' ∧ s'.bl.val = 0x42 ∧ s'.al.val = 0x42 ∧
      s'.ip.val = 4) := by
  refine ⟨⟨by decide, by decide, by decide, by decide⟩, ?_, ?_⟩
  · obtain ⟨dest, s', h1, h2, h3, h4, -, -, -, h8⟩ :=
      (mov_step movDemo 0xFF (by decide)).1 7 (by decide) (by decide)
    obtain rfl : dest = Reg8.bh := (Option.some.inj h1).symm
    exact ⟨s', h2, congrArg Fin.val h3, congrArg Fin.val (h4 Reg8.al (by decide)), h8⟩
  · obtain ⟨dest, src, s', h1, h2, h3, h4, h5, -, -, -, h9⟩ :=
      (mov_step movRegDemo 0xC3 (by decide)).2 (by decide)
    obtain rfl : dest = Reg8.bl := (Option.some.inj h1).symm
    obtain rfl : src = Reg8.al := (Option.some.inj h2).symm
    exact ⟨s', h3, congrArg Fin.val h4, congrArg Fin.val (h5 Reg8.al (by decide)), h9⟩

/-! ## How a step ends -/

theorem execute_hlt (s : CPU) (h : (fetch_byte s).1.val = 0xF4) :
    execute s = .exit 0 (fetch_byte s).2 := by
  unfold execute
  simp only [h]

theorem execute_unknown (s : CPU) (h : (fetch_byte s).1.val ∉ opcodeTable) :
    execute s = .exit 1 (fetch_byte s).2 := by
  simp only [opcodeTable, List.mem_cons, List.mem_singleton, List.not_mem_nil, or_false,
    not_or] at h
  unfold execute
  dsimp only
  generalize (fetch_byte s).1.val = o at h ⊢
  split <;> first | rfl | omega

theorem execute_div_zero (s : CPU) (h : divByZero s) :
    execute s = .exit 1 (fetch_byte (fetch_byte s).2).2 := by
  obtain ⟨hop, hreg, src, hsrc, hz⟩ := h
  rw [execute_div s src hop hreg hsrc, fetch_byte_read, fetch_byte_read, if_pos hz]

/-- A step on 0xF6 returns unless it divides by zero. -/
theorem f6_returns (s : CPU) (hop : (fetch_byte s).1.val = 0xF6) (hnz : ¬ divByZero s) :
    ∃ s', execute s = .next s' := by
  obtain ⟨src, hsrc⟩ := get_register_some (modrm_rm (fetch_byte (fetch_byte s).2).1)
  by_cases h6 : ((fetch_byte (fetch_byte s).2).1.val >>> 3) &&& 7 = 6
  · have hne : (s.read src).val ≠ 0 := fun hz => hnz ⟨hop, h6, src, hsrc, hz⟩
    obtain ⟨s', h1, -⟩ := div_step s _ src hop rfl h6 hsrc hne
    exact ⟨s', h1⟩
  · unfold execute
    simp only [hop, hsrc]
    split
    · exact ⟨_, rfl⟩
    · exact absurd (by assumption) h6
    · exact ⟨_, rfl⟩
    · exact ⟨_, rfl⟩

/-- A shift step returns, whatever its count. -/
theorem shift_returns (s : CPU)
    (hop : (fetch_byte s).1.val = 0xD0 ∨ (fetch_byte s).1.val = 0xD2) :
    ∃ s', execute s = .next s' := by
  obtain ⟨dest, hd⟩ := get_register_some (modrm_rm (fetch_byte (fetch_byte s).2).1)
  rw [execute_shift s dest hop hd]
  by_cases h5 : ((fetch_byte (fetch_byte s).2).1.val >>> 3) &&& 7 = 5
  · rw [if_pos h5]
    exact ⟨_, rfl⟩
  · rw [if_neg h5]
    by_cases h4 : ((fetch_byte (fetch_byte s).2).1.val >>> 3) &&& 7 = 4
    · rw [if_pos h4]
      exact ⟨_, rfl⟩
    · rw [if_neg h4]
      exact ⟨_, rfl⟩

/-- A step on a two-operand ModR/M instruction returns. -/
theorem alu_returns (s : CPU)
    (hop : (fetch_byte s).1.val = 0x00 ∨ (fetch_byte s).1.val = 0x28 ∨
      (fetch_byte s).1.val = 0x20 ∨ (fetch_byte s).1.val = 0x08 ∨
      (fetch_byte s).1.val = 0x38 ∨ (fetch_byte s).1.val = 0x88) :
    ∃ s', execute s = .next s' := by
  obtain ⟨dest, hd⟩ := get_register_some (modrm_rm (fetch_byte (fetch_byte s).2).1)
  obtain ⟨src, hs⟩ := get_register_some (modrm_reg (fetch_byte (fetch_byte s).2).1)
  rcases hop with h | h | h | h | h | h
  · rw [execute_add s h, hd, hs]; exact ⟨_, rfl⟩
  · rw [execute_sub s h, hd, hs]; exact ⟨_, rfl⟩
  · rw [execute_and s h, hd, hs]; exact ⟨_, rfl⟩
  · rw [execute_or s h, hd, hs]; exact ⟨_, rfl⟩
  · rw [execute_cmp s h, hd, hs]; exact ⟨_, rfl⟩
  · exact ⟨_, execute_mov_reg s dest src h hd hs⟩

/-- A step on a conditional jump returns. -/
theorem jcc_returns (s : CPU)
    (hop : (fetch_byte s).1.val = 0x74 ∨ (fetch_byte s).1.val = 0x75 ∨
      (fetch_byte s).1.val = 0x7F ∨ (fetch_byte s).1.val = 0x7E) :
    ∃ s', execute s = .next s' := by
  rcases hop with h | h | h | h
  · rw [execute_je s h]; split <;> exact ⟨_, rfl⟩
  · rw [execute_jne s h]; split <;> exact ⟨_, rfl⟩
  · rw [execute_jg s h]; split <;> exact ⟨_, rfl⟩
  · rw [execute_jle s h]; split <;> exact ⟨_, rfl⟩

/-- Every step on an opcode of the table other than HLT returns, unless it
divides by zero. -/
theorem table_step_returns (s : CPU) (htab : (fetch_byte s).1.val ∈ opcodeTable)
    (hhlt : (fetch_byte s).1.val ≠ 0xF4) (hdiv : ¬ divByZero s) :
    ∃ s', execute s = .next s' := by
  simp only [opcodeTable, List.mem_cons, List.mem_singleton, List.not_mem_nil, or_false]
    at htab
  rcases htab with h | h | h | h | h | h | h | h | h | h | h | h | h | h | h | h | h | h |
    h | h | h | h | h | h | h | h | h | h | h | h | h | h
  · obtain ⟨s', h1, -⟩ := mov_imm_returns s (by omega); exact ⟨s', h1⟩
  · obtain ⟨s', h1, -⟩ := mov_imm_returns s (by omega); exact ⟨s', h1⟩
  · obtain ⟨s', h1, -⟩ := mov_imm_returns s (by omega); exact ⟨s', h1⟩
  · obtain ⟨s', h1, -⟩ := mov_imm_returns s (by omega); exact ⟨s', h1⟩
  · obtain ⟨s', h1, -⟩ := mov_imm_returns s (by omega); exact ⟨s', h1⟩
  · obtain ⟨s', h1, -⟩ := mov_imm_returns s (by omega); exact ⟨s', h1⟩
  · obtain ⟨s', h1, -⟩ := mov_imm_returns s (by omega); exact ⟨s', h1⟩
  · obtain ⟨s', h1, -⟩ := mov_imm_returns s (by omega); exact ⟨s', h1⟩
  · exact alu_returns s (by omega)
  · exact alu_returns s (by omega)
  · exact alu_returns s (by omega)
  · exact ⟨_, execute_sub_al s h⟩
  · obtain ⟨dest, hd⟩ := get_register_some (modrm_rm (fetch_byte (fetch_byte s).2).1)
    exact ⟨_, execute_incdec s dest h hd⟩
  · exact f6_returns s h hdiv
  · exact alu_returns s (by omega)
  · exact alu_returns s (by omega)
  · exact shift_returns s (Or.inl h)
  · exact shift_returns s (Or.inr h)
  · exact ⟨_, execute_jmp s h⟩
  · exact jcc_returns s (by omega)
  · exact jcc_returns s (by omega)
  · exact jcc_returns s (by omega)
  · exact jcc_returns s (by omega)
  · exact alu_returns s (by omega)
  · exact ⟨_, execute_cmp_al s h⟩
  · exact ⟨_, execute_call s h⟩
  · exact ⟨_, execute_ret s h⟩
  · exact ⟨_, execute_push_ax s h⟩
  · exact ⟨_, execute_push_dx s h⟩
  · exact ⟨_, execute_pop_ax s h⟩
  · exact ⟨_, execute_pop_dx s h⟩
  · exact absurd h hhlt

/-- Every step returns or ends the process: HLT and the error paths exit, every
other step returns a successor state. -/
theorem execute_returns_or_exits (s : CPU) :
    (∃ s', execute s = .next s') ∨ ∃ code c, execute s = .exit code c := by
  by_cases h1 : (fetch_byte s).1.val = 0xF4
  · exact Or.inr ⟨_, _, execute_hlt s h1⟩
  · by_cases h2 : (fetch_byte s).1.val ∈ opcodeTable
    · by_cases h3 : divByZero s
      · exact Or.inr ⟨_, _, execute_div_zero s h3⟩
      · exact Or.inl (table_step_returns s h2 h1 h3)
    · exact Or.inr ⟨_, _, execute_unknown s h2⟩

/-- C14: for every CPU state, one `execute` step ends the process with success
(exit 0) iff the fetched opcode is 0xF4, in which case registers, flags and SP
are unchanged and IP is one past the HLT byte; it ends the process with
failure (exit 1) iff the fetched opcode is not a first byte of the opcode table
or it is 0xF6 with reg field 6 and a zero source register; in every other case,
including 0xF6/0xFE/0xD0/0xD2 with reg fields the table does not list, the step
returns a successor state. -/
theorem step_termination (s : CPU) :
    ((∃ c, execute s = .exit 0 c) ↔ (fetch_byte s).1.val = 0xF4) ∧
    ((fetch_byte s).1.val = 0xF4 →
      ∃ c, execute s = .exit 0 c ∧ (∀ p, c.read p = s.read p) ∧ c.flags = s.flags ∧
        c.sp = s.sp ∧ c.ip.val = (s.ip.val + 1) % 256) ∧
    ((∃ c, execute s = .exit 1 c) ↔ ((fetch_byte s).1.val ∉ opcodeTable ∨ divByZero s)) ∧
    ((fetch_byte s).1.val ≠ 0xF4 → (fetch_byte s).1.val ∈ opcodeTable → ¬ divByZero s →
      ∃ s', execute s = .next s') ∧
    (((fetch_byte s).1.val = 0xF6 ∧
        ((fetch_byte (fetch_byte s).2).1.val >>> 3) &&& 7 ≠ 6) ∨
      (fetch_byte s).1.val = 0xFE ∨
      (fetch_byte s).1.val = 0xD0 ∨ (fetch_byte s).1.val = 0xD2 →
      ∃ s', execute s = .next s') := by
  have hcases : (fetch_byte s).1.val = 0xF4 ∨ (fetch_byte s).1.val ∉ opcodeTable ∨
      divByZero s ∨ ∃ s', execute s = .next s' := by
    by_cases h1 : (fetch_byte s).1.val = 0xF4
    · exact Or.inl h1
    · by_cases h2 : (fetch_byte s).1.val ∈ opcodeTable
      · by_cases h3 : divByZero s
        · exact Or.inr (Or.inr (Or.inl h3))
        · exact Or.inr (Or.inr (Or.inr (table_step_returns s h2 h1 h3)))
      · exact Or.inr (Or.inl h2)
  refine ⟨⟨?_, fun h => ⟨_, execute_hlt s h⟩⟩, fun h => ?_, ⟨?_, ?_⟩,
    fun h1 h2 h3 => table_step_returns s h2 h1 h3, fun h => ?_⟩
  · rintro ⟨c, hc⟩
    rcases hcases with h | h | h | ⟨s', h⟩
    · exact h
    · rw [execute_unknown s h] at hc
      exact absurd (Outcome.exit.inj hc).1 (by decide)
    · rw [execute_div_zero s h] at hc
      exact absurd (Outcome.exit.inj hc).1 (by decide)
    · rw [h] at hc
      exact Outcome.noConfusion hc
  · refine ⟨_, execute_hlt s h, fun p => ?_, rfl, rfl, rfl⟩
    rw [fetch_byte_read]
  · rintro ⟨c, hc⟩
    rcases hcases with h | h | h | ⟨s', h⟩
    · rw [execute_hlt s h] at hc
      exact absurd (Outcome.exit.inj hc).1 (by decide)
    · exact Or.inl h
    · exact Or.inr h
    · rw [h] at hc
      exact Outcome.noConfusion hc
  · rintro (h | h)
    · exact ⟨_, execute_unknown s h⟩
    · exact ⟨_, execute_div_zero s h⟩
  · rcases h with ⟨h, hr⟩ | h | h | h
    · exact f6_returns s h (fun hd => hr hd.2.1)
    · obtain ⟨dest, hd⟩ := get_register_some (modrm_rm (fetch_byte (fetch_byte s).2).1)
      exact ⟨_, execute_incdec s dest h hd⟩
    · exact shift_returns s (Or.inl h)
    · exact shift_returns s (Or.inr h)

/-- The witness of C14: `F4` exits with code 0 and IP = 1, the opcode 0x90
(not in the table) exits with code 1, DIV BL with BL = 0 (`F6 F3`) exits with
code 1, NOT's neighbour `F6 C0` (reg field 0, not listed) returns a successor
state, and so does SHR AL, CL (`D2 E8`) with AL = 0x80 and CL = 0xFF, leaving
AL = 0 with ZF set. -/
theorem step_termination_witness :
    (∃ c, execute (bootDemo [0xF4]) = .exit 0 c ∧ c.ip.val = 1) ∧
    (∃ c, execute (bootDemo [0x90]) = .exit 1 c) ∧
    (∃ c, execute (bootDemo [0xF6, 0xF3]) = .exit 1 c) ∧
    (∃ s', execute (bootDemo [0xF6, 0xC0]) = .next s') ∧
    (∃ s', execute shrDemo = .next s') ∧
    (∃ s', execute shrDemo = .next s' ∧ (s'.read Reg8.al).val = 0 ∧
      s'.flagSet FLAG_ZERO = true) := by
  refine ⟨?_, ?_, ?_, ?_, ?_, ?_⟩
  · obtain ⟨c, h1, -, -, -, h5⟩ := (step_termination (bootDemo [0xF4])).2.1 (by decide)
    exact ⟨c, h1, h5⟩
  · exact (step_termination (bootDemo [0x90])).2.2.1.mpr (Or.inl (by decide))
  · exact (step_termination (bootDemo [0xF6, 0xF3])).2.2.1.mpr
      (Or.inr ⟨by decide, by decide, Reg8.bl, by decide, by decide⟩)
  · exact (step_termination (bootDemo [0xF6, 0xC0])).2.2.2.2
      (Or.inl ⟨by decide, by decide⟩)
  · exact (step_termination shrDemo).2.2.2.2 (Or.inr (Or.inr (Or.inr (by decide))))
  · obtain ⟨s', h1, -, -, -, -, -, h7⟩ := (shift_step shrDemo 0xE8 Reg8.al 255
      (Or.inr ⟨by decide, by decide⟩) (by decide) (by decide)).2 (by decide)
    exact ⟨s', h1, h7 (by decide)⟩

/-! ## DIV never divides by zero -/

/-- C23: for every CPU state whose next `execute` step fetches DIV (0xF6 with
reg field 6) on a register whose value is non-zero, the step returns: neither
the quotient nor the remainder computation divides by zero, the divisor of the
remainder being the selected register as re-read after AL was overwritten by
the low byte of the quotient, which is the new AL when the selected register
is AL.  For every AH in 0..255 and AL in 1..255,
`((AH*256 + AL) div AL) mod 256` is non-zero. -/
theorem div_never_by_zero (s : CPU) (m : U8) (src : Reg8)
    (hop : (fetch_byte s).1.val = 0xF6) (hm : (fetch_byte (fetch_byte s).2).1 = m)
    (hreg : (m.val >>> 3) &&& 7 = 6) (hsrc : get_register (toU8 (m.val &&& 7)) = some src)
    (hnz : (s.read src).val ≠ 0) :
    (∃ s', execute s = .next s' ∧
      s'.al.val = ((s.ah.val * 256 + s.al.val) / (s.read src).val) % 256 ∧
      (CPU.read { s with al := s'.al } src).val ≠ 0 ∧
      (src = Reg8.al → CPU.read { s with al := s'.al } src = s'.al ∧ s'.al.val ≠ 0)) ∧
    execute s ≠ .undefined ∧
    (∀ h l : U8, l.val ≠ 0 → ((h.val * 256 + l.val) / l.val) % 256 ≠ 0) := by
  obtain ⟨s', h1, h2, h3, -⟩ := div_step s m src hop hm hreg hsrc hnz
  refine ⟨⟨s', h1, h2, h3, fun hal => ?_⟩, ?_, fun h l hl => ?_⟩
  · subst hal
    exact ⟨rfl, h3⟩
  · rw [h1]
    exact fun h => Outcome.noConfusion h
  · exact div_self_low_byte_ne_zero h.val l.val (Nat.pos_of_ne_zero hl) l.isLt

/-- The witness of C23: with AX = 258, DIV AL (`F6 F0`) divides by AL = 2,
leaves AL = 129 and then takes the remainder by the new AL = 129, leaving
AH = (256 + 129) mod 129 = 127. -/
theorem div_never_by_zero_witness :
    ((fetch_byte divAlDemo).1.val = 0xF6 ∧ (fetch_byte (fetch_byte divAlDemo).2).1 = 0xF0 ∧
      ((0xF0 : U8).val >>> 3) &&& 7 = 6 ∧
      get_register (toU8 ((0xF0 : U8).val &&& 7)) = some Reg8.al ∧
      (divAlDemo.read Reg8.al).val ≠ 0) ∧
    ∃ s', execute divAlDemo = .next s' ∧ s'.al.val = 129 ∧ s'.ah.val = 127 := by
  refine ⟨⟨by decide, by decide, by decide, by decide, by decide⟩, ?_⟩
  obtain ⟨⟨s', h1, h2, -, -⟩, -, -⟩ := div_never_by_zero divAlDemo 0xF0 Reg8.al (by decide)
    (by decide) (by decide) (by decide) (by decide)
  obtain rfl : s' = _ := Outcome.next.inj (h1.symm.trans
    ((execute_div divAlDemo Reg8.al (by decide) (by decide) (by decide)).trans
      ((if_neg (by decide)).trans (if_neg (by decide)))))
  exact ⟨_, h1, by decide, by decide⟩

/-! ## What every step leaves alone -/

@[simp] theorem jump_icache (cpu : CPU) (k : Int) : (cpu.jump k).icache = cpu.icache := rfl

@[simp] theorem push_icache (cpu : CPU) (v : U8) : (cpu.push v).icache = cpu.icache := rfl

@[simp] theorem push_flags (cpu : CPU) (v : U8) : (cpu.push v).flags = cpu.flags := rfl

@[simp] theorem incSp_icache (cpu : CPU) : cpu.incSp.icache = cpu.icache := rfl

@[simp] theorem incSp_flags (cpu : CPU) : cpu.incSp.flags = cpu.flags := rfl

theorem update_flags_other_bits (c s : CPU) (b : U8) (h : c.flags = s.flags) :
    ∀ i, i ≠ 6 → i ≠ 7 → (update_flags c b).flags.val.testBit i = s.flags.val.testBit i := by
  intro i h6 h7
  rw [(update_flags_bits c b).2.2 i h6 h7, h]

/-- Whatever opcode is fetched, the state a step returns or exits with has the
cache left by the step's fetches and the old flag bits other than ZF and SF. -/
theorem execute_carries_frame (s : CPU) : (execute s).carries (stepFrame s) := by
  unfold execute
  dsimp only
  generalize (fetch_byte s).1.val = o
  split
  all_goals repeat' split
  all_goals simp only [Outcome.carries, stepFrame]
  all_goals try trivial
  all_goals refine ⟨?_, fun i h6 h7 => ?_⟩
  all_goals try (simp only [write_icache, update_flags_icache, jump_icache, push_icache,
    incSp_icache, true_or, or_true]; done)
  all_goals try (simp only [write_flags, jump_flags, push_flags, incSp_flags,
    fetch_byte_flags]; done)
  all_goals try simp only [write_flags]
  all_goals
    refine update_flags_other_bits _ s _ ?_ i h6 h7
  all_goals simp only [write_flags, fetch_byte_flags]

/-! ## Cache coherency -/

/-- A fetch never clears the valid bit of a line. -/
theorem fetch_keeps_valid (c : InstructionCache) (M : Nat → U8) (a i : Nat)
    (h : (c.lines i).valid = true) : ((cache_fetch_byte c M a).2.lines i).valid = true := by
  by_cases hit : lineHits c a
  · rw [cache_fetch_hit c M a hit]; exact h
  · rw [cache_fetch_miss c M a hit, fill_lines]
    by_cases hi : i = get_cache_index a
    · rw [if_pos hi]
    · rw [if_neg hi]; exact h

theorem fetch_byte_keeps_valid (s : CPU) (i : Nat) (h : (s.icache.lines i).valid = true) :
    ((fetch_byte s).2.icache.lines i).valid = true :=
  fetch_keeps_valid s.icache s.memory s.ip.val i h

/-- The state a step returns or exits with has every line valid that was valid
before the step. -/
theorem frame_keeps_valid (s c : CPU) (hf : stepFrame s c) (i : Nat)
    (h : (s.icache.lines i).valid = true) : (c.icache.lines i).valid = true := by
  have h1 := fetch_byte_keeps_valid s i h
  have h2 := fetch_byte_keeps_valid _ i h1
  have h3 := fetch_byte_keeps_valid _ i h2
  rcases hf.1 with e | e | e <;> rw [e] <;> assumption

/-- A fetch at an address below 256 whose line is valid with tag 0: a hit that
returns the stored byte whatever the memory holds. -/
theorem fetch_valid_line (c : InstructionCache) (M : Nat → U8) (a : Nat) (ha : a < 256)
    (hv : (c.lines (a / 8)).valid = true) (ht : (c.lines (a / 8)).tag = 0) :
    cache_fetch_byte c M a =
      ((c.lines (a / 8)).data (a % 8), { c with hits := incU32 c.hits }) := by
  have hit : lineHits c a := by
    unfold lineHits
    rw [cache_index_eq a ha, cache_tag_eq a ha]
    exact ⟨hv, ht⟩
  rw [cache_fetch_hit c M a hit, cache_index_eq a ha, cache_offset_eq a ha]

/-- C21: for every cache state whose line for an address `a` in [0, 256) is
valid with tag 0, `cache_fetch_byte` at `a` returns that line's stored
`data[a mod 8]` and counts a hit (`hits++`, `misses` unchanged) whatever the
memory argument holds, and changes no line.  Hence a memory write made by PUSH
or CALL is not seen by later fetches from an already cached block: the step
leaves the cache as its own fetches left it, and a fetch from a valid line of
that cache returns the stored byte, the same against the written memory as
against the memory before the write.  No `execute` step ever invalidates a
line: every step returns or exits, and a line valid before the step is valid
in the state it returns or exits with. -/
theorem cache_not_coherent :
    (∀ (c : InstructionCache) (M : Nat → U8) (a : Nat), a < 256 →
      (c.lines (a / 8)).valid = true → (c.lines (a / 8)).tag = 0 →
        (cache_fetch_byte c M a).1 = (c.lines (a / 8)).data (a % 8) ∧
        (cache_fetch_byte c M a).2.hits.val = (c.hits.val + 1) % 4294967296 ∧
        (cache_fetch_byte c M a).2.misses = c.misses ∧
        (cache_fetch_byte c M a).2.lines = c.lines ∧
        ∀ M' : Nat → U8, cache_fetch_byte c M' a = cache_fetch_byte c M a) ∧
    (∀ s s' : CPU,
      (fetch_byte s).1.val = 0x50 ∨ (fetch_byte s).1.val = 0x52 ∨
        (fetch_byte s).1.val = 0xE8 →
      execute s = .next s' →
        (s'.icache = (fetch_byte s).2.icache ∨
          s'.icache = (fetch_byte (fetch_byte (fetch_byte s).2).2).2.icache) ∧
        ∀ a, a < 256 → (s'.icache.lines (a / 8)).valid = true →
          (s'.icache.lines (a / 8)).tag = 0 →
            (cache_fetch_byte s'.icache s'.memory a).1
              = (s'.icache.lines (a / 8)).data (a % 8) ∧
            cache_fetch_byte s'.icache s'.memory a = cache_fetch_byte s'.icache s.memory a) ∧
    (∀ (s s' : CPU) (i : Nat), execute s = .next s' →
      (s.icache.lines i).valid = true → (s'.icache.lines i).valid = true) ∧
    (∀ (s c : CPU) (code i : Nat), execute s = .exit code c →
      (s.icache.lines i).valid = true → (c.icache.lines i).valid = true) ∧
    (∀ s : CPU, ∃ c, (execute s = .next c ∨ ∃ code, execute s = .exit code c) ∧
      ∀ i, (s.icache.lines i).valid = true → (c.icache.lines i).valid = true) := by
  refine ⟨fun c M a ha hv ht => ?_, fun s s' hop hex => ⟨?_, fun a ha hv ht => ?_⟩,
    fun s s' i hex hv => ?_, fun s c code i hex hv => ?_, fun s => ?_⟩
  · rw [fetch_valid_line c M a ha hv ht]
    exact ⟨rfl, rfl, rfl, rfl, fun M' => fetch_valid_line c M' a ha hv ht⟩
  · rcases hop with h | h | h
    · rw [execute_push_ax s h] at hex
      rw [← Outcome.next.inj hex]
      exact Or.inl rfl
    · rw [execute_push_dx s h] at hex
      rw [← Outcome.next.inj hex]
      exact Or.inl rfl
    · rw [execute_call s h] at hex
      rw [← Outcome.next.inj hex]
      exact Or.inr rfl
  · rw [fetch_valid_line _ s'.memory a ha hv ht, fetch_valid_line _ s.memory a ha hv ht]
    exact ⟨rfl, rfl⟩
  · have hf := execute_carries_frame s
    rw [hex] at hf
    exact frame_keeps_valid s s' hf i hv
  · have hf := execute_carries_frame s
    rw [hex] at hf
    exact frame_keeps_valid s c hf i hv
  · have hf := execute_carries_frame s
    rcases execute_returns_or_exits s with ⟨c, hc⟩ | ⟨code, c, hc⟩
    · rw [hc] at hf
      exact ⟨c, Or.inl hc, fun i hv => frame_keeps_valid s c hf i hv⟩
    · rw [hc] at hf
      exact ⟨c, Or.inr ⟨code, hc⟩, fun i hv => frame_keeps_valid s c hf i hv⟩

/-- The witness of C21: with SP = 2, PUSH AX (fetched at address 0, which
caches the block 0..7) overwrites memory[1] with AH = 0xBB, yet the next fetch,
at address 1, still returns the cached 0x11. -/
theorem cache_not_coherent_witness :
    (fetch_byte pushOverCode).1.val = 0x50 ∧
    ∃ s', execute pushOverCode = .next s' ∧ s'.ip.val = 1 ∧ (s'.memory 1).val = 0xBB ∧
      (s'.icache.lines (1 / 8)).valid = true ∧ (s'.icache.lines (1 / 8)).tag = 0 ∧
      (cache_fetch_byte s'.icache s'.memory 1).1.val = 0x11 ∧
      (fetch_byte s').1.val = 0x11 := by
  refine ⟨by decide, _, execute_push_ax pushOverCode (by decide), by decide, by decide,
    by decide, by decide, ?_, by decide⟩
  have h := (cache_not_coherent.2.1 pushOverCode _ (Or.inl (by decide))
    (execute_push_ax pushOverCode (by decide))).2 1 (by decide) (by decide) (by decide)
  rw [h.1]
  decide

/-! ## The reserved flag bits -/

set_option maxRecDepth 100000 in
theorem low_flag_bits_clear : ∀ f : U8,
    (∀ i : Fin 8, i.val ≠ 6 → i.val ≠ 7 → f.val.testBit i.val = false) →
      f.val &&& FLAG_CARRY = 0 ∧ f.val &&& 0x3F = 0 := by
  decide

/-- Runs of returning steps keep the flag bits other than ZF and SF. -/
theorem runSteps_other_bits (n : Nat) : ∀ s0 s, runSteps n s0 = some s →
    ∀ i, i ≠ 6 → i ≠ 7 → s.flags.val.testBit i = s0.flags.val.testBit i := by
  induction n with
  | zero =>
    intro s0 s h i _ _
    simp only [runSteps, Option.some.injEq] at h
    rw [h]
  | succ n ih =>
    intro s0 s h i h6 h7
    unfold runSteps at h
    have hf := execute_carries_frame s0
    cases hex : execute s0 with
    | next s1 =>
      rw [hex] at h hf
      rw [ih s1 s h i h6 h7]
      exact hf.2 i h6 h7
    | exit code c =>
      rw [hex] at h
      exact absurd h (by simp)
    | undefined =>
      rw [hex] at h
      exact absurd h (by simp)

/-- A run of steps stops only at a step that ends the process. -/
theorem runSteps_stops_at_exit (n : Nat) : ∀ s0, runSteps n s0 = none →
    ∃ k s code c, k < n ∧ runSteps k s0 = some s ∧ execute s = .exit code c := by
  induction n with
  | zero =>
    intro s0 h
    simp only [runSteps] at h
    exact absurd h (by simp)
  | succ n ih =>
    intro s0 h
    rcases execute_returns_or_exits s0 with ⟨s1, hex⟩ | ⟨code, c, hex⟩
    · unfold runSteps at h
      rw [hex] at h
      obtain ⟨k, s, code, c, hk, hrun, hc⟩ := ih s1 h
      refine ⟨k + 1, s, code, c, by omega, ?_, hc⟩
      unfold runSteps
      rw [hex]
      exact hrun
    · exact ⟨0, s0, code, c, by omega, rfl, hex⟩

/-- C22: for every CPU state and every `execute` step that returns a
successor state, all flag bits other than ZF (0x40, bit 6) and SF (0x80,
bit 7) are unchanged; therefore in every state reachable from `init_cpu` by
`execute` steps, for any memory contents, FLAG_CARRY (0x01) is clear and
`flags & 0x3F == 0`.  The steps that return are all the steps that do not end
the process, and a run of steps from `init_cpu` stops only at a step that ends
the process, in a state with the same six bits. -/
theorem reserved_flag_bits :
    (∀ s s' : CPU, execute s = .next s' →
      ∀ i, i ≠ 6 → i ≠ 7 → s'.flags.val.testBit i = s.flags.val.testBit i) ∧
    (∀ (M : Nat → U8) (n : Nat) (s : CPU), runSteps n (bootState M) = some s →
      s.flags.val &&& FLAG_CARRY = 0 ∧ s.flags.val &&& 0x3F = 0) ∧
    (∀ s : CPU, (∃ s', execute s = .next s') ∨ ∃ code c, execute s = .exit code c) ∧
    (∀ (s c : CPU) (code : Nat), execute s = .exit code c →
      ∀ i, i ≠ 6 → i ≠ 7 → c.flags.val.testBit i = s.flags.val.testBit i) ∧
    (∀ (M : Nat → U8) (n : Nat), runSteps n (bootState M) = none →
      ∃ k s code c, k < n ∧ runSteps k (bootState M) = some s ∧
        execute s = .exit code c ∧
        c.flags.val &&& FLAG_CARRY = 0 ∧ c.flags.val &&& 0x3F = 0) := by
  have hreach : ∀ (M : Nat → U8) (n : Nat) (s : CPU), runSteps n (bootState M) = some s →
      ∀ i : Fin 8, i.val ≠ 6 → i.val ≠ 7 → s.flags.val.testBit i.val = false := by
    intro M n s hrun i h6 h7
    rw [runSteps_other_bits n _ s hrun i.val h6 h7]
    exact Nat.zero_testBit i.val
  refine ⟨fun s s' hex => ?_, fun M n s hrun => ?_, execute_returns_or_exits,
    fun s c code hex => ?_, fun M n hnone => ?_⟩
  · have hf := execute_carries_frame s
    rw [hex] at hf
    exact hf.2
  · exact low_flag_bits_clear _ (hreach M n s hrun)
  · have hf := execute_carries_frame s
    rw [hex] at hf
    exact hf.2
  · obtain ⟨k, s, code, c, hk, hrun, hc⟩ := runSteps_stops_at_exit n _ hnone
    refine ⟨k, s, code, c, hk, hrun, hc, ?_⟩
    apply low_flag_bits_clear
    intro i h6 h7
    have hf := execute_carries_frame s
    rw [hc] at hf
    rw [hf.2 i.val h6 h7]
    exact hreach M k s hrun i h6 h7

/-- The witness of C22: scenario 5 of the specification.  Two steps of
`B0 05 2C 06` from the initial state leave flags = 0x80 (SF alone), so the
carry bit and the low six bits are clear. -/
theorem reserved_flag_bits_witness :
    ∃ s, runSteps 2 (bootState (loadImage [0xB0, 0x05, 0x2C, 0x06, 0xF4])) = some s ∧
      s.flags.val = 0x80 ∧ s.al.val = 0xFF ∧
      s.flags.val &&& FLAG_CARRY = 0 ∧ s.flags.val &&& 0x3F = 0 := by
  refine ⟨_, rfl, by decide, by decide, ?_⟩
  exact reserved_flag_bits.2.1 (loadImage [0xB0, 0x05, 0x2C, 0x06, 0xF4]) 2 _ rfl

end TinyX86
